import Mathlib

/-!
# Block lock handler (src/llmq/blocklocks.cpp, src/llmq/blsig.{h,cpp})

A shallow embedding of `llmq::CBlockLocksHandler`.  The handler object is a
record of its data members; every member function becomes a function on that
record.  Everything the handler asks of the rest of the node during one call
(spork state, active chain tip, block index lookup, signature verification,
clocks, instant-send state, disk reads) is gathered in `Env`, a snapshot of
the answers it gets during that call.  Calls into other subsystems that
return nothing the handler uses (relay, misbehaviour score, scheduler,
signals) are recorded as a list of `Effect`s.  A call that dereferences a
null pointer or trips an `assert` yields `none`.

Mutexes are not modelled: each member function is taken as one atomic step.
Heights and times are unbounded integers; the code compares them and
subtracts two of them, nothing else.
-/

namespace llmq

/-! ## Data model -/

/-- A 256-bit value (`uint256`): only equality and the zero value are used. -/
abbrev uint256 := Nat

/-- A peer id (`NodeId`); -1 stands for the node itself. -/
abbrev NodeId := Int

/-- A BLS signature, kept abstract; the default-constructed one is 0. -/
abbrev CBLSSignature := Nat

/-- The record of blsig.h: `int32_t nHeight{-1}; uint256 blockHash; CBLSSignature sig;`. -/
structure CBlockLockSig where
  nHeight : Int := -1
  blockHash : uint256 := 0
  sig : CBLSSignature := 0
deriving DecidableEq

/-- blsig.cpp: `return nHeight == -1 && blockHash == uint256();`. -/
def CBlockLockSig.IsNull (b : CBlockLockSig) : Bool :=
  b.nHeight == -1 && b.blockHash == 0

/-- An entry of the block index, as far as the handler reads it: `nHeight`,
`GetBlockHash()` and `pprev`.  `root` is an entry whose `pprev` is null.
Two pointers are equal when the entries are. -/
inductive CBlockIndex where
  | root (nHeight : Int) (hash : uint256)
  | node (nHeight : Int) (hash : uint256) (pprev : CBlockIndex)
deriving DecidableEq

def CBlockIndex.nHeight : CBlockIndex → Int
  | .root h _ => h
  | .node h _ _ => h

def CBlockIndex.GetBlockHash : CBlockIndex → uint256
  | .root _ x => x
  | .node _ x _ => x

def CBlockIndex.pprev : CBlockIndex → Option CBlockIndex
  | .root _ _ => none
  | .node _ _ p => some p

/-- Modelled from the spec: `CBlockIndex::GetAncestor` lives in chain.cpp, which
is not among the sources.  The spec speaks of "tracing `best_index` back via
ancestors to height h": follow `pprev` from the entry until an entry of height
`h` is met; there is none when the chain ends first. -/
def CBlockIndex.GetAncestor : CBlockIndex → Int → Option CBlockIndex
  | .root ht x, h => if h = ht then some (.root ht x) else none
  | .node ht x p, h => if h = ht then some (.node ht x p) else p.GetAncestor h

/-- The shape every chain of block index entries has: an entry without
predecessor is the genesis block at height 0, every other entry is one above
its predecessor. -/
def CBlockIndex.WellFormed : CBlockIndex → Prop
  | .root ht _ => ht = 0
  | .node ht _ p => ht = p.nHeight + 1 ∧ p.WellFormed

/-- A transaction as the handler reads it: `GetHash()`, `IsCoinBase()`, `vin`. -/
structure CTransaction where
  hash : uint256
  IsCoinBase : Bool
  vin : List uint256
deriving DecidableEq

/-- A block as the handler reads it: `vtx` and `nTime`. -/
structure CBlock where
  vtx : List CTransaction
  nTime : Int
deriving DecidableEq

/-- A recovered signature as the handler reads it: `id`, `msgHash`, `sig.Get()`. -/
structure CRecoveredSig where
  id : uint256
  msgHash : uint256
  sig : CBLSSignature
deriving DecidableEq

/-- `emplace` on a map: the entry is added only when the key is absent; the
second component tells whether it was added. -/
def emplace {α : Type} (m : List (uint256 × α)) (k : uint256) (v : α) :
    List (uint256 × α) × Bool :=
  if (m.lookup k).isSome then (m, false) else (m ++ [(k, v)], true)

/-- `erase(key)` on a map. -/
def erase {α : Type} (m : List (uint256 × α)) (k : uint256) : List (uint256 × α) :=
  m.filter (fun e => e.1 != k)

/-- `emplace` on a set of txids. -/
def setEmplace (s : List uint256) (x : uint256) : List uint256 :=
  if s.contains x then s else s ++ [x]

/-- Writes through the pointer a map holds for key `k` (first entry of that key). -/
def assign {α : Type} : List (uint256 × α) → uint256 → α → List (uint256 × α)
  | [], _, _ => []
  | (k0, v0) :: rest, k, v => if k0 == k then (k0, v) :: rest else (k0, v0) :: assign rest k v

/-- blocklocks.h: the constants of the class. -/
def CLEANUP_INTERVAL : Int := 1000 * 30

def CLEANUP_SEEN_TIMEOUT : Int := 24 * 60 * 60 * 1000

def WAIT_FOR_ISLOCK_TIMEOUT : Int := 10 * 60

/-- The data members of `CBlockLocksHandler` (blocklocks.h), with their
initial values. -/
structure CBlockLocksHandler where
  tryLockBlockTipScheduled : Bool := false
  isEnabled : Bool := false
  isEnforced : Bool := false
  bestBlockLockHash : uint256 := 0
  bestBlockLock : CBlockLockSig := {}
  bestBlockLockWithKnownBlock : CBlockLockSig := {}
  bestBlockLockBlockIndex : Option CBlockIndex := none
  lastNotifyBlockLockBlockIndex : Option CBlockIndex := none
  lastSignedHeight : Int := -1
  lastSignedRequestId : uint256 := 0
  lastSignedMsgHash : uint256 := 0
  blockTxs : List (uint256 × List uint256) := []
  txFirstSeenTime : List (uint256 × Int) := []
  seenBlockLocks : List (uint256 × Int) := []
  lastCleanupTime : Int := 0
deriving DecidableEq

/-- What the rest of the node answers during one call of a member function. -/
structure Env where
  /-- The value of `sporkManager.IsSporkActive(SPORK_25_BLOCKLOCKS_ENABLED)`. -/
  IsSporkActive : Bool
  /-- The value of `::ChainActive().Tip()` as the call reads it. -/
  Tip : Option CBlockIndex
  /-- The value of `Params().GetConsensus().nBLHeight`. -/
  nBLHeight : Int
  /-- The value of `Params().GetConsensus().llmqTypeBlockLocks`. -/
  llmqTypeBlockLocks : Nat
  /-- The answer of `CSigningManager::VerifyRecoveredSig(type, height, id, msgHash, sig)`. -/
  VerifyRecoveredSig : Nat → Int → uint256 → uint256 → CBLSSignature → Bool
  LookupBlockIndex : uint256 → Option CBlockIndex
  GetTimeMillis : Int
  GetAdjustedTime : Int
  fMasternodeMode : Bool
  /-- The value of `masternodeSync.IsBlockchainSynced()`. -/
  IsBlockchainSynced : Bool
  IsInstantSendEnabled : Bool
  RejectConflictingBlocks : Bool
  /-- The answer of `quorumInstantSendManager->IsLocked(txid)`. -/
  IsLocked : uint256 → Bool
  /-- The block `ReadBlockFromDisk` reads for the index entry it is handed, if it can. -/
  ReadBlockFromDisk : Option CBlockIndex → Option CBlock
  /-- The `hashBlock` that `GetTransaction` reports, when it finds the transaction. -/
  GetTransaction : uint256 → Option uint256
  /-- The result of `ActivateBestChain(state, params)`. -/
  ActivateBestChain : Bool
  /-- The value of `::ChainActive().Tip()` once `ActivateBestChain` has returned. -/
  TipAfterActivate : Option CBlockIndex
  /-- The value of `::SerializeHash(std::make_pair(BLSIG_REQUESTID_PREFIX, nHeight))`. -/
  SerializeHashRequestId : Int → uint256
  /-- The value of `::SerializeHash(blsig)`. -/
  SerializeHash : CBlockLockSig → uint256

/-- Calls that leave the handler. -/
inductive Effect where
  | EraseObjectRequest (pfrom : NodeId) (hash : uint256)
  | Misbehaving (pfrom : NodeId) (howmuch : Int)
  | RelayInv (hash : uint256)
  /-- `scheduleFromNow` of `CheckActiveState(); EnforceBestBlockLock();`. -/
  | ScheduleEnforce
  /-- `scheduleFromNow` of the task of `UpdatedBlockTip`. -/
  | ScheduleTrySign
  | EnforceBlock (pindex : CBlockIndex)
  | ActivateBestChain
  /-- `GetMainSignals().NotifyBlockLock(pindex, blsig)`. -/
  | NotifyBlockLock (pindex : CBlockIndex) (blsig : CBlockLockSig)
  /-- `uiInterface.NotifyBlockLock(blockHash, nHeight)`. -/
  | UiNotifyBlockLock (blockHash : uint256) (nHeight : Int)
  | AsyncSignIfMember (llmqType : Nat) (requestId : uint256) (msgHash : uint256)
deriving DecidableEq

/-! ## Member functions -/

def AreBlockLocksEnabled (env : Env) : Bool :=
  env.IsSporkActive

def AlreadyHave (s : CBlockLocksHandler) (hash : uint256) : Bool :=
  (s.seenBlockLocks.lookup hash).isSome

def GetBlockLockByHash (s : CBlockLocksHandler) (hash : uint256) : Option CBlockLockSig :=
  if hash ≠ s.bestBlockLockHash then none else some s.bestBlockLock

def GetBestBlockLock (s : CBlockLocksHandler) : CBlockLockSig :=
  s.bestBlockLock

/-- The local `nBLActive` of `CheckActiveState`:
`Tip() && Tip()->pprev && Tip()->pprev->nHeight >= nBLHeight`. -/
def nBLActive (env : Env) : Bool :=
  match env.Tip with
  | none => false
  | some tip =>
    match tip.pprev with
    | none => false
    | some prev => decide (prev.nHeight ≥ env.nBLHeight)

def CheckActiveState (env : Env) (s : CBlockLocksHandler) : CBlockLocksHandler :=
  let oldIsEnforced := s.isEnforced
  let s1 := { s with isEnabled := AreBlockLocksEnabled env,
                     isEnforced := nBLActive env && AreBlockLocksEnabled env }
  if !oldIsEnforced && s1.isEnforced then
    { s1 with bestBlockLockHash := 0,
              bestBlockLock := {},
              bestBlockLockWithKnownBlock := {},
              bestBlockLockBlockIndex := none,
              lastNotifyBlockLockBlockIndex := none }
  else s1

def ProcessNewBlockLock (env : Env) (pfrom : NodeId) (blsig : CBlockLockSig) (hash : uint256)
    (s0 : CBlockLocksHandler) : CBlockLocksHandler × List Effect :=
  let s := CheckActiveState env s0
  let fx : List Effect := if pfrom ≠ -1 then [Effect.EraseObjectRequest pfrom hash] else []
  let ins := emplace s.seenBlockLocks hash env.GetTimeMillis
  let s := { s with seenBlockLocks := ins.1 }
  if !ins.2 then (s, fx)
  else if !s.bestBlockLock.IsNull && decide (blsig.nHeight ≤ s.bestBlockLock.nHeight) then (s, fx)
  else
    let requestId := env.SerializeHashRequestId blsig.nHeight
    if !env.VerifyRecoveredSig env.llmqTypeBlockLocks blsig.nHeight requestId blsig.blockHash
        blsig.sig then
      (s, fx ++ (if pfrom ≠ -1 then [Effect.Misbehaving pfrom 10] else []))
    else
      let pindex := env.LookupBlockIndex blsig.blockHash
      let s := { s with bestBlockLockHash := hash, bestBlockLock := blsig }
      match pindex with
      | some p =>
        if p.nHeight ≠ blsig.nHeight then (s, fx)
        else
          ({ s with bestBlockLockWithKnownBlock := s.bestBlockLock,
                    bestBlockLockBlockIndex := some p },
           fx ++ [Effect.RelayInv hash, Effect.ScheduleEnforce])
      | none => (s, fx ++ [Effect.RelayInv hash])

/-- The `BLSIG` branch of `ProcessMessage`, the message already read into `blsig`. -/
def ProcessMessage (env : Env) (pfrom : NodeId) (blsig : CBlockLockSig)
    (s : CBlockLocksHandler) : CBlockLocksHandler × List Effect :=
  if !AreBlockLocksEnabled env then (s, [])
  else ProcessNewBlockLock env pfrom blsig (env.SerializeHash blsig) s

def AcceptedBlockHeader (pindexNew : CBlockIndex) (s : CBlockLocksHandler) :
    CBlockLocksHandler :=
  if pindexNew.GetBlockHash = s.bestBlockLock.blockHash then
    if s.bestBlockLock.nHeight ≠ pindexNew.nHeight then s
    else { s with bestBlockLockWithKnownBlock := s.bestBlockLock,
                  bestBlockLockBlockIndex := some pindexNew }
  else s

def UpdatedBlockTip (s : CBlockLocksHandler) : CBlockLocksHandler × List Effect :=
  if s.tryLockBlockTipScheduled = false then
    ({ s with tryLockBlockTipScheduled := true }, [Effect.ScheduleTrySign])
  else (s, [])

def InternalHasBlockLock (s : CBlockLocksHandler) (nHeight : Int) (blockHash : uint256) : Bool :=
  if !s.isEnforced then false
  else
    match s.bestBlockLockBlockIndex with
    | none => false
    | some best =>
      if nHeight > best.nHeight then false
      else if nHeight = best.nHeight then decide (blockHash = best.GetBlockHash)
      else
        match best.GetAncestor nHeight with
        | none => false
        | some pAncestor => decide (pAncestor.GetBlockHash = blockHash)

def HasBlockLock (s : CBlockLocksHandler) (nHeight : Int) (blockHash : uint256) : Bool :=
  InternalHasBlockLock s nHeight blockHash

/-- The result is `none` when `assert(pAncestor)` fails. -/
def InternalHasConflictingBlockLock (s : CBlockLocksHandler) (nHeight : Int)
    (blockHash : uint256) : Option Bool :=
  if !s.isEnforced then some false
  else
    match s.bestBlockLockBlockIndex with
    | none => some false
    | some best =>
      if nHeight > best.nHeight then some false
      else if nHeight = best.nHeight then some (decide (blockHash ≠ best.GetBlockHash))
      else
        match best.GetAncestor nHeight with
        | none => none
        | some pAncestor => some (decide (pAncestor.GetBlockHash ≠ blockHash))

def HasConflictingBlockLock (s : CBlockLocksHandler) (nHeight : Int) (blockHash : uint256) :
    Option Bool :=
  InternalHasConflictingBlockLock s nHeight blockHash

/-- The value an `int64_t` holds for the mathematical value `x`: the number
congruent to `x` modulo `2^64` that lies in the range of the type. -/
def wrapInt64 (x : Int) : Int :=
  (x + 9223372036854775808) % 18446744073709551616 - 9223372036854775808

def IsTxSafeForMining (env : Env) (s : CBlockLocksHandler) (txid : uint256) : Bool :=
  if !env.RejectConflictingBlocks then true
  else if !s.isEnabled || !s.isEnforced then true
  else if !env.IsInstantSendEnabled then true
  else if env.IsLocked txid then true
  else
    let txAge : Int :=
      match s.txFirstSeenTime.lookup txid with
      | some t => wrapInt64 (env.GetAdjustedTime - t)
      | none => 0
    decide (txAge ≥ WAIT_FOR_ISLOCK_TIMEOUT)

def TransactionAddedToMempool (tx : CTransaction) (nAcceptTime : Int)
    (s : CBlockLocksHandler) : CBlockLocksHandler :=
  if tx.IsCoinBase || tx.vin.isEmpty then s
  else { s with txFirstSeenTime := (emplace s.txFirstSeenTime tx.hash nAcceptTime).1 }

/-- The loop over `pblock->vtx` in `BlockConnected`: the txid set of the block
and the first-seen map after it. -/
def connectTxs (curTime : Int) :
    List CTransaction → List uint256 → List (uint256 × Int) → List uint256 × List (uint256 × Int)
  | [], txids, seen => (txids, seen)
  | tx :: rest, txids, seen =>
    if tx.IsCoinBase || tx.vin.isEmpty then connectTxs curTime rest txids seen
    else connectTxs curTime rest (setEmplace txids tx.hash) (emplace seen tx.hash curTime).1

def BlockConnected (env : Env) (pblock : CBlock) (pindex : CBlockIndex)
    (s : CBlockLocksHandler) : CBlockLocksHandler :=
  if !env.IsBlockchainSynced then s
  else
    let found := s.blockTxs.lookup pindex.GetBlockHash
    let blockTxs := if found.isNone then (emplace s.blockTxs pindex.GetBlockHash []).1
                    else s.blockTxs
    let r := connectTxs env.GetAdjustedTime pblock.vtx (found.getD []) s.txFirstSeenTime
    { s with blockTxs := assign blockTxs pindex.GetBlockHash r.1, txFirstSeenTime := r.2 }

def BlockDisconnected (pindexDisconnected : CBlockIndex) (s : CBlockLocksHandler) :
    CBlockLocksHandler :=
  { s with blockTxs := erase s.blockTxs pindexDisconnected.GetBlockHash }

/-- The txid set `GetBlockTxs` builds from a block read from disk. -/
def diskTxs : List CTransaction → List uint256 → List uint256
  | [], ret => ret
  | tx :: rest, ret =>
    if tx.IsCoinBase || tx.vin.isEmpty then diskTxs rest ret
    else diskTxs rest (setEmplace ret tx.hash)

/-- The state after the call and the pointer returned (`none` for `nullptr`). -/
def GetBlockTxs (env : Env) (blockHash : uint256) (s : CBlockLocksHandler) :
    CBlockLocksHandler × Option (List uint256) :=
  match s.blockTxs.lookup blockHash with
  | some ret => (s, some ret)
  | none =>
    let pindex := env.LookupBlockIndex blockHash
    match env.ReadBlockFromDisk pindex with
    | none => (s, none)
    | some block =>
      let ret := diskTxs block.vtx []
      let blockTime := block.nTime
      ({ s with blockTxs := (emplace s.blockTxs blockHash ret).1,
                txFirstSeenTime :=
                  ret.foldl (fun m txid => (emplace m txid blockTime).1) s.txFirstSeenTime },
       some ret)

/-- The second loop of `Cleanup`, over `blockTxs`: the entries kept and the
first-seen map after it; `none` when `LookupBlockIndex` yields null (which the
loop dereferences) or the assertion of `InternalHasConflictingBlockLock` fails. -/
def cleanupBlockTxs (env : Env) (s : CBlockLocksHandler) :
    List (uint256 × List uint256) → List (uint256 × Int) →
      Option (List (uint256 × List uint256) × List (uint256 × Int))
  | [], seen => some ([], seen)
  | (blockHash, txids) :: rest, seen =>
    match env.LookupBlockIndex blockHash with
    | none => none
    | some pindex =>
      if InternalHasBlockLock s pindex.nHeight pindex.GetBlockHash then
        cleanupBlockTxs env s rest (txids.foldl (fun m txid => erase m txid) seen)
      else
        match InternalHasConflictingBlockLock s pindex.nHeight pindex.GetBlockHash with
        | none => none
        | some true => cleanupBlockTxs env s rest seen
        | some false =>
          match cleanupBlockTxs env s rest seen with
          | none => none
          | some r => some ((blockHash, txids) :: r.1, r.2)

/-- The third loop of `Cleanup`, over `txFirstSeenTime`; `none` when a null
`LookupBlockIndex` result or a null tip is dereferenced. -/
def cleanupTxFirstSeen (env : Env) : List (uint256 × Int) → Option (List (uint256 × Int))
  | [] => some []
  | (txid, t) :: rest =>
    match env.GetTransaction txid with
    | none => cleanupTxFirstSeen env rest
    | some hashBlock =>
      if hashBlock ≠ 0 then
        match env.LookupBlockIndex hashBlock, env.Tip with
        | some pindex, some tip =>
          if tip.GetAncestor pindex.nHeight = some pindex ∧ tip.nHeight - pindex.nHeight ≥ 6 then
            cleanupTxFirstSeen env rest
          else (cleanupTxFirstSeen env rest).map (fun r => (txid, t) :: r)
        | _, _ => none
      else (cleanupTxFirstSeen env rest).map (fun r => (txid, t) :: r)

def Cleanup (env : Env) (s : CBlockLocksHandler) : Option CBlockLocksHandler :=
  if !env.IsBlockchainSynced then some s
  else if env.GetTimeMillis - s.lastCleanupTime < CLEANUP_INTERVAL then some s
  else
    let seenBlockLocks :=
      s.seenBlockLocks.filter (fun e => !decide (env.GetTimeMillis - e.2 ≥ CLEANUP_SEEN_TIMEOUT))
    match cleanupBlockTxs env s s.blockTxs s.txFirstSeenTime with
    | none => none
    | some r =>
      match cleanupTxFirstSeen env r.2 with
      | none => none
      | some txFirstSeenTime =>
        some { s with seenBlockLocks := seenBlockLocks,
                      blockTxs := r.1,
                      txFirstSeenTime := txFirstSeenTime,
                      lastCleanupTime := env.GetTimeMillis }

/-- The test of one txid in the safety walk of `TrySignChainTip`:
`txAge < WAIT_FOR_ISLOCK_TIMEOUT && !IsLocked(txid)`. -/
def txBlocksSigning (env : Env) (s : CBlockLocksHandler) (txid : uint256) : Bool :=
  let txAge : Int :=
    match s.txFirstSeenTime.lookup txid with
    | some t => wrapInt64 (env.GetAdjustedTime - t)
    | none => 0
  decide (txAge < WAIT_FOR_ISLOCK_TIMEOUT) && !env.IsLocked txid

/-- The `while (pindexWalk)` loop of `TrySignChainTip`.  The Boolean is false
when the loop left the function through `return` (a txid blocks signing), true
when the loop ended. -/
def walkChain (env : Env) (pindex : CBlockIndex) :
    CBlockIndex → CBlockLocksHandler → CBlockLocksHandler × Bool
  | .root ht x, s =>
    if pindex.nHeight - ht > 5 then (s, true)
    else if HasBlockLock s ht x then (s, true)
    else
      match GetBlockTxs env x s with
      | (s1, none) => (s1, true)
      | (s1, some txids) => if txids.any (txBlocksSigning env s1) then (s1, false) else (s1, true)
  | .node ht x p, s =>
    if pindex.nHeight - ht > 5 then (s, true)
    else if HasBlockLock s ht x then (s, true)
    else
      match GetBlockTxs env x s with
      | (s1, none) => walkChain env pindex p s1
      | (s1, some txids) =>
        if txids.any (txBlocksSigning env s1) then (s1, false) else walkChain env pindex p s1

/-- The result is `none` when the call dereferences a null tip, or `Cleanup` or
the assertion of `InternalHasConflictingBlockLock` fails. -/
def TrySignChainTip (env : Env) (s0 : CBlockLocksHandler) :
    Option (CBlockLocksHandler × List Effect) :=
  match Cleanup env s0 with
  | none => none
  | some s =>
    if !env.fMasternodeMode then some (s, [])
    else if !env.IsBlockchainSynced then some (s, [])
    else if !s.isEnabled then some (s, [])
    else
      match env.Tip with
      | none => none
      | some pindex =>
        if pindex.pprev.isNone then some (s, [])
        else if pindex.nHeight = s.lastSignedHeight then some (s, [])
        else if s.bestBlockLock.nHeight ≥ pindex.nHeight then some (s, [])
        else
          match InternalHasConflictingBlockLock s pindex.nHeight pindex.GetBlockHash with
          | none => none
          | some true => some (s, [])
          | some false =>
            let w := if env.IsInstantSendEnabled && env.RejectConflictingBlocks
                     then walkChain env pindex pindex s else (s, true)
            if !w.2 then some (w.1, [])
            else
              let requestId := env.SerializeHashRequestId pindex.nHeight
              let msgHash := pindex.GetBlockHash
              if w.1.bestBlockLock.nHeight ≥ pindex.nHeight then some (w.1, [])
              else
                some ({ w.1 with lastSignedHeight := pindex.nHeight,
                                 lastSignedRequestId := requestId,
                                 lastSignedMsgHash := msgHash },
                      [Effect.AsyncSignIfMember env.llmqTypeBlockLocks requestId msgHash])

/-- The last block of `EnforceBestBlockLock`: the notification, unless the
index was notified already. -/
def notifyBlockLock (s : CBlockLocksHandler) (cur : CBlockIndex) (blsig : CBlockLockSig)
    (fx : List Effect) : CBlockLocksHandler × List Effect :=
  if s.lastNotifyBlockLockBlockIndex = some cur then (s, fx)
  else
    ({ s with lastNotifyBlockLockBlockIndex := some cur },
     fx ++ [Effect.NotifyBlockLock cur blsig,
            Effect.UiNotifyBlockLock blsig.blockHash blsig.nHeight])

/-- Here `env.Tip` is the tip once `EnforceBlock` has returned.  The result is
`none` when a null tip is dereferenced. -/
def EnforceBestBlockLock (env : Env) (s : CBlockLocksHandler) :
    Option (CBlockLocksHandler × List Effect) :=
  if !s.isEnforced then some (s, [])
  else
    let blsig := s.bestBlockLockWithKnownBlock
    match s.bestBlockLockBlockIndex with
    | none => some (s, [])
    | some cur =>
      match env.Tip with
      | none => none
      | some tip =>
        let activateNeeded := decide (tip.GetAncestor cur.nHeight ≠ some cur)
        if activateNeeded then
          if !env.ActivateBestChain then
            some (s, [Effect.EnforceBlock cur, Effect.ActivateBestChain])
          else
            match env.TipAfterActivate with
            | none => none
            | some tip2 =>
              if tip2.GetAncestor cur.nHeight ≠ some cur then
                some (s, [Effect.EnforceBlock cur, Effect.ActivateBestChain])
              else
                some (notifyBlockLock s cur blsig
                  [Effect.EnforceBlock cur, Effect.ActivateBestChain])
        else some (notifyBlockLock s cur blsig [Effect.EnforceBlock cur])

def HandleNewRecoveredSig (env : Env) (recoveredSig : CRecoveredSig)
    (s : CBlockLocksHandler) : CBlockLocksHandler × List Effect :=
  if !s.isEnabled then (s, [])
  else if recoveredSig.id ≠ s.lastSignedRequestId ∨ recoveredSig.msgHash ≠ s.lastSignedMsgHash
    then (s, [])
  else if s.bestBlockLock.nHeight ≥ s.lastSignedHeight then (s, [])
  else
    let blsig : CBlockLockSig :=
      { nHeight := s.lastSignedHeight, blockHash := s.lastSignedMsgHash,
        sig := recoveredSig.sig }
    ProcessNewBlockLock env (-1) blsig (env.SerializeHash blsig) s

/-! ## Runs of the handler -/

/-- The handler as the constructor leaves it. -/
def initialHandler : CBlockLocksHandler := {}

/-- The states the handler can get into from `initialHandler` by calls of its
member functions, each call served by an environment that satisfies `ok`.  The
scheduler's tasks are sequences of these calls, the task of `UpdatedBlockTip`
ending with `tryLockBlockTipScheduled = false`. -/
inductive Reachable (ok : Env → Prop) : CBlockLocksHandler → Prop
  | init : Reachable ok initialHandler
  | processMessage (env : Env) (pfrom : NodeId) (blsig : CBlockLockSig) (s : CBlockLocksHandler) :
      ok env → Reachable ok s → Reachable ok (ProcessMessage env pfrom blsig s).1
  | processNewBlockLock (env : Env) (pfrom : NodeId) (blsig : CBlockLockSig) (hash : uint256)
      (s : CBlockLocksHandler) :
      ok env → Reachable ok s → Reachable ok (ProcessNewBlockLock env pfrom blsig hash s).1
  | acceptedBlockHeader (pindexNew : CBlockIndex) (s : CBlockLocksHandler) :
      Reachable ok s → Reachable ok (AcceptedBlockHeader pindexNew s)
  | updatedBlockTip (s : CBlockLocksHandler) :
      Reachable ok s → Reachable ok (UpdatedBlockTip s).1
  | taskDone (s : CBlockLocksHandler) :
      Reachable ok s → Reachable ok { s with tryLockBlockTipScheduled := false }
  | checkActiveState (env : Env) (s : CBlockLocksHandler) :
      ok env → Reachable ok s → Reachable ok (CheckActiveState env s)
  | trySignChainTip (env : Env) (s : CBlockLocksHandler) (r : CBlockLocksHandler × List Effect) :
      ok env → Reachable ok s → TrySignChainTip env s = some r → Reachable ok r.1
  | transactionAddedToMempool (tx : CTransaction) (nAcceptTime : Int) (s : CBlockLocksHandler) :
      Reachable ok s → Reachable ok (TransactionAddedToMempool tx nAcceptTime s)
  | blockConnected (env : Env) (pblock : CBlock) (pindex : CBlockIndex) (s : CBlockLocksHandler) :
      ok env → Reachable ok s → Reachable ok (BlockConnected env pblock pindex s)
  | blockDisconnected (pindexDisconnected : CBlockIndex) (s : CBlockLocksHandler) :
      Reachable ok s → Reachable ok (BlockDisconnected pindexDisconnected s)
  | enforceBestBlockLock (env : Env) (s : CBlockLocksHandler)
      (r : CBlockLocksHandler × List Effect) :
      ok env → Reachable ok s → EnforceBestBlockLock env s = some r → Reachable ok r.1
  | handleNewRecoveredSig (env : Env) (recoveredSig : CRecoveredSig) (s : CBlockLocksHandler) :
      ok env → Reachable ok s → Reachable ok (HandleNewRecoveredSig env recoveredSig s).1

/-! ## Runs of `ProcessNewBlockLock` -/

/-- One call of `ProcessNewBlockLock` with what it is served. -/
structure LockCall where
  env : Env
  pfrom : NodeId
  blsig : CBlockLockSig
  hash : uint256

/-- The states a run of `ProcessNewBlockLock` calls goes through, the first one included. -/
def runLocks : CBlockLocksHandler → List LockCall → List CBlockLocksHandler
  | s, [] => [s]
  | s, c :: cs => s :: runLocks (ProcessNewBlockLock c.env c.pfrom c.blsig c.hash s).1 cs

/-- Whether `CheckActiveState` served by `env` takes the handler from not enforced to
enforced, which clears the lock fields. -/
def resets (env : Env) (s : CBlockLocksHandler) : Bool :=
  !s.isEnforced && (nBLActive env && AreBlockLocksEnabled env)

/-- No call of the run switches enforcement on. -/
def ResetFree : CBlockLocksHandler → List LockCall → Prop
  | _, [] => True
  | s, c :: cs =>
    resets c.env s = false ∧ ResetFree (ProcessNewBlockLock c.env c.pfrom c.blsig c.hash s).1 cs

/-- The relation holds between every element of the list and the next one. -/
def Consecutive {α : Type} (R : α → α → Prop) : List α → Prop
  | [] => True
  | [_] => True
  | a :: b :: rest => R a b ∧ Consecutive R (b :: rest)

/-- From `a` to `b` the height of the best lock does not fall, and the hash of the best
lock changes only when the height rises. -/
def BestGrows (a b : CBlockLocksHandler) : Prop :=
  a.bestBlockLock.nHeight ≤ b.bestBlockLock.nHeight ∧
    (a.bestBlockLockHash ≠ b.bestBlockLockHash →
      a.bestBlockLock.nHeight < b.bestBlockLock.nHeight)

/-- The test `ProcessNewBlockLock` makes before it installs `blsig`, on the handler `s1`
that `CheckActiveState` left: the hash is new, the lock is not older than the best one,
the signature verifies. -/
def accepts (env : Env) (blsig : CBlockLockSig) (hash : uint256) (s1 : CBlockLocksHandler) :
    Bool :=
  (emplace s1.seenBlockLocks hash env.GetTimeMillis).2 &&
    !(!s1.bestBlockLock.IsNull && decide (blsig.nHeight ≤ s1.bestBlockLock.nHeight)) &&
    env.VerifyRecoveredSig env.llmqTypeBlockLocks blsig.nHeight
      (env.SerializeHashRequestId blsig.nHeight) blsig.blockHash blsig.sig

/-! ## Concrete chains, environments and calls used in the examples -/

/-- The genesis entry, hash 10. -/
def genesis : CBlockIndex := .root 0 10

/-- The entry at height 1, hash 11, on top of `genesis`. -/
def block1 : CBlockIndex := .node 1 11 genesis

/-- The entry at height 2, hash 12, on top of `block1`. -/
def block2 : CBlockIndex := .node 2 12 block1

/-- An environment in which block locks are active from height 0 on, the tip is
`block2`, every signature verifies, the index knows `genesis`, `block1` and
`block2` by their hashes, and nothing else is going on. -/
def envActive : Env where
  IsSporkActive := true
  Tip := some block2
  nBLHeight := 0
  llmqTypeBlockLocks := 1
  VerifyRecoveredSig := fun _ _ _ _ _ => true
  LookupBlockIndex := fun h =>
    if h = 10 then some genesis else if h = 11 then some block1
    else if h = 12 then some block2 else none
  GetTimeMillis := 0
  GetAdjustedTime := 0
  fMasternodeMode := false
  IsBlockchainSynced := false
  IsInstantSendEnabled := true
  RejectConflictingBlocks := true
  IsLocked := fun _ => false
  ReadBlockFromDisk := fun _ => none
  GetTransaction := fun _ => none
  ActivateBestChain := true
  TipAfterActivate := some block2
  SerializeHashRequestId := fun h => h.toNat + 1000
  SerializeHash := fun b => b.nHeight.toNat + b.blockHash + b.sig + 2000

/-- As `envActive`, but the chain has not reached the activation height: the
tip is `block1` and block locks start at height 5. -/
def envInactive : Env :=
  { envActive with Tip := some block1, nBLHeight := 5 }

/-- A lock at height 100 for a block (hash 7) the index does not know. -/
def lockA : CBlockLockSig := { nHeight := 100, blockHash := 7, sig := 1 }

/-- A lock at height 50 for a block (hash 8) the index does not know. -/
def lockB : CBlockLockSig := { nHeight := 50, blockHash := 8, sig := 2 }

/-- The lock for `block1`. -/
def lock1 : CBlockLockSig := { nHeight := 1, blockHash := 11, sig := 3 }

/-- The lock for `block2`. -/
def lock2 : CBlockLockSig := { nHeight := 2, blockHash := 12, sig := 4 }

/-- Peer 3 sends `lockA` before activation, then `lockB` once the chain is active. -/
def runAcrossActivation : List LockCall :=
  [⟨envInactive, 3, lockA, 9⟩, ⟨envActive, 3, lockB, 10⟩]

/-- Peer 3 sends `lock1`, then `lock2`, both before activation. -/
def runBeforeActivation : List LockCall :=
  [⟨envInactive, 3, lock1, 21⟩, ⟨envInactive, 3, lock2, 22⟩]

/-- Whether a chain of entries is well formed can be computed. -/
def CBlockIndex.decWellFormed : (b : CBlockIndex) → Decidable b.WellFormed
  | .root ht _ => inferInstanceAs (Decidable (ht = 0))
  | .node ht _ p =>
    have := decWellFormed p
    inferInstanceAs (Decidable (ht = p.nHeight + 1 ∧ p.WellFormed))

instance : DecidablePred CBlockIndex.WellFormed := CBlockIndex.decWellFormed

/-- The handler after peer 3's `lock1` arrived on the active chain: enforced, with
`block1` as the index of the best lock. -/
def handlerLocked1 : CBlockLocksHandler :=
  (ProcessNewBlockLock envActive 3 lock1 21 initialHandler).1

/-- The handler after peer 3's `lock1` arrived before activation: `block1` is the index
of the best lock, nothing is enforced. -/
def handlerUnenforced1 : CBlockLocksHandler :=
  (ProcessNewBlockLock envInactive 3 lock1 21 initialHandler).1

/-- As `envActive`, but rejecting conflicting blocks is switched off. -/
def envNoReject : Env :=
  { envActive with RejectConflictingBlocks := false }

/-- As `envActive`, but the tip is `block1`, exactly at the activation height 1. -/
def envAtActivation : Env :=
  { envActive with Tip := some block1, nBLHeight := 1 }

/-- The lock fields of the handler: the hash of the best lock, the best lock, the best
lock with known block and its index. -/
def lockView (s : CBlockLocksHandler) :
    uint256 × CBlockLockSig × CBlockLockSig × Option CBlockIndex :=
  (s.bestBlockLockHash, s.bestBlockLock, s.bestBlockLockWithKnownBlock,
    s.bestBlockLockBlockIndex)

/-- The block index hands out, for a hash, only an entry with that hash. -/
def LookupFaithful (env : Env) : Prop :=
  ∀ (h : uint256) (b : CBlockIndex), env.LookupBlockIndex h = some b → b.GetBlockHash = h

/-- Signature verification accepts no signature over the zero message hash. -/
def RejectsZeroHash (env : Env) : Prop :=
  ∀ (t : Nat) (h : Int) (id : uint256) (sig : CBLSSignature),
    env.VerifyRecoveredSig t h id 0 sig = false

/-- Any environment will do. -/
def anyEnv (_ : Env) : Prop := True

/-- A lock at height 5 whose block hash is zero. -/
def lockZero : CBlockLockSig := { nHeight := 5, blockHash := 0, sig := 9 }

/-- As `envActive`, but a signature over the zero message hash does not verify. -/
def envStrict : Env :=
  { envActive with VerifyRecoveredSig := fun _ _ _ msgHash _ => msgHash != 0 }

/-- The handler of `handlerLocked1` after peer 3 sent `lockA`, a higher lock for a block
the index does not know. -/
def handlerAhead : CBlockLocksHandler :=
  (ProcessNewBlockLock envActive 3 lockA 9 handlerLocked1).1

/-- The handler after peer 3 sent `lockZero` on the active chain. -/
def handlerZero : CBlockLocksHandler :=
  (ProcessNewBlockLock envActive 3 lockZero 30 initialHandler).1

/-! ## What a list of effects amounts to -/

/-- The hashes for which inventory was relayed, in order. -/
def relayed : List Effect → List uint256
  | [] => []
  | Effect.RelayInv hash :: rest => hash :: relayed rest
  | _ :: rest => relayed rest

/-- By how much the misbehaviour score of peer `pfrom` was raised. -/
def misbehaviour (pfrom : NodeId) : List Effect → Int
  | [] => 0
  | Effect.Misbehaving p howmuch :: rest =>
    (if p = pfrom then howmuch else 0) + misbehaviour pfrom rest
  | _ :: rest => misbehaviour pfrom rest

/-- The index entries for which `GetMainSignals().NotifyBlockLock` was called, in order. -/
def notified : List Effect → List CBlockIndex
  | [] => []
  | Effect.NotifyBlockLock pindex _ :: rest => pindex :: notified rest
  | _ :: rest => notified rest

/-- The `(hash, height)` pairs handed to `uiInterface.NotifyBlockLock`, in order. -/
def uiNotified : List Effect → List (uint256 × Int)
  | [] => []
  | Effect.UiNotifyBlockLock blockHash nHeight :: rest => (blockHash, nHeight) :: uiNotified rest
  | _ :: rest => uiNotified rest

/-- The first effect of `ProcessNewBlockLock`: the object request of the peer is erased,
unless the lock comes from the node itself. -/
def eraseRequest (pfrom : NodeId) (hash : uint256) : List Effect :=
  if pfrom ≠ -1 then [Effect.EraseObjectRequest pfrom hash] else []

/-- As `envActive`, but no signature verifies. -/
def envReject : Env :=
  { envActive with VerifyRecoveredSig := fun _ _ _ _ _ => false }

/-- A lock at height 2 that names `block1`, which the index holds at height 1. -/
def lockMismatch : CBlockLockSig := { nHeight := 2, blockHash := 11, sig := 5 }

/-- The `(index, lock)` pairs handed to `GetMainSignals().NotifyBlockLock`, in order. -/
def signalled : List Effect → List (CBlockIndex × CBlockLockSig)
  | [] => []
  | Effect.NotifyBlockLock pindex blsig :: rest => (pindex, blsig) :: signalled rest
  | _ :: rest => signalled rest

/-- The active chain holds `cur`, as `EnforceBestBlockLock` finds out: the ancestor of the
tip at the height of `cur` is `cur`, either at once or after `ActivateBestChain` has
succeeded. -/
def tipReached (env : Env) (cur : CBlockIndex) : Prop :=
  ∃ tip, env.Tip = some tip ∧
    (tip.GetAncestor cur.nHeight = some cur ∨
      (env.ActivateBestChain = true ∧
        ∃ tip2, env.TipAfterActivate = some tip2 ∧ tip2.GetAncestor cur.nHeight = some cur))

/-- One call of a member function, with the environment that serves it. -/
inductive Call where
  | processMessage (env : Env) (pfrom : NodeId) (blsig : CBlockLockSig)
  | processNewBlockLock (env : Env) (pfrom : NodeId) (blsig : CBlockLockSig) (hash : uint256)
  | acceptedBlockHeader (pindexNew : CBlockIndex)
  | updatedBlockTip
  /-- The end of the task of `UpdatedBlockTip`: `tryLockBlockTipScheduled = false`. -/
  | taskDone
  | checkActiveState (env : Env)
  | trySignChainTip (env : Env)
  | transactionAddedToMempool (tx : CTransaction) (nAcceptTime : Int)
  | blockConnected (env : Env) (pblock : CBlock) (pindex : CBlockIndex)
  | blockDisconnected (pindexDisconnected : CBlockIndex)
  | enforceBestBlockLock (env : Env)
  | handleNewRecoveredSig (env : Env) (recoveredSig : CRecoveredSig)

/-- The handler after the call and the effects of the call; `none` when the call does not
return. -/
def Call.run : Call → CBlockLocksHandler → Option (CBlockLocksHandler × List Effect)
  | .processMessage env pfrom blsig, s => some (ProcessMessage env pfrom blsig s)
  | .processNewBlockLock env pfrom blsig hash, s =>
    some (ProcessNewBlockLock env pfrom blsig hash s)
  | .acceptedBlockHeader pindexNew, s => some (AcceptedBlockHeader pindexNew s, [])
  | .updatedBlockTip, s => some (UpdatedBlockTip s)
  | .taskDone, s => some ({ s with tryLockBlockTipScheduled := false }, [])
  | .checkActiveState env, s => some (CheckActiveState env s, [])
  | .trySignChainTip env, s => TrySignChainTip env s
  | .transactionAddedToMempool tx nAcceptTime, s =>
    some (TransactionAddedToMempool tx nAcceptTime s, [])
  | .blockConnected env pblock pindex, s => some (BlockConnected env pblock pindex s, [])
  | .blockDisconnected pindexDisconnected, s => some (BlockDisconnected pindexDisconnected s, [])
  | .enforceBestBlockLock env, s => EnforceBestBlockLock env s
  | .handleNewRecoveredSig env recoveredSig, s =>
    some (HandleNewRecoveredSig env recoveredSig s)

/-- A run of calls from `s`: the handler at the end and all effects, in order. -/
def runCalls : List Call → CBlockLocksHandler → Option (CBlockLocksHandler × List Effect)
  | [], s => some (s, [])
  | c :: cs, s =>
    match c.run s with
    | none => none
    | some r =>
      match runCalls cs r.1 with
      | none => none
      | some r2 => some (r2.1, r.2 ++ r2.2)

/-- As `envActive`, but the index knows no block yet. -/
def envNoIndex : Env :=
  { envActive with LookupBlockIndex := fun _ => none }

/-- Everything of the handler but the three maps and the time of the last cleanup. -/
def coreView (s : CBlockLocksHandler) :
    Bool × Bool × Bool × uint256 × CBlockLockSig × CBlockLockSig × Option CBlockIndex ×
      Option CBlockIndex × Int × uint256 × uint256 :=
  (s.tryLockBlockTipScheduled, s.isEnabled, s.isEnforced, s.bestBlockLockHash,
    s.bestBlockLock, s.bestBlockLockWithKnownBlock, s.bestBlockLockBlockIndex,
    s.lastNotifyBlockLockBlockIndex, s.lastSignedHeight, s.lastSignedRequestId,
    s.lastSignedMsgHash)

/-- As `envActive`, on a masternode whose block chain is synchronised. -/
def envSigner : Env :=
  { envActive with fMasternodeMode := true, IsBlockchainSynced := true }

/-- A recovered signature for request id 1002 over message hash 12. -/
def recovered2 : CRecoveredSig := { id := 1002, msgHash := 12, sig := 4 }

/-- The result of `TrySignChainTip` on the handler locked on `block1`, on the masternode. -/
def signedTip2 : CBlockLocksHandler × List Effect :=
  (TrySignChainTip envSigner handlerLocked1).getD (initialHandler, [])

/-- Whether the second loop of `Cleanup` keeps the `blockTxs` entry of `blockHash`: the
index holds the block, and it is neither locked nor conflicting. -/
def keepsBlockTxs (env : Env) (s : CBlockLocksHandler) (blockHash : uint256) : Bool :=
  match env.LookupBlockIndex blockHash with
  | none => false
  | some pindex =>
    !InternalHasBlockLock s pindex.nHeight pindex.GetBlockHash &&
      (InternalHasConflictingBlockLock s pindex.nHeight pindex.GetBlockHash == some false)

/-- A competitor of `block1`: height 1, hash 13, on top of `genesis`. -/
def block1b : CBlockIndex := .node 1 13 genesis

/-- An environment in which `Cleanup` runs: synchronised, 40 seconds after start, the
index also knows `block1b`, and every transaction is found in the mempool. -/
def envCleanup : Env :=
  { envActive with
    IsBlockchainSynced := true
    GetTimeMillis := 40000
    LookupBlockIndex := fun h =>
      if h = 10 then some genesis else if h = 11 then some block1
      else if h = 12 then some block2 else if h = 13 then some block1b else none
    GetTransaction := fun _ => some 0 }

/-- The handler locked on `block1` that has seen three blocks: `block1` with transaction
100, `block1b` with transaction 101, `block2` with transaction 102. -/
def handlerWithBlocks : CBlockLocksHandler :=
  { handlerLocked1 with
    blockTxs := [(11, [100]), (13, [101]), (12, [102])]
    txFirstSeenTime := [(100, 5), (101, 5), (102, 5)] }

/-! ## Serialisation of `CBlockLockSig` -/

/-- Modelled from the spec: the stream encodings of serialize.h are not among the sources.
The spec says "little-endian integers": the `width` bytes of `v`, lowest first. -/
def leBytes : Nat → Nat → List Nat
  | 0, _ => []
  | width + 1, v => (v % 256) :: leBytes width (v / 256)

/-- Modelled from the spec: the number that little-endian bytes stand for. -/
def leValue : List Nat → Nat
  | [] => 0
  | b :: bs => b + 256 * leValue bs

/-- Modelled from the spec: an `int32_t` on the stream, four little-endian bytes of its
two's complement. -/
def encInt32 (h : Int) : List Nat :=
  leBytes 4 (h % 4294967296).toNat

/-- Modelled from the spec: the `int32_t` that four stream bytes stand for. -/
def decInt32 (bytes : List Nat) : Int :=
  if leValue bytes < 2147483648 then (leValue bytes : Int)
  else (leValue bytes : Int) - 4294967296

/-- Takes `n` bytes off the stream; `none` when the stream is shorter. -/
def readBytes (n : Nat) (bytes : List Nat) : Option (List Nat × List Nat) :=
  if n ≤ bytes.length then some (bytes.take n, bytes.drop n) else none

/-- blsig.h: `READWRITE(obj.nHeight, obj.blockHash, obj.sig)`, written to a stream.  The
height is an `int32_t`, the block hash a `uint256` of 32 bytes, the signature has the
fixed width `sigSize`.  (Modelled from the spec: the encodings of the three members.) -/
def serialize (sigSize : Nat) (obj : CBlockLockSig) : List Nat :=
  encInt32 obj.nHeight ++ leBytes 32 obj.blockHash ++ leBytes sigSize obj.sig

/-- blsig.h: `READWRITE(obj.nHeight, obj.blockHash, obj.sig)`, read from a stream: the
lock and the rest of the stream, `none` when the stream ends early. -/
def deserialize (sigSize : Nat) (bytes : List Nat) : Option (CBlockLockSig × List Nat) :=
  match readBytes 4 bytes with
  | none => none
  | some (hb, r1) =>
    match readBytes 32 r1 with
    | none => none
    | some (xb, r2) =>
      match readBytes sigSize r2 with
      | none => none
      | some (sb, r3) =>
        some ({ nHeight := decInt32 hb, blockHash := leValue xb, sig := leValue sb }, r3)

/-- The value of `::SerializeHash(blsig)`: the hash function `H` of the stream. -/
def wireHash (H : List Nat → uint256) (sigSize : Nat) (obj : CBlockLockSig) : uint256 :=
  H (serialize sigSize obj)

/-- The members of a `CBlockLockSig` are in the range of their C++ types: `int32_t`,
`uint256`, and a signature of `sigSize` bytes. -/
def CBlockLockSig.InRange (sigSize : Nat) (obj : CBlockLockSig) : Prop :=
  -2147483648 ≤ obj.nHeight ∧ obj.nHeight < 2147483648 ∧
    obj.blockHash < 256 ^ 32 ∧ obj.sig < 256 ^ sigSize

/-! ## Notifications over a run -/

/-- The block index of the node holds one entry for a hash, and no entry below height 0. -/
def IndexOK (index : uint256 → Option CBlockIndex) : Prop :=
  ∀ (h : uint256) (b : CBlockIndex), index h = some b → b.GetBlockHash = h ∧ 0 ≤ b.nHeight

/-- What `LookupBlockIndex` finds during the call is an entry of `index`. -/
def Env.Uses (index : uint256 → Option CBlockIndex) (env : Env) : Prop :=
  ∀ (h : uint256) (b : CBlockIndex), env.LookupBlockIndex h = some b → index h = some b

/-- The index entries a call hands to the lock fields are entries of `index`: those its
environment looks up, and the header that is accepted. -/
def Call.Uses (index : uint256 → Option CBlockIndex) : Call → Prop
  | .processMessage env _ _ => env.Uses index
  | .processNewBlockLock env _ _ _ => env.Uses index
  | .acceptedBlockHeader pindexNew => index pindexNew.GetBlockHash = some pindexNew
  | .handleNewRecoveredSig env _ => env.Uses index
  | _ => True

/-- A run of calls from `s`, where `l` lists the index entries notified since `isEnforced`
last went from false to true: the handler at the end and that list at the end.  A call
during which `isEnforced` goes from false to true starts the list anew. -/
def notifiedSinceSwitchOn :
    List Call → CBlockLocksHandler → List CBlockIndex →
      Option (CBlockLocksHandler × List CBlockIndex)
  | [], s, l => some (s, l)
  | c :: cs, s, l =>
    match c.run s with
    | none => none
    | some r =>
      notifiedSinceSwitchOn cs r.1
        (if (!s.isEnforced && r.1.isEnforced) = true then notified r.2 else l ++ notified r.2)

/-- What the proof of at-most-once notification keeps: the index of the best lock is the
entry of `index` for the best lock with known block, which is the best lock or lower;
the entries notified since the last switch-on are distinct; each of them is the index of
the best lock and last notified, or lower than the index of the best lock. -/
def NotifyInv (index : uint256 → Option CBlockIndex) (s : CBlockLocksHandler)
    (l : List CBlockIndex) : Prop :=
  (∀ b, s.bestBlockLockBlockIndex = some b →
    b.nHeight = s.bestBlockLockWithKnownBlock.nHeight ∧
    b.GetBlockHash = s.bestBlockLockWithKnownBlock.blockHash ∧
    index b.GetBlockHash = some b ∧
    (s.bestBlockLockWithKnownBlock = s.bestBlockLock ∨
      s.bestBlockLockWithKnownBlock.nHeight < s.bestBlockLock.nHeight)) ∧
  l.Nodup ∧
  (∀ N ∈ l, ∃ b, s.bestBlockLockBlockIndex = some b ∧
    ((N = b ∧ s.lastNotifyBlockLockBlockIndex = some b) ∨ N.nHeight < b.nHeight))

/-- As `envActive`, but the feature gate is off. -/
def envOff : Env :=
  { envActive with IsSporkActive := false }

/-- As `envOff`, 25 hours later, with the block chain synchronised. -/
def envOffLater : Env :=
  { envOff with IsBlockchainSynced := true, GetTimeMillis := 90000000 }

/-- As `envActive`, 25 hours later. -/
def envActiveLater : Env :=
  { envActive with GetTimeMillis := 90000000 }

/-- The lock for `block1` arrives and is enforced; the feature gate goes off; a day later
`Cleanup` forgets the hash; the gate goes on again, the lock arrives again and is
enforced again. -/
def runOffAndOn : List Call :=
  [.processNewBlockLock envActive 3 lock1 21,
   .enforceBestBlockLock envActive,
   .checkActiveState envOff,
   .trySignChainTip envOffLater,
   .processNewBlockLock envActiveLater 3 lock1 21,
   .enforceBestBlockLock envActiveLater]

/-- The lock for `block1` arrives and is enforced twice, the lock for `block2` arrives and
is enforced twice. -/
def runTwoLocks : List Call :=
  [.processNewBlockLock envActive 3 lock1 21,
   .enforceBestBlockLock envActive,
   .enforceBestBlockLock envActive,
   .processNewBlockLock envActive 3 lock2 22,
   .enforceBestBlockLock envActive,
   .enforceBestBlockLock envActive]

/-- The end of `runTwoLocks`, with the index entries notified since the last switch-on. -/
def twoLocksNotified : CBlockLocksHandler × List CBlockIndex :=
  (notifiedSinceSwitchOn runTwoLocks initialHandler []).getD (initialHandler, [])

/-! ## The recovered-signature handler and the null test -/

/-- The call of `ProcessNewBlockLock` that `HandleNewRecoveredSig` makes: its
arguments `(pfrom, blsig, hash)`, and `none` when the function returns before
the call. -/
def recoveredSigCall (env : Env) (recoveredSig : CRecoveredSig) (s : CBlockLocksHandler) :
    Option (NodeId × CBlockLockSig × uint256) :=
  if !s.isEnabled then none
  else if recoveredSig.id ≠ s.lastSignedRequestId ∨ recoveredSig.msgHash ≠ s.lastSignedMsgHash
    then none
  else if s.bestBlockLock.nHeight ≥ s.lastSignedHeight then none
  else
    let blsig : CBlockLockSig :=
      { nHeight := s.lastSignedHeight, blockHash := s.lastSignedMsgHash,
        sig := recoveredSig.sig }
    some (-1, blsig, env.SerializeHash blsig)

/-- A lock with the height of a default-constructed one and another hash. -/
def lockNoHeight : CBlockLockSig := { nHeight := -1, blockHash := 5, sig := 0 }

/-- The arguments of the calls of `AsyncSignIfMember`, in order. -/
def signRequests : List Effect → List (Nat × uint256 × uint256)
  | [] => []
  | Effect.AsyncSignIfMember llmqType requestId msgHash :: rest =>
    (llmqType, requestId, msgHash) :: signRequests rest
  | _ :: rest => signRequests rest

/-! ## Transactions of blocks and first-seen times -/

/-- The transactions `BlockConnected`, `GetBlockTxs` and `TransactionAddedToMempool`
keep: those that fail the test `tx->IsCoinBase() || tx->vin.empty()`. -/
def lockable (tx : CTransaction) : Bool :=
  !(tx.IsCoinBase || tx.vin.isEmpty)

/-- Whether `vtx` holds a kept transaction with id `txid`. -/
def holdsTx (vtx : List CTransaction) (txid : uint256) : Bool :=
  vtx.any (fun tx => lockable tx && tx.hash == txid)

/-- A coinbase transaction, a transaction with one input, and one that is not a
coinbase and has no input. -/
def txCoinbase : CTransaction := { hash := 70, IsCoinBase := true, vin := [] }

def txPay : CTransaction := { hash := 71, IsCoinBase := false, vin := [70] }

def txNoInput : CTransaction := { hash := 72, IsCoinBase := false, vin := [] }

/-- A block with the three transactions, and one with the coinbase only. -/
def blockThree : CBlock := { vtx := [txCoinbase, txPay, txNoInput], nTime := 900 }

def blockCoinbaseOnly : CBlock := { vtx := [txCoinbase], nTime := 900 }

/-- The calls that record first-seen times: `TransactionAddedToMempool`,
`BlockConnected`, and `GetBlockTxs` (which fills the maps from disk). -/
inductive SeenEvent where
  | transactionAddedToMempool (tx : CTransaction) (nAcceptTime : Int)
  | blockConnected (env : Env) (pblock : CBlock) (pindex : CBlockIndex)
  | getBlockTxs (env : Env) (blockHash : uint256)

def SeenEvent.run : SeenEvent → CBlockLocksHandler → CBlockLocksHandler
  | .transactionAddedToMempool tx nAcceptTime, s => TransactionAddedToMempool tx nAcceptTime s
  | .blockConnected env pblock pindex, s => BlockConnected env pblock pindex s
  | .getBlockTxs env blockHash, s => (GetBlockTxs env blockHash s).1

def runSeen : List SeenEvent → CBlockLocksHandler → CBlockLocksHandler
  | [], s => s
  | e :: rest, s => runSeen rest (e.run s)

/-- The transactions an event mentions: the transaction added, the transactions
of the block connected, the transactions of the block read from disk. -/
def SeenEvent.txs : SeenEvent → List CTransaction
  | .transactionAddedToMempool tx _ => [tx]
  | .blockConnected _ pblock _ => pblock.vtx
  | .getBlockTxs env blockHash =>
    match env.ReadBlockFromDisk (env.LookupBlockIndex blockHash) with
    | some block => block.vtx
    | none => []

/-- The time an event carries: the accept time, the adjusted time at the
connection of the block, the time of the block read from disk. -/
def SeenEvent.time : SeenEvent → Int
  | .transactionAddedToMempool _ nAcceptTime => nAcceptTime
  | .blockConnected env _ _ => env.GetAdjustedTime
  | .getBlockTxs env blockHash =>
    match env.ReadBlockFromDisk (env.LookupBlockIndex blockHash) with
    | some block => block.nTime
    | none => 0

/-- Whether the call gets as far as its loop over the transactions:
`BlockConnected` on a synchronised node, `GetBlockTxs` for a block that
`blockTxs` does not hold. -/
def SeenEvent.active : SeenEvent → CBlockLocksHandler → Bool
  | .transactionAddedToMempool _ _, _ => true
  | .blockConnected env _ _, _ => env.IsBlockchainSynced
  | .getBlockTxs _ blockHash, s => (s.blockTxs.lookup blockHash).isNone

/-- The time the call offers to `txFirstSeenTime.emplace` for `txid` in state `s`. -/
def SeenEvent.records (txid : uint256) (e : SeenEvent) (s : CBlockLocksHandler) : Option Int :=
  if e.active s && holdsTx e.txs txid then some e.time else none

/-- Following the claim: the time an event witnesses for `txid`, when it
mentions a transaction of that id. -/
def SeenEvent.witnessed (txid : uint256) (e : SeenEvent) : Option Int :=
  if e.txs.any (fun tx => tx.hash == txid) then some e.time else none

/-- Following the claim: the times witnessed for `txid` by a sequence of events. -/
def witnessedTimes (txid : uint256) (es : List SeenEvent) : List Int :=
  es.filterMap (SeenEvent.witnessed txid)

/-- The minimum of a list of times. -/
def earliest : List Int → Option Int
  | [] => none
  | t :: rest => some (rest.foldl min t)

/-- No transaction of id `txid` that the event mentions is kept. -/
def SeenEvent.Unlockable (txid : uint256) (e : SeenEvent) : Prop :=
  ∀ tx ∈ e.txs, tx.hash = txid → lockable tx = false

/-- As `envSigner`, with adjusted time 900. -/
def envEarly : Env := { envSigner with GetAdjustedTime := 900 }

/-- The transaction enters the mempool at time 1000; then a block with it is
connected at adjusted time 900. -/
def seenLate : List SeenEvent :=
  [SeenEvent.transactionAddedToMempool txPay 1000,
   SeenEvent.blockConnected envEarly blockThree block2]

/-- A block with the transaction is connected at time 0 while the block chain
is not synchronised; then the transaction enters the mempool at time 1000. -/
def seenUnsynced : List SeenEvent :=
  [SeenEvent.blockConnected envActive blockThree block2,
   SeenEvent.transactionAddedToMempool txPay 1000]

/-- Whether the call leaves an entry of `seenBlockLocks` made at time `t` in
place: only `TrySignChainTip` runs `Cleanup`, which erases the entry once
`GetTimeMillis() - t >= CLEANUP_SEEN_TIMEOUT`. -/
def Call.keepsSeen (t : Int) : Call → Bool
  | .trySignChainTip env => decide (env.GetTimeMillis - t < CLEANUP_SEEN_TIMEOUT)
  | _ => true

/-- After `lock1` arrived under hash 21: a header is accepted, the masternode
tries to sign the tip, and enforcement runs. -/
def callsAfterLock1 : List Call :=
  [Call.acceptedBlockHeader block2, Call.trySignChainTip envSigner,
   Call.enforceBestBlockLock envActive]

/-- The handler and the effects after `callsAfterLock1`. -/
def afterLock1 : CBlockLocksHandler × List Effect :=
  (runCalls callsAfterLock1 handlerLocked1).getD (initialHandler, [])

/-! ## The best lock with known block and its index -/

/-- The index entries a call can hand to the lock fields carry the hash asked
for and a height from 0 on: those its environment looks up, and the header
that is accepted. -/
def Call.IndexSound : Call → Prop
  | .processMessage env _ _ => IndexOK env.LookupBlockIndex
  | .processNewBlockLock env _ _ _ => IndexOK env.LookupBlockIndex
  | .acceptedBlockHeader pindexNew => 0 ≤ pindexNew.nHeight
  | .handleNewRecoveredSig env _ => IndexOK env.LookupBlockIndex
  | _ => True

/-- The pair `bestBlockLockWithKnownBlock`, `bestBlockLockBlockIndex` is either
as constructed, or the index is set and agrees with the lock on height and
hash. -/
def KnownPair (s : CBlockLocksHandler) : Prop :=
  (s.bestBlockLockBlockIndex = none ∧ s.bestBlockLockWithKnownBlock = {}) ∨
  ∃ b, s.bestBlockLockBlockIndex = some b ∧
    b.nHeight = s.bestBlockLockWithKnownBlock.nHeight ∧
    b.GetBlockHash = s.bestBlockLockWithKnownBlock.blockHash ∧ 0 ≤ b.nHeight

/-- The index and the lock of a notification agree on height and hash. -/
def Agree (e : CBlockIndex × CBlockLockSig) : Prop :=
  e.1.nHeight = e.2.nHeight ∧ e.1.GetBlockHash = e.2.blockHash

/-- The handler and the effects after `runTwoLocks`. -/
def afterTwoLocks : CBlockLocksHandler × List Effect :=
  (runCalls runTwoLocks initialHandler).getD (initialHandler, [])

/-! ## The safety walk of `TrySignChainTip` -/

/-- The entry and its ancestors along `pprev`, nearest first. -/
def CBlockIndex.chain : CBlockIndex → List CBlockIndex
  | .root ht x => [.root ht x]
  | .node ht x p => .node ht x p :: p.chain

/-- The blocks the loop of `walkChain` gets to inspect from `w` on: those before
the first entry that is more than 5 below `pindex` or locked. -/
def walked (s : CBlockLocksHandler) (pindex w : CBlockIndex) : List CBlockIndex :=
  w.chain.takeWhile
    (fun b => decide (pindex.nHeight - b.nHeight ≤ 5) && !HasBlockLock s b.nHeight b.GetBlockHash)

/-- Following the claim: the blocks to inspect are the tip and its at most 5
nearest ancestors, as far as they lie above the first locked block met on the
way down. -/
def inspected (s : CBlockLocksHandler) (tip : CBlockIndex) : List CBlockIndex :=
  (tip.chain.take 6).takeWhile (fun b => !HasBlockLock s b.nHeight b.GetBlockHash)

/-- The local `txAge` of the safety walk: the `int64_t` difference of the
adjusted time and the first-seen time, 0 when `txFirstSeenTime` has no entry. -/
def firstSeenAge (env : Env) (s : CBlockLocksHandler) (txid : uint256) : Int :=
  match s.txFirstSeenTime.lookup txid with
  | some t => wrapInt64 (env.GetAdjustedTime - t)
  | none => 0

/-- The transaction id passes the test of the safety walk in handler `s`: the
negation of `txBlocksSigning`. -/
def txSafe (env : Env) (s : CBlockLocksHandler) (txid : uint256) : Bool :=
  env.IsLocked txid || decide (firstSeenAge env s txid ≥ WAIT_FOR_ISLOCK_TIMEOUT)

/-- The loop of `walkChain`, run over a list of blocks. -/
def walkBlocks (env : Env) : List CBlockIndex → CBlockLocksHandler → CBlockLocksHandler × Bool
  | [], s => (s, true)
  | b :: rest, s =>
    match GetBlockTxs env b.GetBlockHash s with
    | (s1, none) => walkBlocks env rest s1
    | (s1, some txids) =>
      if txids.all (txSafe env s1) then walkBlocks env rest s1 else (s1, false)

/-- The handler after `GetBlockTxs` was called for the blocks of the list, in order. -/
def backfilled (env : Env) (blocks : List CBlockIndex) (s : CBlockLocksHandler) :
    CBlockLocksHandler :=
  blocks.foldl (fun s1 b => (GetBlockTxs env b.GetBlockHash s1).1) s

/-- The condition under which `walkBlocks` runs to the end, in terms of the
handler the loop has reached at each block. -/
def WalkSafe (env : Env) (blocks : List CBlockIndex) (s : CBlockLocksHandler) : Prop :=
  ∀ pre b post, blocks = pre ++ b :: post →
    ∀ txids, (GetBlockTxs env b.GetBlockHash (backfilled env pre s)).2 = some txids →
      ∀ txid ∈ txids,
        txSafe env (GetBlockTxs env b.GetBlockHash (backfilled env pre s)).1 txid = true

/-- The block of hash `h` on disk: what `ReadBlockFromDisk` yields for the
index entry of `h`, none when the block cannot be read. -/
def diskBlock (env : Env) (h : uint256) : Option CBlock :=
  env.ReadBlockFromDisk (env.LookupBlockIndex h)

/-- Following the claim: the first-seen time that block `b` brings for `txid`
when it is inspected.  A block whose transaction set is in `blockTxs` brings
none; a block read from disk brings its block time for the non-coinbase
transactions with inputs that it holds. -/
def diskRecord (env : Env) (s : CBlockLocksHandler) (b : CBlockIndex) (txid : uint256) :
    Option Int :=
  match s.blockTxs.lookup b.GetBlockHash, diskBlock env b.GetBlockHash with
  | none, some block => if holdsTx block.vtx txid then some block.nTime else none
  | _, _ => none

/-- Following the claim: the first-seen time that the blocks of the list,
inspected in order, bring for `txid`: that of the first block that brings one. -/
def diskSeen (env : Env) (s : CBlockLocksHandler) : List CBlockIndex → uint256 → Option Int
  | [], _ => none
  | b :: rest, txid => (diskRecord env s b txid).or (diskSeen env s rest txid)

/-- Following the claim: the first-seen time of `txid` once the blocks of the
list have been inspected, the walk having started in `s`: the time recorded in
`s`, else the time brought by the blocks read from disk. -/
def firstSeenAt (env : Env) (s : CBlockLocksHandler) (blocks : List CBlockIndex)
    (txid : uint256) : Option Int :=
  (s.txFirstSeenTime.lookup txid).or (diskSeen env s blocks txid)

/-- Following the claim: the first-seen age of `txid` once the blocks of the
list have been inspected: the adjusted time minus the first-seen time (an
`int64_t` difference), 0 for a transaction never seen. -/
def ageAt (env : Env) (s : CBlockLocksHandler) (blocks : List CBlockIndex)
    (txid : uint256) : Int :=
  match firstSeenAt env s blocks txid with
  | some t => wrapInt64 (env.GetAdjustedTime - t)
  | none => 0

/-- Following the claim: a transaction id is safe when it is instant-locked or
its first-seen age is at least `WAIT_FOR_ISLOCK_TIMEOUT`. -/
def SafeAt (env : Env) (s : CBlockLocksHandler) (blocks : List CBlockIndex)
    (txid : uint256) : Prop :=
  env.IsLocked txid = true ∨ ageAt env s blocks txid ≥ WAIT_FOR_ISLOCK_TIMEOUT

/-- Following the claim: every block of the list whose transaction set can be
obtained holds safe transaction ids only.  The set is the one `blockTxs` of `s`
holds for the block; without one, it is made of the non-coinbase transactions
with inputs of the block read from disk; a block that has neither is passed
over.  The ages are those at the moment the block is inspected. -/
def AllSafe (env : Env) (blocks : List CBlockIndex) (s : CBlockLocksHandler) : Prop :=
  ∀ pre b post, blocks = pre ++ b :: post →
    (∀ txids, s.blockTxs.lookup b.GetBlockHash = some txids →
      ∀ txid ∈ txids, SafeAt env s (pre ++ [b]) txid) ∧
    (s.blockTxs.lookup b.GetBlockHash = none →
      ∀ block, diskBlock env b.GetBlockHash = some block →
        ∀ tx ∈ block.vtx, tx.IsCoinBase = false → tx.vin ≠ [] →
          SafeAt env s (pre ++ [b]) tx.hash)

/-- The handler locked on `block1` after `block2`, holding the transaction
`txPay`, was connected at adjusted time 0. -/
def handlerPay : CBlockLocksHandler :=
  BlockConnected envSigner blockThree block2 handlerLocked1

/-- The masternode at adjusted time 120, and at adjusted time 600. -/
def envAt120 : Env := { envSigner with GetAdjustedTime := 120 }

def envAt600 : Env := { envSigner with GetAdjustedTime := 600 }

/-- As `envSigner`, with `blockThree` on disk under the hash of `block2`, at
adjusted time 1000 and at adjusted time 1500. -/
def envDisk1000 : Env :=
  { envSigner with
      ReadBlockFromDisk := fun p => if p = some block2 then some blockThree else none,
      GetAdjustedTime := 1000 }

def envDisk1500 : Env := { envDisk1000 with GetAdjustedTime := 1500 }

/-- The handler locked on `block1` in which `txPay` entered the mempool with the
least accept time an `int64_t` holds, and the environment at adjusted time 1. -/
def handlerEarliest : CBlockLocksHandler :=
  TransactionAddedToMempool txPay (-9223372036854775808) handlerLocked1

def envAt1 : Env := { envActive with GetAdjustedTime := 1 }

/-! # Properties -/

/-! ## The state `ProcessNewBlockLock` leaves -/

theorem pnbl_state_rejected (env : Env) (pfrom : NodeId) (blsig : CBlockLockSig)
    (hash : uint256) (s : CBlockLocksHandler)
    (h : accepts env blsig hash (CheckActiveState env s) = false) :
    (ProcessNewBlockLock env pfrom blsig hash s).1 =
      { CheckActiveState env s with
        seenBlockLocks :=
          (emplace (CheckActiveState env s).seenBlockLocks hash env.GetTimeMillis).1 } := by
  unfold accepts at h
  unfold ProcessNewBlockLock
  simp only []
  cases hb1 : (emplace (CheckActiveState env s).seenBlockLocks hash env.GetTimeMillis).2
  · simp
  · cases hb2 : (!(CheckActiveState env s).bestBlockLock.IsNull &&
        decide (blsig.nHeight ≤ (CheckActiveState env s).bestBlockLock.nHeight))
    · cases hb3 : env.VerifyRecoveredSig env.llmqTypeBlockLocks blsig.nHeight
          (env.SerializeHashRequestId blsig.nHeight) blsig.blockHash blsig.sig
      · simp
      · rw [hb1, hb2, hb3] at h; simp at h
    · simp

theorem pnbl_state_accepted (env : Env) (pfrom : NodeId) (blsig : CBlockLockSig)
    (hash : uint256) (s : CBlockLocksHandler)
    (h : accepts env blsig hash (CheckActiveState env s) = true) :
    (ProcessNewBlockLock env pfrom blsig hash s).1 =
      match env.LookupBlockIndex blsig.blockHash with
      | none =>
        { CheckActiveState env s with
          seenBlockLocks :=
            (emplace (CheckActiveState env s).seenBlockLocks hash env.GetTimeMillis).1,
          bestBlockLockHash := hash, bestBlockLock := blsig }
      | some p =>
        if p.nHeight = blsig.nHeight then
          { CheckActiveState env s with
            seenBlockLocks :=
              (emplace (CheckActiveState env s).seenBlockLocks hash env.GetTimeMillis).1,
            bestBlockLockHash := hash, bestBlockLock := blsig,
            bestBlockLockWithKnownBlock := blsig, bestBlockLockBlockIndex := some p }
        else
          { CheckActiveState env s with
            seenBlockLocks :=
              (emplace (CheckActiveState env s).seenBlockLocks hash env.GetTimeMillis).1,
            bestBlockLockHash := hash, bestBlockLock := blsig } := by
  unfold accepts at h
  simp only [Bool.and_eq_true] at h
  obtain ⟨⟨hb1, hb2⟩, hb3⟩ := h
  simp only [Bool.not_eq_true'] at hb2
  unfold ProcessNewBlockLock
  simp only [hb1, hb2, hb3]
  cases env.LookupBlockIndex blsig.blockHash with
  | none => simp
  | some p => by_cases hp : p.nHeight = blsig.nHeight <;> simp [hp]

/-! ## C1: when the best lock is replaced -/

theorem isNull_nHeight (b : CBlockLockSig) (h : b.IsNull = true) : b.nHeight = -1 := by
  unfold CBlockLockSig.IsNull at h
  simp only [Bool.and_eq_true, beq_iff_eq] at h
  exact h.1

theorem checkActiveState_of_not_resets (env : Env) (s : CBlockLocksHandler)
    (h : resets env s = false) :
    CheckActiveState env s =
      { s with isEnabled := AreBlockLocksEnabled env,
               isEnforced := nBLActive env && AreBlockLocksEnabled env } := by
  unfold resets at h
  unfold CheckActiveState
  simp only [h]
  simp

theorem checkActiveState_of_resets (env : Env) (s : CBlockLocksHandler)
    (h : resets env s = true) :
    CheckActiveState env s =
      { s with isEnabled := AreBlockLocksEnabled env,
               isEnforced := nBLActive env && AreBlockLocksEnabled env,
               bestBlockLockHash := 0,
               bestBlockLock := {},
               bestBlockLockWithKnownBlock := {},
               bestBlockLockBlockIndex := none,
               lastNotifyBlockLockBlockIndex := none } := by
  unfold resets at h
  unfold CheckActiveState
  simp only [h]
  simp

theorem pnbl_best_cases (env : Env) (pfrom : NodeId) (blsig : CBlockLockSig) (hash : uint256)
    (s : CBlockLocksHandler) :
    ((ProcessNewBlockLock env pfrom blsig hash s).1.bestBlockLock
        = (CheckActiveState env s).bestBlockLock ∧
      (ProcessNewBlockLock env pfrom blsig hash s).1.bestBlockLockHash
        = (CheckActiveState env s).bestBlockLockHash) ∨
    ((ProcessNewBlockLock env pfrom blsig hash s).1.bestBlockLock = blsig ∧
      (ProcessNewBlockLock env pfrom blsig hash s).1.bestBlockLockHash = hash ∧
      ((CheckActiveState env s).bestBlockLock.IsNull = true ∨
        (CheckActiveState env s).bestBlockLock.nHeight < blsig.nHeight)) := by
  cases h : accepts env blsig hash (CheckActiveState env s)
  · left
    rw [pnbl_state_rejected env pfrom blsig hash s h]
    exact ⟨rfl, rfl⟩
  · right
    have hcond : (CheckActiveState env s).bestBlockLock.IsNull = true ∨
        (CheckActiveState env s).bestBlockLock.nHeight < blsig.nHeight := by
      unfold accepts at h
      simp only [Bool.and_eq_true, Bool.not_eq_true', Bool.and_eq_false_iff,
        Bool.not_eq_false', decide_eq_false_iff_not, not_le] at h
      exact h.1.2
    rw [pnbl_state_accepted env pfrom blsig hash s h]
    cases env.LookupBlockIndex blsig.blockHash with
    | none => exact ⟨rfl, rfl, hcond⟩
    | some p =>
      by_cases hp : p.nHeight = blsig.nHeight
      · dsimp only; rw [if_pos hp]; exact ⟨rfl, rfl, hcond⟩
      · dsimp only; rw [if_neg hp]; exact ⟨rfl, rfl, hcond⟩

theorem pnbl_best_no_reset (env : Env) (pfrom : NodeId) (blsig : CBlockLockSig)
    (hash : uint256) (s : CBlockLocksHandler)
    (hr : resets env s = false) (hh : 0 ≤ blsig.nHeight) :
    ((ProcessNewBlockLock env pfrom blsig hash s).1.bestBlockLock = s.bestBlockLock ∧
      (ProcessNewBlockLock env pfrom blsig hash s).1.bestBlockLockHash = s.bestBlockLockHash) ∨
    ((ProcessNewBlockLock env pfrom blsig hash s).1.bestBlockLock = blsig ∧
      (ProcessNewBlockLock env pfrom blsig hash s).1.bestBlockLockHash = hash ∧
      s.bestBlockLock.nHeight < blsig.nHeight) := by
  have hc := pnbl_best_cases env pfrom blsig hash s
  rw [checkActiveState_of_not_resets env s hr] at hc
  rcases hc with hc | ⟨h1, h2, h3⟩
  · exact Or.inl hc
  · right
    refine ⟨h1, h2, ?_⟩
    rcases h3 with h3 | h3
    · have := isNull_nHeight _ h3
      simp only at this
      omega
    · exact h3

theorem pnbl_bestGrows (env : Env) (pfrom : NodeId) (blsig : CBlockLockSig)
    (hash : uint256) (s : CBlockLocksHandler)
    (hr : resets env s = false) (hh : 0 ≤ blsig.nHeight) :
    BestGrows s (ProcessNewBlockLock env pfrom blsig hash s).1 := by
  unfold BestGrows
  rcases pnbl_best_no_reset env pfrom blsig hash s hr hh with ⟨h1, h2⟩ | ⟨h1, _, h3⟩
  · rw [h1, h2]
    exact ⟨le_refl _, fun hne => absurd rfl hne⟩
  · rw [h1]
    exact ⟨le_of_lt h3, fun _ => h3⟩

theorem runLocks_bestGrows (cs : List LockCall) :
    ∀ s : CBlockLocksHandler, ResetFree s cs → (∀ c ∈ cs, 0 ≤ c.blsig.nHeight) →
      Consecutive BestGrows (runLocks s cs) := by
  induction cs with
  | nil => intro s _ _; simp [runLocks, Consecutive]
  | cons c cs ih =>
    intro s hrf hh
    obtain ⟨hr, hrest⟩ := hrf
    have hc : 0 ≤ c.blsig.nHeight := hh c (List.mem_cons_self _ _)
    have htail := ih _ hrest (fun d hd => hh d (List.mem_cons_of_mem _ hd))
    have hstep := pnbl_bestGrows c.env c.pfrom c.blsig c.hash s hr hc
    cases cs with
    | nil => simpa [runLocks, Consecutive] using hstep
    | cons d ds =>
      simp only [runLocks, Consecutive] at htail ⊢
      exact ⟨hstep, htail⟩

/-- Claim C1 (amended): whatever the verification oracle answers, `ProcessNewBlockLock`
replaces the best lock and its hash by `(blsig, hash)` only if, once `CheckActiveState`
has run at the start of the call (it clears the best lock when enforcement switches on),
the best lock is null or lower than `blsig`; otherwise both are what `CheckActiveState`
left.  Hence in a call that does not switch enforcement on and whose lock has a height
of at least 0, the best lock and its hash either stay or become `(blsig, hash)` with
`blsig.nHeight` strictly above the old best height; and over a run of such calls the
best height never falls and the best hash changes only when the height rises. -/
theorem C1_best_replaced_only_by_higher (env : Env) (pfrom : NodeId) (blsig : CBlockLockSig)
    (hash : uint256) (s : CBlockLocksHandler) (cs : List LockCall) :
    (((ProcessNewBlockLock env pfrom blsig hash s).1.bestBlockLock
          = (CheckActiveState env s).bestBlockLock ∧
        (ProcessNewBlockLock env pfrom blsig hash s).1.bestBlockLockHash
          = (CheckActiveState env s).bestBlockLockHash) ∨
      ((ProcessNewBlockLock env pfrom blsig hash s).1.bestBlockLock = blsig ∧
        (ProcessNewBlockLock env pfrom blsig hash s).1.bestBlockLockHash = hash ∧
        ((CheckActiveState env s).bestBlockLock.IsNull = true ∨
          (CheckActiveState env s).bestBlockLock.nHeight < blsig.nHeight))) ∧
    (resets env s = false → 0 ≤ blsig.nHeight →
      ((ProcessNewBlockLock env pfrom blsig hash s).1.bestBlockLock = s.bestBlockLock ∧
        (ProcessNewBlockLock env pfrom blsig hash s).1.bestBlockLockHash
          = s.bestBlockLockHash) ∨
      ((ProcessNewBlockLock env pfrom blsig hash s).1.bestBlockLock = blsig ∧
        (ProcessNewBlockLock env pfrom blsig hash s).1.bestBlockLockHash = hash ∧
        s.bestBlockLock.nHeight < blsig.nHeight)) ∧
    (ResetFree s cs → (∀ c ∈ cs, 0 ≤ c.blsig.nHeight) →
      Consecutive BestGrows (runLocks s cs)) :=
  ⟨pnbl_best_cases env pfrom blsig hash s,
   pnbl_best_no_reset env pfrom blsig hash s,
   runLocks_bestGrows cs s⟩

/-- Claim C1, counterexample: peer 3 sends a lock at height 100 while the chain is below
the activation height, then a lock at height 50 in a call that finds enforcement just
switched on.  The second call replaces the best lock although 50 is below 100: the
best heights of the run are -1, 100, 50 and the best hash changes from 9 to 10. -/
theorem C1_counterexample :
    (runLocks initialHandler runAcrossActivation).map
        (fun s => (s.bestBlockLock.nHeight, s.bestBlockLockHash))
      = [(-1, 0), (100, 9), (50, 10)] ∧
    (ProcessNewBlockLock envActive 3 lockB 10
        (ProcessNewBlockLock envInactive 3 lockA 9 initialHandler).1).1.bestBlockLock = lockB ∧
    ¬ ((ProcessNewBlockLock envInactive 3 lockA 9 initialHandler).1.bestBlockLock.nHeight
        < lockB.nHeight) := by
  decide

theorem C1_best_replaced_only_by_higher_witness :
    (resets envInactive initialHandler = false ∧ (0 : Int) ≤ lock1.nHeight ∧
      (ProcessNewBlockLock envInactive 3 lock1 21 initialHandler).1.bestBlockLock = lock1) ∧
    ResetFree initialHandler runBeforeActivation ∧
    (∀ c ∈ runBeforeActivation, 0 ≤ c.blsig.nHeight) ∧
    Consecutive BestGrows (runLocks initialHandler runBeforeActivation) := by
  have hrf : ResetFree initialHandler runBeforeActivation := by
    simp only [ResetFree, runBeforeActivation]
    decide
  have hh : ∀ c ∈ runBeforeActivation, 0 ≤ c.blsig.nHeight := by
    intro c hc
    simp only [runBeforeActivation, List.mem_cons, List.mem_singleton, List.not_mem_nil,
      or_false] at hc
    rcases hc with rfl | rfl <;> decide
  exact ⟨⟨by decide, by decide, by decide⟩, hrf, hh,
    (C1_best_replaced_only_by_higher envInactive 3 lock1 21 initialHandler
      runBeforeActivation).2.2 hrf hh⟩

/-! ## The block index -/

theorem getAncestor_self (b : CBlockIndex) : b.GetAncestor b.nHeight = some b := by
  cases b <;> simp [CBlockIndex.GetAncestor, CBlockIndex.nHeight]

theorem getAncestor_nHeight (b : CBlockIndex) :
    ∀ (h : Int) (a : CBlockIndex), b.GetAncestor h = some a → a.nHeight = h := by
  induction b with
  | root ht x =>
    intro h a ha
    unfold CBlockIndex.GetAncestor at ha
    split_ifs at ha with hh
    · cases ha; simp [CBlockIndex.nHeight, hh]
  | node ht x p ih =>
    intro h a ha
    unfold CBlockIndex.GetAncestor at ha
    split_ifs at ha with hh
    · cases ha; simp [CBlockIndex.nHeight, hh]
    · exact ih h a ha

theorem wellFormed_nHeight_nonneg (b : CBlockIndex) : b.WellFormed → 0 ≤ b.nHeight := by
  induction b with
  | root ht x => intro hw; simp [CBlockIndex.WellFormed] at hw; simp [CBlockIndex.nHeight, hw]
  | node ht x p ih =>
    intro hw
    simp only [CBlockIndex.WellFormed] at hw
    have := ih hw.2
    simp only [CBlockIndex.nHeight]
    omega

theorem getAncestor_le (b : CBlockIndex) :
    b.WellFormed → ∀ (h : Int) (a : CBlockIndex), b.GetAncestor h = some a → h ≤ b.nHeight := by
  induction b with
  | root ht x =>
    intro _ h a ha
    unfold CBlockIndex.GetAncestor at ha
    split_ifs at ha with hh
    simp [CBlockIndex.nHeight, hh]
  | node ht x p ih =>
    intro hw h a ha
    simp only [CBlockIndex.WellFormed] at hw
    unfold CBlockIndex.GetAncestor at ha
    simp only [CBlockIndex.nHeight]
    split_ifs at ha with hh
    · omega
    · have := ih hw.2 h a ha
      omega

theorem getAncestor_exists (b : CBlockIndex) :
    b.WellFormed → ∀ h : Int, 0 ≤ h → h ≤ b.nHeight → ∃ a, b.GetAncestor h = some a := by
  induction b with
  | root ht x =>
    intro hw h h0 hle
    simp only [CBlockIndex.WellFormed] at hw
    simp only [CBlockIndex.nHeight] at hle
    have : h = ht := by omega
    exact ⟨.root ht x, by simp [CBlockIndex.GetAncestor, this]⟩
  | node ht x p ih =>
    intro hw h h0 hle
    simp only [CBlockIndex.WellFormed] at hw
    simp only [CBlockIndex.nHeight] at hle
    by_cases hh : h = ht
    · exact ⟨.node ht x p, by simp [CBlockIndex.GetAncestor, hh]⟩
    · obtain ⟨a, ha⟩ := ih hw.2 h h0 (by omega)
      exact ⟨a, by simp [CBlockIndex.GetAncestor, hh, ha]⟩

/-- On a well-formed chain, the ancestors of `b` below an ancestor `a` of `b` are the
ancestors of `a`. -/
theorem getAncestor_trans (b : CBlockIndex) :
    b.WellFormed → ∀ (k : Int) (a : CBlockIndex), b.GetAncestor k = some a →
      ∀ h : Int, h ≤ k → b.GetAncestor h = a.GetAncestor h := by
  induction b with
  | root ht x =>
    intro _ k a ha h _
    unfold CBlockIndex.GetAncestor at ha
    split_ifs at ha with hk
    cases ha
    rfl
  | node ht x p ih =>
    intro hw k a ha h hle
    simp only [CBlockIndex.WellFormed] at hw
    by_cases hk : k = ht
    · simp only [CBlockIndex.GetAncestor, hk, if_true, Option.some.injEq] at ha
      rw [← ha]
    · have ha' : p.GetAncestor k = some a := by
        simpa [CBlockIndex.GetAncestor, hk] using ha
      have hkp := getAncestor_le p hw.2 k a ha'
      have hh : h ≠ ht := by omega
      have : (CBlockIndex.node ht x p).GetAncestor h = p.GetAncestor h := by
        simp [CBlockIndex.GetAncestor, hh]
      rw [this]
      exact ih hw.2 k a ha' h hle

/-! ## C2, C3, C4: the two queries -/

theorem hasBlockLock_iff (s : CBlockLocksHandler) (h : Int) (x : uint256) :
    HasBlockLock s h x = true ↔
      s.isEnforced = true ∧ ∃ best, s.bestBlockLockBlockIndex = some best ∧
        h ≤ best.nHeight ∧ ∃ a, best.GetAncestor h = some a ∧ a.GetBlockHash = x := by
  unfold HasBlockLock InternalHasBlockLock
  cases he : s.isEnforced
  · simp
  · cases hb : s.bestBlockLockBlockIndex with
    | none => simp
    | some best =>
      simp only [Bool.not_true, Bool.false_eq_true, if_false, true_and, Option.some.injEq,
        exists_eq_left']
      by_cases h1 : h > best.nHeight
      · simp only [h1, if_true, Bool.false_eq_true, false_iff]
        intro hc
        omega
      · simp only [h1, if_false]
        by_cases h2 : h = best.nHeight
        · simp only [h2, if_true, decide_eq_true_eq, getAncestor_self, Option.some.injEq,
            exists_eq_left', le_refl, true_and]
          exact eq_comm
        · simp only [h2, if_false]
          have hle : h ≤ best.nHeight := by omega
          cases ha : best.GetAncestor h with
          | none => simp
          | some a => simp [hle]

/-- The cases of `InternalHasBlockLock`, whatever `GetAncestor` returns. -/
theorem hasBlockLock_iff_cases (s : CBlockLocksHandler) (h : Int) (x : uint256) :
    HasBlockLock s h x = true ↔
      s.isEnforced = true ∧ ∃ best, s.bestBlockLockBlockIndex = some best ∧
        ((h = best.nHeight ∧ best.GetBlockHash = x) ∨
          (h < best.nHeight ∧ ∃ a, best.GetAncestor h = some a ∧ a.GetBlockHash = x)) := by
  unfold HasBlockLock InternalHasBlockLock
  cases he : s.isEnforced
  · simp
  · cases hb : s.bestBlockLockBlockIndex with
    | none => simp
    | some best =>
      simp only [Bool.not_true, Bool.false_eq_true, if_false, true_and, Option.some.injEq,
        exists_eq_left']
      by_cases h1 : h > best.nHeight
      · simp only [h1, if_true, Bool.false_eq_true, false_iff]
        rintro (⟨hc, _⟩ | ⟨hc, _⟩) <;> omega
      · simp only [h1, if_false]
        by_cases h2 : h = best.nHeight
        · simp only [h2, if_true, decide_eq_true_eq, true_and, lt_self_iff_false, false_and,
            or_false]
          exact eq_comm
        · simp only [h2, if_false, false_and, false_or]
          have hlt : h < best.nHeight := by omega
          cases ha : best.GetAncestor h with
          | none => simp
          | some a => simp [hlt]

theorem hasConflictingBlockLock_iff (s : CBlockLocksHandler) (h : Int) (x : uint256) :
    HasConflictingBlockLock s h x = some true ↔
      s.isEnforced = true ∧ ∃ best, s.bestBlockLockBlockIndex = some best ∧
        h ≤ best.nHeight ∧ ∃ a, best.GetAncestor h = some a ∧ a.GetBlockHash ≠ x := by
  unfold HasConflictingBlockLock InternalHasConflictingBlockLock
  cases he : s.isEnforced
  · simp
  · cases hb : s.bestBlockLockBlockIndex with
    | none => simp
    | some best =>
      simp only [Bool.not_true, Bool.false_eq_true, if_false, true_and, Option.some.injEq,
        exists_eq_left']
      by_cases h1 : h > best.nHeight
      · simp only [h1, if_true, Option.some.injEq, Bool.false_eq_true, false_iff]
        intro hc
        omega
      · simp only [h1, if_false]
        by_cases h2 : h = best.nHeight
        · simp only [h2, if_true, Option.some.injEq, decide_eq_true_eq, getAncestor_self,
            exists_eq_left', le_refl, true_and, ne_eq]
          exact ⟨fun hne heq => hne heq.symm, fun hne heq => hne heq.symm⟩
        · simp only [h2, if_false]
          have hle : h ≤ best.nHeight := by omega
          cases ha : best.GetAncestor h with
          | none => simp
          | some a => simp [hle]

theorem hasConflictingBlockLock_none_iff (s : CBlockLocksHandler) (h : Int) (x : uint256) :
    HasConflictingBlockLock s h x = none ↔
      s.isEnforced = true ∧ ∃ best, s.bestBlockLockBlockIndex = some best ∧
        h < best.nHeight ∧ best.GetAncestor h = none := by
  unfold HasConflictingBlockLock InternalHasConflictingBlockLock
  cases he : s.isEnforced
  · simp
  · cases hb : s.bestBlockLockBlockIndex with
    | none => simp
    | some best =>
      simp only [Bool.not_true, Bool.false_eq_true, if_false, true_and, Option.some.injEq,
        exists_eq_left']
      by_cases h1 : h > best.nHeight
      · simp only [h1, if_true, reduceCtorEq, false_iff]
        intro hc
        omega
      · simp only [h1, if_false]
        by_cases h2 : h = best.nHeight
        · simp only [h2, if_true, reduceCtorEq, false_iff]
          intro hc
          omega
        · simp only [h2, if_false]
          have hlt : h < best.nHeight := by omega
          cases ha : best.GetAncestor h with
          | none => simp [hlt]
          | some a => simp

theorem hasConflictingBlockLock_enforced (s : CBlockLocksHandler) (h : Int) (x : uint256)
    (best : CBlockIndex) (he : s.isEnforced = true)
    (hb : s.bestBlockLockBlockIndex = some best) (hh : h ≤ best.nHeight)
    (ha : (best.GetAncestor h).isSome = true) :
    HasConflictingBlockLock s h x = some (!HasBlockLock s h x) := by
  unfold HasConflictingBlockLock InternalHasConflictingBlockLock HasBlockLock
    InternalHasBlockLock
  simp only [he, hb, Bool.not_true, Bool.false_eq_true, if_false]
  have h1 : ¬ h > best.nHeight := by omega
  simp only [h1, if_false]
  by_cases h2 : h = best.nHeight
  · simp [h2]
  · simp only [h2, if_false]
    cases hga : best.GetAncestor h with
    | none => rw [hga] at ha; simp at ha
    | some a => simp [eq_comm]

/-- Claim C2: `HasBlockLock(h, x)` is true exactly when the handler is enforced, the index
of the best lock is set, and tracing that index back to height `h` reaches an entry with
hash `x`: the index itself when `h` is its height, its ancestor at `h` when `h` is
below.  With the walk along `pprev` for the ancestor, the two cases are one, the entry
traced at a height `h` no higher than the index; the answer is false when `h` is above
the index and when there is no ancestor at `h`.  On a well-formed chain nothing is
traced above the index, and the bound on `h` need not be said. -/
theorem C2_has_lock_iff_ancestor_hash (s : CBlockLocksHandler) (h : Int) (x : uint256) :
    (HasBlockLock s h x = true ↔
      s.isEnforced = true ∧ ∃ best, s.bestBlockLockBlockIndex = some best ∧
        ((h = best.nHeight ∧ best.GetBlockHash = x) ∨
          (h < best.nHeight ∧ ∃ a, best.GetAncestor h = some a ∧ a.GetBlockHash = x))) ∧
    (HasBlockLock s h x = true ↔
      s.isEnforced = true ∧ ∃ best, s.bestBlockLockBlockIndex = some best ∧
        h ≤ best.nHeight ∧ ∃ a, best.GetAncestor h = some a ∧ a.GetBlockHash = x) ∧
    (∀ best, s.bestBlockLockBlockIndex = some best →
      best.GetAncestor best.nHeight = some best ∧
      (best.nHeight < h → HasBlockLock s h x = false) ∧
      (best.GetAncestor h = none → HasBlockLock s h x = false) ∧
      (best.WellFormed →
        (HasBlockLock s h x = true ↔
          s.isEnforced = true ∧ ∃ a, best.GetAncestor h = some a ∧ a.GetBlockHash = x))) := by
  refine ⟨hasBlockLock_iff_cases s h x, hasBlockLock_iff s h x,
    fun best hb => ⟨getAncestor_self best, ?_, ?_, ?_⟩⟩
  · intro hlt
    rw [Bool.eq_false_iff]
    intro ht
    obtain ⟨_, b, hb', hle, _⟩ := (hasBlockLock_iff s h x).1 ht
    rw [hb] at hb'
    cases hb'
    omega
  · intro hnone
    rw [Bool.eq_false_iff]
    intro ht
    obtain ⟨_, b, hb', _, a, ha, _⟩ := (hasBlockLock_iff s h x).1 ht
    rw [hb] at hb'
    cases hb'
    rw [hnone] at ha
    cases ha
  · intro hw
    rw [hasBlockLock_iff]
    constructor
    · rintro ⟨he, b, hb', _, a, ha, hx⟩
      rw [hb] at hb'
      cases hb'
      exact ⟨he, a, ha, hx⟩
    · rintro ⟨he, a, ha, hx⟩
      exact ⟨he, best, hb, getAncestor_le best hw h a ha, a, ha, hx⟩

/-- An example for `HasBlockLock`: on the enforced handler whose best index is `block1`, the block at
height 0 with hash 10 is locked, hash 11 at that height is not, and nothing is locked at
height 2. -/
theorem hasBlockLock_example :
    HasBlockLock handlerLocked1 0 10 = true ∧ HasBlockLock handlerLocked1 0 11 = false ∧
    HasBlockLock handlerLocked1 1 11 = true ∧ HasBlockLock handlerLocked1 2 12 = false := by
  decide

/-- Claim C3: `HasConflictingBlockLock(h, x)` is true exactly when the handler is
enforced, the index of the best lock is set, `h` is no higher than the index, and the
ancestor of the index at `h` has a hash other than `x`.  On a well-formed chain the
ancestor exists for every height `h` of a block, `0 ≤ h ≤ nHeight` of the index, so
the assertion does not fail; it fails (no result) exactly when the handler is enforced,
`h` is below the index and the index has no ancestor at `h`. -/
theorem C3_has_conflicting_lock_iff (s : CBlockLocksHandler) (h : Int) (x : uint256) :
    (HasConflictingBlockLock s h x = some true ↔
      s.isEnforced = true ∧ ∃ best, s.bestBlockLockBlockIndex = some best ∧
        h ≤ best.nHeight ∧ ∃ a, best.GetAncestor h = some a ∧ a.GetBlockHash ≠ x) ∧
    (HasConflictingBlockLock s h x = none ↔
      s.isEnforced = true ∧ ∃ best, s.bestBlockLockBlockIndex = some best ∧
        h < best.nHeight ∧ best.GetAncestor h = none) ∧
    (∀ best, s.bestBlockLockBlockIndex = some best → best.WellFormed → 0 ≤ h →
      h ≤ best.nHeight →
        (∃ a, best.GetAncestor h = some a) ∧ HasConflictingBlockLock s h x ≠ none) := by
  refine ⟨hasConflictingBlockLock_iff s h x, hasConflictingBlockLock_none_iff s h x, ?_⟩
  intro best hb hw h0 hle
  have hex := getAncestor_exists best hw h h0 hle
  refine ⟨hex, ?_⟩
  intro hnone
  obtain ⟨_, b, hb', _, hga⟩ := (hasConflictingBlockLock_none_iff s h x).1 hnone
  rw [hb] at hb'
  cases hb'
  obtain ⟨a, ha⟩ := hex
  rw [hga] at ha
  cases ha

/-- Claim C3, witness: on the enforced handler whose best index is `block1` the ancestor at
height 0 exists and the query answers. -/
theorem C3_has_conflicting_lock_iff_witness :
    handlerLocked1.bestBlockLockBlockIndex = some block1 ∧ block1.WellFormed ∧
    ((∃ a, block1.GetAncestor 0 = some a) ∧ HasConflictingBlockLock handlerLocked1 0 99 ≠ none) ∧
    HasConflictingBlockLock handlerLocked1 0 99 = some true :=
  ⟨by decide, by decide,
   (C3_has_conflicting_lock_iff handlerLocked1 0 99).2.2 block1 (by decide) (by decide)
     (by decide) (by decide),
   by decide⟩

/-- Claim C4 (amended): when the handler is enforced, the index of the best lock is set,
`h` is no higher than that index and the ancestor at `h` exists, then
`HasConflictingBlockLock(h, x)` is the negation of `HasBlockLock(h, x)`. -/
theorem C4_conflicting_is_negated_lock (s : CBlockLocksHandler) (h : Int) (x : uint256)
    (best : CBlockIndex) (he : s.isEnforced = true)
    (hb : s.bestBlockLockBlockIndex = some best) (hh : h ≤ best.nHeight)
    (ha : (best.GetAncestor h).isSome = true) :
    HasConflictingBlockLock s h x = some (!HasBlockLock s h x) :=
  hasConflictingBlockLock_enforced s h x best he hb hh ha

/-- Claim C4, witness: on the enforced handler whose best index is `block1`, at height 0. -/
theorem C4_conflicting_is_negated_lock_witness :
    HasConflictingBlockLock handlerLocked1 0 10 = some (!HasBlockLock handlerLocked1 0 10) ∧
    HasBlockLock handlerLocked1 0 10 = true :=
  ⟨C4_conflicting_is_negated_lock handlerLocked1 0 10 block1 (by decide) (by decide)
     (by decide) (by decide),
   by decide⟩

/-- Claim C4, counterexample: the lock for `block1` arrived before activation, so the index
of the best lock is `block1` while nothing is enforced.  At height 1 both queries are
defined and both answer false: the conflict query is not the negation of the lock
query. -/
theorem C4_counterexample :
    handlerUnenforced1.bestBlockLockBlockIndex = some block1 ∧
    (1 : Int) ≤ block1.nHeight ∧
    block1.GetAncestor 1 = some block1 ∧
    HasBlockLock handlerUnenforced1 1 11 = false ∧
    HasConflictingBlockLock handlerUnenforced1 1 11 = some false ∧
    HasConflictingBlockLock handlerUnenforced1 1 11
      ≠ some (!HasBlockLock handlerUnenforced1 1 11) := by
  decide

/-! ## C5: a lock on an extending chain keeps the earlier locks -/

theorem emplace_snd_of_lookup_none {α : Type} (m : List (uint256 × α)) (k : uint256) (v : α)
    (h : m.lookup k = none) : (emplace m k v).2 = true := by
  unfold emplace
  simp [h]

theorem pnbl_supersede_state (env : Env) (pfrom : NodeId) (blsig : CBlockLockSig)
    (hash : uint256) (s : CBlockLocksHandler) (Y : CBlockIndex)
    (he : s.isEnforced = true)
    (hver : env.VerifyRecoveredSig env.llmqTypeBlockLocks blsig.nHeight
      (env.SerializeHashRequestId blsig.nHeight) blsig.blockHash blsig.sig = true)
    (hnew : AlreadyHave s hash = false)
    (hY : env.LookupBlockIndex blsig.blockHash = some Y)
    (hYh : Y.nHeight = blsig.nHeight)
    (hgt : s.bestBlockLock.nHeight < blsig.nHeight) :
    (ProcessNewBlockLock env pfrom blsig hash s).1 =
      { s with isEnabled := AreBlockLocksEnabled env,
               isEnforced := nBLActive env && AreBlockLocksEnabled env,
               seenBlockLocks := (emplace s.seenBlockLocks hash env.GetTimeMillis).1,
               bestBlockLockHash := hash, bestBlockLock := blsig,
               bestBlockLockWithKnownBlock := blsig, bestBlockLockBlockIndex := some Y } := by
  have hr : resets env s = false := by simp [resets, he]
  have hcas := checkActiveState_of_not_resets env s hr
  have hseen : s.seenBlockLocks.lookup hash = none := by
    unfold AlreadyHave at hnew
    cases hl : s.seenBlockLocks.lookup hash with
    | none => rfl
    | some t => rw [hl] at hnew; simp at hnew
  have hacc : accepts env blsig hash (CheckActiveState env s) = true := by
    rw [hcas]
    unfold accepts
    simp only [emplace_snd_of_lookup_none _ _ _ hseen, hver, Bool.and_true, Bool.true_and,
      Bool.not_eq_true', Bool.and_eq_false_iff, Bool.not_eq_false', decide_eq_false_iff_not,
      not_le]
    exact Or.inr hgt
  rw [pnbl_state_accepted env pfrom blsig hash s hacc, hY]
  dsimp only
  rw [if_pos hYh, hcas]

/-- Claim C5: the handler is enforced with `X` as the index of its best lock; a lock that
verifies, whose hash was not seen, for a block `Y` of the index with
`Y.nHeight = blsig.nHeight` above the best height, on a (well-formed) chain whose
ancestor at the height of `X` is `X`, is processed while enforcement stays active.
Afterwards the best height is that of `Y`, the index of the best lock is `Y`,
`HasBlockLock(Y.nHeight, Y.hash)` holds, and every `(h, x)` locked before is still
locked. -/
theorem C5_supersession_keeps_locks (env : Env) (pfrom : NodeId) (blsig : CBlockLockSig)
    (hash : uint256) (s : CBlockLocksHandler) (X Y : CBlockIndex)
    (he : s.isEnforced = true)
    (hX : s.bestBlockLockBlockIndex = some X)
    (hact : (nBLActive env && AreBlockLocksEnabled env) = true)
    (hver : env.VerifyRecoveredSig env.llmqTypeBlockLocks blsig.nHeight
      (env.SerializeHashRequestId blsig.nHeight) blsig.blockHash blsig.sig = true)
    (hnew : AlreadyHave s hash = false)
    (hY : env.LookupBlockIndex blsig.blockHash = some Y)
    (hYh : Y.nHeight = blsig.nHeight)
    (hgt : s.bestBlockLock.nHeight < blsig.nHeight)
    (hanc : Y.GetAncestor X.nHeight = some X)
    (hw : Y.WellFormed) :
    (ProcessNewBlockLock env pfrom blsig hash s).1.isEnforced = true ∧
    (ProcessNewBlockLock env pfrom blsig hash s).1.bestBlockLock.nHeight = Y.nHeight ∧
    (ProcessNewBlockLock env pfrom blsig hash s).1.bestBlockLockBlockIndex = some Y ∧
    HasBlockLock (ProcessNewBlockLock env pfrom blsig hash s).1 Y.nHeight Y.GetBlockHash
      = true ∧
    ∀ (h : Int) (x : uint256), HasBlockLock s h x = true →
      HasBlockLock (ProcessNewBlockLock env pfrom blsig hash s).1 h x = true := by
  rw [pnbl_supersede_state env pfrom blsig hash s Y he hver hnew hY hYh hgt]
  refine ⟨hact, hYh.symm, rfl, ?_, ?_⟩
  · rw [hasBlockLock_iff]
    exact ⟨hact, Y, rfl, le_refl _, Y, getAncestor_self Y, rfl⟩
  · intro h x hl
    obtain ⟨_, best, hb, hle, a, ha, hx⟩ := (hasBlockLock_iff s h x).1 hl
    rw [hX] at hb
    cases hb
    have hXY : X.nHeight ≤ Y.nHeight := getAncestor_le Y hw X.nHeight X hanc
    rw [hasBlockLock_iff]
    refine ⟨hact, Y, rfl, le_trans hle hXY, a, ?_, hx⟩
    rw [getAncestor_trans Y hw X.nHeight X hanc h hle]
    exact ha

/-- Claim C5, witness: the enforced handler locked on `block1` receives the lock for
`block2`; the lock of `genesis` at height 0 is kept. -/
theorem C5_supersession_keeps_locks_witness :
    HasBlockLock handlerLocked1 0 10 = true ∧
    HasBlockLock (ProcessNewBlockLock envActive 3 lock2 22 handlerLocked1).1 0 10 = true ∧
    (ProcessNewBlockLock envActive 3 lock2 22 handlerLocked1).1.bestBlockLockBlockIndex
      = some block2 :=
  have h := C5_supersession_keeps_locks envActive 3 lock2 22 handlerLocked1 block1 block2
    (by decide) (by decide) (by decide) (by decide) (by decide) (by decide) (by decide)
    (by decide) (by decide) (by decide)
  ⟨by decide, h.2.2.2.2 0 10 (by decide), h.2.2.1⟩

/-! ## C6: transactions safe for mining -/

theorem wrapInt64_of_range (x : Int) (h1 : -9223372036854775808 ≤ x)
    (h2 : x < 9223372036854775808) : wrapInt64 x = x := by
  unfold wrapInt64
  omega

theorem wrapInt64_range (x : Int) :
    -9223372036854775808 ≤ wrapInt64 x ∧ wrapInt64 x < 9223372036854775808 := by
  unfold wrapInt64
  omega

/-- Claim C6 (amended): `IsTxSafeForMining(txid)` is true exactly when at least one of
these holds: conflicting blocks are not rejected, the feature is disabled, enforcement
is off, instant-send is disabled, the transaction is instant-locked, or a first-seen
time is recorded for `txid` and the adjusted time minus it, as the `int64_t`
subtraction gives it, is at least `WAIT_FOR_ISLOCK_TIMEOUT`, which is 600.  The
subtraction gives the exact difference whenever that lies in the range of `int64_t`. -/
theorem C6_tx_safe_for_mining_iff (env : Env) (s : CBlockLocksHandler) (txid : uint256) :
    WAIT_FOR_ISLOCK_TIMEOUT = 600 ∧
    (IsTxSafeForMining env s txid = true ↔
      env.RejectConflictingBlocks = false ∨ s.isEnabled = false ∨ s.isEnforced = false ∨
      env.IsInstantSendEnabled = false ∨ env.IsLocked txid = true ∨
      ∃ t, s.txFirstSeenTime.lookup txid = some t ∧
        wrapInt64 (env.GetAdjustedTime - t) ≥ WAIT_FOR_ISLOCK_TIMEOUT) ∧
    ((∀ t, s.txFirstSeenTime.lookup txid = some t →
        -9223372036854775808 ≤ env.GetAdjustedTime - t ∧
        env.GetAdjustedTime - t < 9223372036854775808) →
      (IsTxSafeForMining env s txid = true ↔
        env.RejectConflictingBlocks = false ∨ s.isEnabled = false ∨ s.isEnforced = false ∨
        env.IsInstantSendEnabled = false ∨ env.IsLocked txid = true ∨
        ∃ t, s.txFirstSeenTime.lookup txid = some t ∧
          env.GetAdjustedTime - t ≥ WAIT_FOR_ISLOCK_TIMEOUT)) := by
  have key : IsTxSafeForMining env s txid = true ↔
      env.RejectConflictingBlocks = false ∨ s.isEnabled = false ∨ s.isEnforced = false ∨
      env.IsInstantSendEnabled = false ∨ env.IsLocked txid = true ∨
      ∃ t, s.txFirstSeenTime.lookup txid = some t ∧
        wrapInt64 (env.GetAdjustedTime - t) ≥ WAIT_FOR_ISLOCK_TIMEOUT := by
    unfold IsTxSafeForMining
    cases hr : env.RejectConflictingBlocks
    · simp
    · cases hen : s.isEnabled
      · simp
      · cases hef : s.isEnforced
        · simp
        · cases his : env.IsInstantSendEnabled
          · simp
          · cases hl : env.IsLocked txid
            · cases hf : s.txFirstSeenTime.lookup txid with
              | none => simp [WAIT_FOR_ISLOCK_TIMEOUT]
              | some t => simp
            · simp
  refine ⟨by decide, key, ?_⟩
  intro hrange
  rw [key]
  cases hf : s.txFirstSeenTime.lookup txid with
  | none => simp
  | some t =>
    obtain ⟨h1, h2⟩ := hrange t hf
    simp only [Option.some.injEq, exists_eq_left', wrapInt64_of_range _ h1 h2]

/-- Claim C6, counterexample: conflicting blocks are not rejected; the feature is enabled
and enforced, instant-send is enabled, transaction 77 is not instant-locked and has no
first-seen time.  None of the five conditions of the claim holds, yet the transaction
is safe for mining. -/
theorem C6_counterexample :
    IsTxSafeForMining envNoReject handlerLocked1 77 = true ∧
    handlerLocked1.isEnabled = true ∧ handlerLocked1.isEnforced = true ∧
    envNoReject.IsInstantSendEnabled = true ∧ envNoReject.IsLocked 77 = false ∧
    handlerLocked1.txFirstSeenTime.lookup 77 = none := by
  decide

/-! ## C7, C8: `CheckActiveState` -/

/-- Claim C7: when `CheckActiveState` takes `isEnforced` from false to true, afterwards the
hash of the best lock is zero, the best lock and the best lock with known block are
default-constructed (height -1, zero hash, null), and the index of the best lock and the
last notified index are unset. -/
theorem C7_enforcement_start_clears_locks (env : Env) (s : CBlockLocksHandler)
    (h0 : s.isEnforced = false) (h1 : (CheckActiveState env s).isEnforced = true) :
    (CheckActiveState env s).bestBlockLockHash = 0 ∧
    (CheckActiveState env s).bestBlockLock = {} ∧
    (CheckActiveState env s).bestBlockLockWithKnownBlock = {} ∧
    (CheckActiveState env s).bestBlockLock.nHeight = -1 ∧
    (CheckActiveState env s).bestBlockLock.blockHash = 0 ∧
    (CheckActiveState env s).bestBlockLock.IsNull = true ∧
    (CheckActiveState env s).bestBlockLockWithKnownBlock.nHeight = -1 ∧
    (CheckActiveState env s).bestBlockLockWithKnownBlock.blockHash = 0 ∧
    (CheckActiveState env s).bestBlockLockWithKnownBlock.IsNull = true ∧
    (CheckActiveState env s).bestBlockLockBlockIndex = none ∧
    (CheckActiveState env s).lastNotifyBlockLockBlockIndex = none := by
  have hr : resets env s = true := by
    cases hres : resets env s
    · rw [checkActiveState_of_not_resets env s hres] at h1
      unfold resets at hres
      simp only [h0, Bool.not_false, Bool.true_and] at hres
      simp only at h1
      rw [hres] at h1
      cases h1
    · rfl
  rw [checkActiveState_of_resets env s hr]
  exact ⟨rfl, rfl, rfl, rfl, rfl, rfl, rfl, rfl, rfl, rfl, rfl⟩

/-- Claim C7, witness: the handler that received `lockA` before activation has a best lock
at height 100; the first `CheckActiveState` on the active chain clears it. -/
theorem C7_enforcement_start_clears_locks_witness :
    (ProcessNewBlockLock envInactive 3 lockA 9 initialHandler).1.bestBlockLock.nHeight = 100 ∧
    (CheckActiveState envActive
      (ProcessNewBlockLock envInactive 3 lockA 9 initialHandler).1).bestBlockLock.nHeight
        = -1 :=
  ⟨by decide,
   (C7_enforcement_start_clears_locks envActive
     (ProcessNewBlockLock envInactive 3 lockA 9 initialHandler).1
     (by decide) (by decide)).2.2.2.1⟩

theorem nBLActive_iff (env : Env) :
    nBLActive env = true ↔
      ∃ tip prev, env.Tip = some tip ∧ tip.pprev = some prev ∧ env.nBLHeight ≤ prev.nHeight := by
  unfold nBLActive
  cases ht : env.Tip with
  | none => simp
  | some tip =>
    cases hp : tip.pprev with
    | none => simp [hp]
    | some prev => simp [hp]

theorem checkActiveState_flags (env : Env) (s : CBlockLocksHandler) :
    (CheckActiveState env s).isEnabled = AreBlockLocksEnabled env ∧
    (CheckActiveState env s).isEnforced = (nBLActive env && AreBlockLocksEnabled env) := by
  cases hres : resets env s
  · rw [checkActiveState_of_not_resets env s hres]
    exact ⟨rfl, rfl⟩
  · rw [checkActiveState_of_resets env s hres]
    exact ⟨rfl, rfl⟩

theorem wellFormed_pprev (tip : CBlockIndex) (hw : tip.WellFormed) :
    (∃ prev, tip.pprev = some prev ∧ prev.nHeight = tip.nHeight - 1) ∨
    (tip.pprev = none ∧ tip.nHeight = 0) := by
  cases tip with
  | root ht x =>
    right
    simp only [CBlockIndex.WellFormed] at hw
    exact ⟨rfl, hw⟩
  | node ht x p =>
    left
    simp only [CBlockIndex.WellFormed] at hw
    refine ⟨p, rfl, ?_⟩
    have h1 := hw.1
    show p.nHeight = ht - 1
    omega

/-- Claim C8 (amended): after `CheckActiveState`, `isEnabled` is the value of the feature
gate, and `isEnforced` is true exactly when the feature gate is active and the active
chain has a tip with a predecessor whose height has reached the activation height
(`pprev->nHeight >= nBLHeight`); on a well-formed chain this says that the tip is above
the genesis block and `tip.nHeight ≥ nBLHeight + 1`. -/
theorem C8_flags_after_check_active_state (env : Env) (s : CBlockLocksHandler) :
    (CheckActiveState env s).isEnabled = env.IsSporkActive ∧
    ((CheckActiveState env s).isEnforced = true ↔
      env.IsSporkActive = true ∧
      ∃ tip prev, env.Tip = some tip ∧ tip.pprev = some prev ∧
        env.nBLHeight ≤ prev.nHeight) ∧
    (∀ tip, env.Tip = some tip → tip.WellFormed →
      ((CheckActiveState env s).isEnforced = true ↔
        env.IsSporkActive = true ∧ 1 ≤ tip.nHeight ∧ env.nBLHeight + 1 ≤ tip.nHeight)) := by
  obtain ⟨h1, h2⟩ := checkActiveState_flags env s
  have hiff : (CheckActiveState env s).isEnforced = true ↔
      env.IsSporkActive = true ∧
      ∃ tip prev, env.Tip = some tip ∧ tip.pprev = some prev ∧
        env.nBLHeight ≤ prev.nHeight := by
    rw [h2, Bool.and_eq_true, nBLActive_iff]
    unfold AreBlockLocksEnabled
    exact And.comm
  refine ⟨h1, hiff, ?_⟩
  intro tip ht hw
  rw [hiff]
  have h0 := wellFormed_nHeight_nonneg tip hw
  constructor
  · rintro ⟨hs, tip', prev, ht', hp, hle⟩
    rw [ht] at ht'
    cases ht'
    rcases wellFormed_pprev tip hw with ⟨prev', hp', hh⟩ | ⟨hp', _⟩
    · rw [hp] at hp'
      cases hp'
      have hpw : 0 ≤ prev.nHeight := by
        cases tip with
        | root ht x => cases hp
        | node ht x p =>
          simp only [CBlockIndex.pprev, Option.some.injEq] at hp
          simp only [CBlockIndex.WellFormed] at hw
          rw [← hp]
          exact wellFormed_nHeight_nonneg p hw.2
      exact ⟨hs, by omega, by omega⟩
    · rw [hp] at hp'
      cases hp'
  · rintro ⟨hs, h1', hle⟩
    rcases wellFormed_pprev tip hw with ⟨prev', hp', hh⟩ | ⟨_, hz⟩
    · exact ⟨hs, tip, prev', ht, hp', by omega⟩
    · omega

/-- Claim C8, witness: on the active chain (tip `block2`, activation height 0) the handler
becomes enforced. -/
theorem C8_flags_after_check_active_state_witness :
    (CheckActiveState envActive initialHandler).isEnforced = true ∧
    ((CheckActiveState envActive initialHandler).isEnforced = true ↔
      envActive.IsSporkActive = true ∧ 1 ≤ block2.nHeight ∧
        envActive.nBLHeight + 1 ≤ block2.nHeight) :=
  ⟨by decide,
   (C8_flags_after_check_active_state envActive initialHandler).2.2 block2 (by decide)
     (by decide)⟩

/-- Claim C8, counterexample: the feature gate is active and the tip `block1` is at the
activation height 1 (`tip.nHeight >= nBLHeight`), yet `CheckActiveState` leaves
`isEnforced` false: the code compares the height of the tip's predecessor. -/
theorem C8_counterexample :
    envAtActivation.IsSporkActive = true ∧
    envAtActivation.Tip = some block1 ∧
    block1.nHeight ≥ envAtActivation.nBLHeight ∧
    (CheckActiveState envAtActivation initialHandler).isEnabled = true ∧
    (CheckActiveState envAtActivation initialHandler).isEnforced = false := by
  decide

/-! ## Calls that leave the lock fields alone -/

theorem cleanup_lockView (env : Env) (s s1 : CBlockLocksHandler)
    (h : Cleanup env s = some s1) : lockView s1 = lockView s := by
  unfold Cleanup at h
  split_ifs at h with h1 h2
  · cases h; rfl
  · cases h; rfl
  · simp only at h
    cases hc : cleanupBlockTxs env s s.blockTxs s.txFirstSeenTime with
    | none => rw [hc] at h; cases h
    | some r =>
      rw [hc] at h
      simp only at h
      cases ht : cleanupTxFirstSeen env r.2 with
      | none => rw [ht] at h; cases h
      | some t =>
        rw [ht] at h
        simp only [Option.some.injEq] at h
        rw [← h]
        rfl

theorem getBlockTxs_lockView (env : Env) (blockHash : uint256) (s : CBlockLocksHandler) :
    lockView (GetBlockTxs env blockHash s).1 = lockView s := by
  unfold GetBlockTxs
  cases s.blockTxs.lookup blockHash with
  | some ret => rfl
  | none =>
    simp only
    cases env.ReadBlockFromDisk (env.LookupBlockIndex blockHash) with
    | none => rfl
    | some block => rfl

theorem walkChain_lockView (env : Env) (pindex : CBlockIndex) (w : CBlockIndex) :
    ∀ s : CBlockLocksHandler, lockView (walkChain env pindex w s).1 = lockView s := by
  induction w with
  | root ht x =>
    intro s
    unfold walkChain
    split_ifs
    · rfl
    · rfl
    · have hg := getBlockTxs_lockView env x s
      split
      · rename_i s1 heq
        rw [heq] at hg
        exact hg
      · rename_i s1 txids heq
        rw [heq] at hg
        split_ifs <;> exact hg
  | node ht x p ih =>
    intro s
    unfold walkChain
    split_ifs
    · rfl
    · rfl
    · have hg := getBlockTxs_lockView env x s
      split
      · rename_i s1 heq
        rw [heq] at hg
        rw [ih s1]
        exact hg
      · rename_i s1 txids heq
        rw [heq] at hg
        split_ifs
        · exact hg
        · rw [ih s1]
          exact hg

theorem trySignChainTip_lockView (env : Env) (s : CBlockLocksHandler)
    (r : CBlockLocksHandler × List Effect) (h : TrySignChainTip env s = some r) :
    lockView r.1 = lockView s := by
  unfold TrySignChainTip at h
  cases hc : Cleanup env s with
  | none => rw [hc] at h; cases h
  | some s1 =>
    have hs1 := cleanup_lockView env s s1 hc
    rw [hc] at h
    dsimp only at h
    by_cases h1 : (!env.fMasternodeMode) = true
    · rw [if_pos h1] at h; cases h; exact hs1
    rw [if_neg h1] at h
    by_cases h2 : (!env.IsBlockchainSynced) = true
    · rw [if_pos h2] at h; cases h; exact hs1
    rw [if_neg h2] at h
    by_cases h3 : (!s1.isEnabled) = true
    · rw [if_pos h3] at h; cases h; exact hs1
    rw [if_neg h3] at h
    cases ht : env.Tip with
    | none => rw [ht] at h; cases h
    | some pindex =>
      rw [ht] at h
      dsimp only at h
      by_cases h4 : pindex.pprev.isNone = true
      · rw [if_pos h4] at h; cases h; exact hs1
      rw [if_neg h4] at h
      by_cases h5 : pindex.nHeight = s1.lastSignedHeight
      · rw [if_pos h5] at h; cases h; exact hs1
      rw [if_neg h5] at h
      by_cases h6 : s1.bestBlockLock.nHeight ≥ pindex.nHeight
      · rw [if_pos h6] at h; cases h; exact hs1
      rw [if_neg h6] at h
      cases hcf : InternalHasConflictingBlockLock s1 pindex.nHeight pindex.GetBlockHash with
      | none => rw [hcf] at h; cases h
      | some c =>
        rw [hcf] at h
        cases c with
        | true => dsimp only at h; cases h; exact hs1
        | false =>
          dsimp only at h
          have hw : lockView (if (env.IsInstantSendEnabled &&
                env.RejectConflictingBlocks) = true
              then walkChain env pindex pindex s1 else (s1, true)).1 = lockView s1 := by
            split_ifs
            · exact walkChain_lockView env pindex pindex s1
            · rfl
          generalize (if (env.IsInstantSendEnabled && env.RejectConflictingBlocks) = true
              then walkChain env pindex pindex s1 else (s1, true)) = w at h hw
          by_cases h7 : (!w.2) = true
          · rw [if_pos h7] at h; cases h; rw [← hs1]; exact hw
          rw [if_neg h7] at h
          by_cases h8 : w.1.bestBlockLock.nHeight ≥ pindex.nHeight
          · rw [if_pos h8] at h; cases h; rw [← hs1]; exact hw
          rw [if_neg h8] at h
          cases h
          rw [← hs1, ← hw]
          rfl

theorem notifyBlockLock_lockView (s : CBlockLocksHandler) (cur : CBlockIndex)
    (blsig : CBlockLockSig) (fx : List Effect) :
    lockView (notifyBlockLock s cur blsig fx).1 = lockView s := by
  unfold notifyBlockLock
  split_ifs <;> rfl

theorem enforceBestBlockLock_lockView (env : Env) (s : CBlockLocksHandler)
    (r : CBlockLocksHandler × List Effect) (h : EnforceBestBlockLock env s = some r) :
    lockView r.1 = lockView s := by
  unfold EnforceBestBlockLock at h
  by_cases h1 : (!s.isEnforced) = true
  · rw [if_pos h1] at h; cases h; rfl
  rw [if_neg h1] at h
  dsimp only at h
  cases hb : s.bestBlockLockBlockIndex with
  | none => rw [hb] at h; cases h; rfl
  | some cur =>
    rw [hb] at h
    dsimp only at h
    cases ht : env.Tip with
    | none => rw [ht] at h; cases h
    | some tip =>
      rw [ht] at h
      dsimp only at h
      by_cases h2 : decide (tip.GetAncestor cur.nHeight ≠ some cur) = true
      · rw [if_pos h2] at h
        by_cases h3 : (!env.ActivateBestChain) = true
        · rw [if_pos h3] at h; cases h; rfl
        rw [if_neg h3] at h
        cases ht2 : env.TipAfterActivate with
        | none => rw [ht2] at h; cases h
        | some tip2 =>
          rw [ht2] at h
          dsimp only at h
          by_cases h4 : tip2.GetAncestor cur.nHeight ≠ some cur
          · rw [if_pos h4] at h; cases h; rfl
          · rw [if_neg h4] at h; cases h; exact notifyBlockLock_lockView _ _ _ _
      · rw [if_neg h2] at h; cases h; exact notifyBlockLock_lockView _ _ _ _

/-- What holds of the lock fields at the start and is kept by `ProcessNewBlockLock`,
`AcceptedBlockHeader` and `CheckActiveState` holds in every reachable state: no other
member function writes a lock field. -/
theorem reachable_lockView_induction (ok : Env → Prop)
    (P : uint256 × CBlockLockSig × CBlockLockSig × Option CBlockIndex → Prop)
    (h0 : P (lockView initialHandler))
    (hp : ∀ (env : Env) (pfrom : NodeId) (blsig : CBlockLockSig) (hash : uint256)
      (s : CBlockLocksHandler), ok env → P (lockView s) →
        P (lockView (ProcessNewBlockLock env pfrom blsig hash s).1))
    (ha : ∀ (pindexNew : CBlockIndex) (s : CBlockLocksHandler), P (lockView s) →
      P (lockView (AcceptedBlockHeader pindexNew s)))
    (hc : ∀ (env : Env) (s : CBlockLocksHandler), ok env → P (lockView s) →
      P (lockView (CheckActiveState env s))) :
    ∀ s : CBlockLocksHandler, Reachable ok s → P (lockView s) := by
  intro s hs
  induction hs with
  | init => exact h0
  | processMessage env pfrom blsig s hok _ ih =>
    unfold ProcessMessage
    split_ifs
    · exact ih
    · exact hp env pfrom blsig _ s hok ih
  | processNewBlockLock env pfrom blsig hash s hok _ ih => exact hp env pfrom blsig hash s hok ih
  | acceptedBlockHeader pindexNew s _ ih => exact ha pindexNew s ih
  | updatedBlockTip s _ ih =>
    unfold UpdatedBlockTip
    split_ifs
    · exact ih
    · exact ih
  | taskDone s _ ih => exact ih
  | checkActiveState env s hok _ ih => exact hc env s hok ih
  | trySignChainTip env s r _ _ hr ih =>
    rw [trySignChainTip_lockView env s r hr]
    exact ih
  | transactionAddedToMempool tx nAcceptTime s _ ih =>
    unfold TransactionAddedToMempool
    split_ifs
    · exact ih
    · exact ih
  | blockConnected env pblock pindex s _ _ ih =>
    unfold BlockConnected
    split_ifs
    · exact ih
    · exact ih
  | blockDisconnected pindexDisconnected s _ ih => exact ih
  | enforceBestBlockLock env s r _ _ hr ih =>
    rw [enforceBestBlockLock_lockView env s r hr]
    exact ih
  | handleNewRecoveredSig env recoveredSig s hok _ ih =>
    unfold HandleNewRecoveredSig
    split_ifs
    · exact ih
    · exact ih
    · exact ih
    · exact hp env (-1) _ _ s hok ih

/-! ## C9, C10: invariants of the lock fields -/

/-- Whatever is reachable with environments that satisfy `ok` is reachable with
environments that satisfy a weaker condition. -/
theorem reachable_mono (ok ok2 : Env → Prop) (hsub : ∀ env, ok env → ok2 env)
    (s : CBlockLocksHandler) (hs : Reachable ok s) : Reachable ok2 s := by
  induction hs with
  | init => exact Reachable.init
  | processMessage env pfrom blsig s hok _ ih =>
    exact Reachable.processMessage env pfrom blsig s (hsub env hok) ih
  | processNewBlockLock env pfrom blsig hash s hok _ ih =>
    exact Reachable.processNewBlockLock env pfrom blsig hash s (hsub env hok) ih
  | acceptedBlockHeader pindexNew s _ ih => exact Reachable.acceptedBlockHeader pindexNew s ih
  | updatedBlockTip s _ ih => exact Reachable.updatedBlockTip s ih
  | taskDone s _ ih => exact Reachable.taskDone s ih
  | checkActiveState env s hok _ ih => exact Reachable.checkActiveState env s (hsub env hok) ih
  | trySignChainTip env s r hok _ hr ih =>
    exact Reachable.trySignChainTip env s r (hsub env hok) ih hr
  | transactionAddedToMempool tx nAcceptTime s _ ih =>
    exact Reachable.transactionAddedToMempool tx nAcceptTime s ih
  | blockConnected env pblock pindex s hok _ ih =>
    exact Reachable.blockConnected env pblock pindex s (hsub env hok) ih
  | blockDisconnected pindexDisconnected s _ ih =>
    exact Reachable.blockDisconnected pindexDisconnected s ih
  | enforceBestBlockLock env s r hok _ hr ih =>
    exact Reachable.enforceBestBlockLock env s r (hsub env hok) ih hr
  | handleNewRecoveredSig env recoveredSig s hok _ ih =>
    exact Reachable.handleNewRecoveredSig env recoveredSig s (hsub env hok) ih

theorem lookupFaithful_envActive : LookupFaithful envActive := by
  intro h b hb
  simp only [envActive] at hb
  split_ifs at hb with h1 h2 h3
  · cases hb; rw [h1]; rfl
  · cases hb; rw [h2]; rfl
  · cases hb; rw [h3]; rfl

theorem rejectsZeroHash_envStrict : RejectsZeroHash envStrict := by
  intro t h id sig
  rfl

/-- The index of the best lock has the height of the best lock with known block. -/
theorem reachable_index_height (s : CBlockLocksHandler) (hs : Reachable anyEnv s) :
    ∀ b, s.bestBlockLockBlockIndex = some b →
      b.nHeight = s.bestBlockLockWithKnownBlock.nHeight := by
  refine reachable_lockView_induction anyEnv
    (fun v => ∀ b, v.2.2.2 = some b → b.nHeight = v.2.2.1.nHeight) ?_ ?_ ?_ ?_ s hs
  · intro b hb
    cases hb
  · intro env pfrom blsig hash s _ ih
    have ih1 : ∀ b, (CheckActiveState env s).bestBlockLockBlockIndex = some b →
        b.nHeight = (CheckActiveState env s).bestBlockLockWithKnownBlock.nHeight := by
      cases hres : resets env s
      · rw [checkActiveState_of_not_resets env s hres]; exact ih
      · rw [checkActiveState_of_resets env s hres]; intro b hb; cases hb
    cases hacc : accepts env blsig hash (CheckActiveState env s)
    · rw [pnbl_state_rejected env pfrom blsig hash s hacc]
      exact ih1
    · rw [pnbl_state_accepted env pfrom blsig hash s hacc]
      cases env.LookupBlockIndex blsig.blockHash with
      | none => exact ih1
      | some p =>
        dsimp only
        by_cases hp : p.nHeight = blsig.nHeight
        · rw [if_pos hp]
          intro b hb
          simp only [lockView, Option.some.injEq] at hb
          rw [← hb]
          exact hp
        · rw [if_neg hp]
          exact ih1
  · intro pindexNew s ih
    unfold AcceptedBlockHeader
    by_cases h1 : pindexNew.GetBlockHash = s.bestBlockLock.blockHash
    · rw [if_pos h1]
      by_cases h2 : s.bestBlockLock.nHeight ≠ pindexNew.nHeight
      · rw [if_pos h2]; exact ih
      · rw [if_neg h2]
        intro b hb
        simp only [lockView, Option.some.injEq] at hb
        rw [← hb]
        simp only [lockView]
        simp only [ne_eq, not_not] at h2
        exact h2.symm
    · rw [if_neg h1]; exact ih
  · intro env s _ ih
    cases hres : resets env s
    · rw [checkActiveState_of_not_resets env s hres]; exact ih
    · rw [checkActiveState_of_resets env s hres]; intro b hb; cases hb

/-- When the block index is faithful, the index of the best lock has the hash of the best
lock with known block. -/
theorem reachable_index_hash (s : CBlockLocksHandler) (hs : Reachable LookupFaithful s) :
    ∀ b, s.bestBlockLockBlockIndex = some b →
      b.GetBlockHash = s.bestBlockLockWithKnownBlock.blockHash := by
  refine reachable_lockView_induction LookupFaithful
    (fun v => ∀ b, v.2.2.2 = some b → b.GetBlockHash = v.2.2.1.blockHash) ?_ ?_ ?_ ?_ s hs
  · intro b hb
    cases hb
  · intro env pfrom blsig hash s hok ih
    have ih1 : ∀ b, (CheckActiveState env s).bestBlockLockBlockIndex = some b →
        b.GetBlockHash = (CheckActiveState env s).bestBlockLockWithKnownBlock.blockHash := by
      cases hres : resets env s
      · rw [checkActiveState_of_not_resets env s hres]; exact ih
      · rw [checkActiveState_of_resets env s hres]; intro b hb; cases hb
    cases hacc : accepts env blsig hash (CheckActiveState env s)
    · rw [pnbl_state_rejected env pfrom blsig hash s hacc]
      exact ih1
    · rw [pnbl_state_accepted env pfrom blsig hash s hacc]
      cases hl : env.LookupBlockIndex blsig.blockHash with
      | none => exact ih1
      | some p =>
        dsimp only
        by_cases hp : p.nHeight = blsig.nHeight
        · rw [if_pos hp]
          intro b hb
          simp only [lockView, Option.some.injEq] at hb
          rw [← hb]
          exact hok blsig.blockHash p hl
        · rw [if_neg hp]
          exact ih1
  · intro pindexNew s ih
    unfold AcceptedBlockHeader
    by_cases h1 : pindexNew.GetBlockHash = s.bestBlockLock.blockHash
    · rw [if_pos h1]
      by_cases h2 : s.bestBlockLock.nHeight ≠ pindexNew.nHeight
      · rw [if_pos h2]; exact ih
      · rw [if_neg h2]
        intro b hb
        simp only [lockView, Option.some.injEq] at hb
        rw [← hb]
        exact h1
    · rw [if_neg h1]; exact ih
  · intro env s _ ih
    cases hres : resets env s
    · rw [checkActiveState_of_not_resets env s hres]; exact ih
    · rw [checkActiveState_of_resets env s hres]; intro b hb; cases hb

/-- When no signature over the zero hash verifies, the best lock has height -1 or a
nonzero block hash. -/
theorem reachable_best_hash (s : CBlockLocksHandler) (hs : Reachable RejectsZeroHash s) :
    s.bestBlockLock.nHeight = -1 ∨ s.bestBlockLock.blockHash ≠ 0 := by
  refine reachable_lockView_induction RejectsZeroHash
    (fun v => v.2.1.nHeight = -1 ∨ v.2.1.blockHash ≠ 0) ?_ ?_ ?_ ?_ s hs
  · exact Or.inl rfl
  · intro env pfrom blsig hash s hok ih
    have ih1 : (CheckActiveState env s).bestBlockLock.nHeight = -1 ∨
        (CheckActiveState env s).bestBlockLock.blockHash ≠ 0 := by
      cases hres : resets env s
      · rw [checkActiveState_of_not_resets env s hres]; exact ih
      · rw [checkActiveState_of_resets env s hres]; exact Or.inl rfl
    cases hacc : accepts env blsig hash (CheckActiveState env s)
    · rw [pnbl_state_rejected env pfrom blsig hash s hacc]
      exact ih1
    · have hne : blsig.blockHash ≠ 0 := by
        intro hz
        unfold accepts at hacc
        simp only [Bool.and_eq_true] at hacc
        have hv := hacc.2
        rw [hz, hok] at hv
        cases hv
      rw [pnbl_state_accepted env pfrom blsig hash s hacc]
      cases env.LookupBlockIndex blsig.blockHash with
      | none => exact Or.inr hne
      | some p =>
        dsimp only
        by_cases hp : p.nHeight = blsig.nHeight
        · rw [if_pos hp]; exact Or.inr hne
        · rw [if_neg hp]; exact Or.inr hne
  · intro pindexNew s ih
    unfold AcceptedBlockHeader
    by_cases h1 : pindexNew.GetBlockHash = s.bestBlockLock.blockHash
    · rw [if_pos h1]
      by_cases h2 : s.bestBlockLock.nHeight ≠ pindexNew.nHeight
      · rw [if_pos h2]; exact ih
      · rw [if_neg h2]; exact ih
    · rw [if_neg h1]; exact ih
  · intro env s _ ih
    cases hres : resets env s
    · rw [checkActiveState_of_not_resets env s hres]; exact ih
    · rw [checkActiveState_of_resets env s hres]; exact Or.inl rfl

/-- Claim C9 (amended): in every state reachable from the initial one by calls of the
member functions, if the index of the best lock is set then its height is the height of
the best lock with known block and, when the block index hands out for a hash only an
entry with that hash, its hash is the block hash of the best lock with known block.
The best lock itself may be a newer one whose block is not known; whenever it is the
best lock with known block, the index agrees with it. -/
theorem C9_best_index_matches_known_lock (s : CBlockLocksHandler) (b : CBlockIndex)
    (hb : s.bestBlockLockBlockIndex = some b) :
    (Reachable anyEnv s → b.nHeight = s.bestBlockLockWithKnownBlock.nHeight) ∧
    (Reachable LookupFaithful s →
      b.GetBlockHash = s.bestBlockLockWithKnownBlock.blockHash) ∧
    (Reachable LookupFaithful s → s.bestBlockLock = s.bestBlockLockWithKnownBlock →
      b.nHeight = s.bestBlockLock.nHeight ∧ b.GetBlockHash = s.bestBlockLock.blockHash) := by
  refine ⟨fun hs => reachable_index_height s hs b hb,
    fun hs => reachable_index_hash s hs b hb, fun hs heq => ?_⟩
  have hany : Reachable anyEnv s := reachable_mono LookupFaithful anyEnv
    (fun _ _ => trivial) s hs
  rw [heq]
  exact ⟨reachable_index_height s hany b hb, reachable_index_hash s hs b hb⟩

/-- Claim C9, witness: the handler locked on `block1` is reachable, and `block1` agrees with
the best lock with known block. -/
theorem C9_best_index_matches_known_lock_witness :
    Reachable LookupFaithful handlerLocked1 ∧
    handlerLocked1.bestBlockLockBlockIndex = some block1 ∧
    block1.GetBlockHash = handlerLocked1.bestBlockLockWithKnownBlock.blockHash :=
  have hr : Reachable LookupFaithful handlerLocked1 :=
    Reachable.processNewBlockLock envActive 3 lock1 21 initialHandler
      lookupFaithful_envActive Reachable.init
  ⟨hr, by decide,
   (C9_best_index_matches_known_lock handlerLocked1 block1 (by decide)).2.1 hr⟩

/-- Claim C9, counterexample: after the lock for the known `block1`, a higher lock arrives
for a block the index does not know.  The best lock is now at height 100 with block hash
7, while the index of the best lock is still `block1`, at height 1 with hash 11. -/
theorem C9_counterexample :
    Reachable LookupFaithful handlerAhead ∧
    handlerAhead.bestBlockLockBlockIndex = some block1 ∧
    block1.nHeight ≠ handlerAhead.bestBlockLock.nHeight ∧
    block1.GetBlockHash ≠ handlerAhead.bestBlockLock.blockHash :=
  ⟨Reachable.processNewBlockLock envActive 3 lockA 9 handlerLocked1
      lookupFaithful_envActive
      (Reachable.processNewBlockLock envActive 3 lock1 21 initialHandler
        lookupFaithful_envActive Reachable.init),
   by decide, by decide, by decide⟩

/-- Claim C10 (amended): in every state reachable from the initial one by calls of the
member functions, served by environments in which no signature over the zero message
hash verifies, a best lock of height at least 0 has a nonzero block hash. -/
theorem C10_best_height_implies_hash (s : CBlockLocksHandler)
    (hs : Reachable RejectsZeroHash s) (hh : 0 ≤ s.bestBlockLock.nHeight) :
    s.bestBlockLock.blockHash ≠ 0 := by
  rcases reachable_best_hash s hs with h | h
  · omega
  · exact h

/-- Claim C10, witness: the lock for `block1`, received where zero hashes do not verify. -/
theorem C10_best_height_implies_hash_witness :
    (ProcessNewBlockLock envStrict 3 lock1 21 initialHandler).1.bestBlockLock.nHeight = 1 ∧
    (ProcessNewBlockLock envStrict 3 lock1 21 initialHandler).1.bestBlockLock.blockHash ≠ 0 :=
  ⟨by decide,
   C10_best_height_implies_hash (ProcessNewBlockLock envStrict 3 lock1 21 initialHandler).1
     (Reachable.processNewBlockLock envStrict 3 lock1 21 initialHandler
       rejectsZeroHash_envStrict Reachable.init)
     (by decide)⟩

/-- Claim C10, counterexample: a lock at height 5 with a zero block hash, sent by peer 3 and
accepted by the verification oracle, becomes the best lock. -/
theorem C10_counterexample :
    Reachable anyEnv handlerZero ∧
    0 ≤ handlerZero.bestBlockLock.nHeight ∧
    handlerZero.bestBlockLock.blockHash = 0 :=
  ⟨Reachable.processNewBlockLock envActive 3 lockZero 30 initialHandler trivial Reachable.init,
   by decide, by decide⟩

/-! ## The effects of `ProcessNewBlockLock` -/

theorem pnbl_rejected (env : Env) (pfrom : NodeId) (blsig : CBlockLockSig)
    (hash : uint256) (s : CBlockLocksHandler)
    (h : accepts env blsig hash (CheckActiveState env s) = false) :
    ProcessNewBlockLock env pfrom blsig hash s =
      ({ CheckActiveState env s with
          seenBlockLocks :=
            (emplace (CheckActiveState env s).seenBlockLocks hash env.GetTimeMillis).1 },
       eraseRequest pfrom hash ++
        (if (emplace (CheckActiveState env s).seenBlockLocks hash env.GetTimeMillis).2 = true ∧
            ((CheckActiveState env s).bestBlockLock.IsNull = true ∨
              (CheckActiveState env s).bestBlockLock.nHeight < blsig.nHeight) ∧
            pfrom ≠ -1
          then [Effect.Misbehaving pfrom 10] else [])) := by
  unfold accepts at h
  unfold ProcessNewBlockLock eraseRequest
  simp only []
  cases hb1 : (emplace (CheckActiveState env s).seenBlockLocks hash env.GetTimeMillis).2
  · simp
  · cases hn : (CheckActiveState env s).bestBlockLock.IsNull
    · by_cases hle : blsig.nHeight ≤ (CheckActiveState env s).bestBlockLock.nHeight
      · have hlt : ¬ (CheckActiveState env s).bestBlockLock.nHeight < blsig.nHeight := by omega
        simp [hle, hlt]
      · have hlt : (CheckActiveState env s).bestBlockLock.nHeight < blsig.nHeight := by omega
        cases hb3 : env.VerifyRecoveredSig env.llmqTypeBlockLocks blsig.nHeight
            (env.SerializeHashRequestId blsig.nHeight) blsig.blockHash blsig.sig
        · by_cases hp : pfrom = -1 <;> simp [hle, hlt, hp]
        · rw [hb1, hn, hb3] at h; simp [hle] at h
    · cases hb3 : env.VerifyRecoveredSig env.llmqTypeBlockLocks blsig.nHeight
          (env.SerializeHashRequestId blsig.nHeight) blsig.blockHash blsig.sig
      · by_cases hp : pfrom = -1 <;> simp [hp]
      · rw [hb1, hn, hb3] at h; simp at h

theorem pnbl_accepted (env : Env) (pfrom : NodeId) (blsig : CBlockLockSig)
    (hash : uint256) (s : CBlockLocksHandler)
    (h : accepts env blsig hash (CheckActiveState env s) = true) :
    (ProcessNewBlockLock env pfrom blsig hash s).2 =
      match env.LookupBlockIndex blsig.blockHash with
      | none => eraseRequest pfrom hash ++ [Effect.RelayInv hash]
      | some p =>
        if p.nHeight = blsig.nHeight then
          eraseRequest pfrom hash ++ [Effect.RelayInv hash, Effect.ScheduleEnforce]
        else eraseRequest pfrom hash := by
  unfold accepts at h
  simp only [Bool.and_eq_true] at h
  obtain ⟨⟨hb1, hb2⟩, hb3⟩ := h
  simp only [Bool.not_eq_true'] at hb2
  unfold ProcessNewBlockLock eraseRequest
  simp only [hb1, hb2, hb3]
  cases env.LookupBlockIndex blsig.blockHash with
  | none => simp
  | some p => by_cases hp : p.nHeight = blsig.nHeight <;> simp [hp]

theorem accepts_iff (env : Env) (blsig : CBlockLockSig) (hash : uint256)
    (s1 : CBlockLocksHandler) :
    accepts env blsig hash s1 = true ↔
      AlreadyHave s1 hash = false ∧
      (s1.bestBlockLock.IsNull = true ∨ s1.bestBlockLock.nHeight < blsig.nHeight) ∧
      env.VerifyRecoveredSig env.llmqTypeBlockLocks blsig.nHeight
        (env.SerializeHashRequestId blsig.nHeight) blsig.blockHash blsig.sig = true := by
  unfold accepts AlreadyHave emplace
  cases hl : s1.seenBlockLocks.lookup hash with
  | some t => simp
  | none =>
    cases hn : s1.bestBlockLock.IsNull <;> simp

theorem checkActiveState_seen (env : Env) (s : CBlockLocksHandler) :
    (CheckActiveState env s).seenBlockLocks = s.seenBlockLocks := by
  cases hres : resets env s
  · rw [checkActiveState_of_not_resets env s hres]
  · rw [checkActiveState_of_resets env s hres]

theorem relayed_eraseRequest (pfrom : NodeId) (hash : uint256) (fx : List Effect) :
    relayed (eraseRequest pfrom hash ++ fx) = relayed fx := by
  unfold eraseRequest
  split_ifs <;> simp [relayed]

theorem misbehaviour_eraseRequest (p pfrom : NodeId) (hash : uint256) (fx : List Effect) :
    misbehaviour p (eraseRequest pfrom hash ++ fx) = misbehaviour p fx := by
  unfold eraseRequest
  split_ifs <;> simp [misbehaviour]

/-! ## C11: a signature that does not verify -/

/-- Claim C11 (amended): a lock from a peer (`pfrom ≥ 0`) whose signature does not verify
leaves the handler as the opening `CheckActiveState` left it, except that the hash is
recorded in `seenBlockLocks`: when the call does not switch enforcement on, only
`isEnabled`, `isEnforced` and `seenBlockLocks` can differ from before.  No inventory is
relayed.  The misbehaviour score of the peer is raised by exactly 10 when the hash was
not seen before and the lock is not older than the best one; otherwise the lock is
dropped before verification and the score stays.  No other peer is penalised. -/
theorem C11_invalid_signature (env : Env) (pfrom : NodeId) (blsig : CBlockLockSig)
    (hash : uint256) (s : CBlockLocksHandler) (hp : 0 ≤ pfrom)
    (hv : env.VerifyRecoveredSig env.llmqTypeBlockLocks blsig.nHeight
      (env.SerializeHashRequestId blsig.nHeight) blsig.blockHash blsig.sig = false) :
    (ProcessNewBlockLock env pfrom blsig hash s).1 =
      { CheckActiveState env s with
        seenBlockLocks := (emplace s.seenBlockLocks hash env.GetTimeMillis).1 } ∧
    (resets env s = false →
      (ProcessNewBlockLock env pfrom blsig hash s).1 =
        { s with isEnabled := AreBlockLocksEnabled env,
                 isEnforced := nBLActive env && AreBlockLocksEnabled env,
                 seenBlockLocks := (emplace s.seenBlockLocks hash env.GetTimeMillis).1 }) ∧
    relayed (ProcessNewBlockLock env pfrom blsig hash s).2 = [] ∧
    (AlreadyHave s hash = false →
      ((CheckActiveState env s).bestBlockLock.IsNull = true ∨
        (CheckActiveState env s).bestBlockLock.nHeight < blsig.nHeight) →
      misbehaviour pfrom (ProcessNewBlockLock env pfrom blsig hash s).2 = 10) ∧
    (¬ (AlreadyHave s hash = false ∧
        ((CheckActiveState env s).bestBlockLock.IsNull = true ∨
          (CheckActiveState env s).bestBlockLock.nHeight < blsig.nHeight)) →
      misbehaviour pfrom (ProcessNewBlockLock env pfrom blsig hash s).2 = 0) ∧
    (∀ p, p ≠ pfrom → misbehaviour p (ProcessNewBlockLock env pfrom blsig hash s).2 = 0) := by
  have hacc : accepts env blsig hash (CheckActiveState env s) = false := by
    cases ha : accepts env blsig hash (CheckActiveState env s)
    · rfl
    · rw [accepts_iff] at ha
      rw [hv] at ha
      exact absurd ha.2.2 (by simp)
  have hpn : pfrom ≠ -1 := by
    intro hc
    rw [hc] at hp
    exact absurd hp (by decide)
  have hseen := checkActiveState_seen env s
  have hemp : (emplace (CheckActiveState env s).seenBlockLocks hash env.GetTimeMillis).2 = true ↔
      AlreadyHave s hash = false := by
    rw [hseen]
    unfold emplace AlreadyHave
    cases s.seenBlockLocks.lookup hash <;> simp
  rw [pnbl_rejected env pfrom blsig hash s hacc]
  refine ⟨?_, ?_, ?_, ?_, ?_, ?_⟩
  · rw [hseen]
  · intro hr
    rw [hseen, checkActiveState_of_not_resets env s hr]
  · rw [relayed_eraseRequest]
    split_ifs <;> simp [relayed]
  · intro hnew hh
    rw [misbehaviour_eraseRequest, if_pos ⟨hemp.2 hnew, hh, hpn⟩]
    simp [misbehaviour]
  · intro hnot
    rw [misbehaviour_eraseRequest, if_neg (fun hc => hnot ⟨hemp.1 hc.1, hc.2.1⟩)]
    simp [misbehaviour]
  · intro p hne
    rw [misbehaviour_eraseRequest]
    split_ifs
    · simp [misbehaviour, Ne.symm hne]
    · simp [misbehaviour]

/-- Claim C11, witness: peer 3 sends `lock1` where no signature verifies. -/
theorem C11_invalid_signature_witness :
    relayed (ProcessNewBlockLock envReject 3 lock1 21 initialHandler).2 = [] ∧
    misbehaviour 3 (ProcessNewBlockLock envReject 3 lock1 21 initialHandler).2 = 10 :=
  have h := C11_invalid_signature envReject 3 lock1 21 initialHandler (by decide) (by decide)
  ⟨h.2.2.1, h.2.2.2.1 (by decide) (by decide)⟩

/-- Claim C11, counterexample: peer 3 sends `lock1` with hash 21 where no signature
verifies.  The handler afterwards is not the handler before: the hash is in
`seenBlockLocks` and the flags were refreshed.  When the peer sends the same message
again it is dropped as a duplicate, and the score of the peer is not raised. -/
theorem C11_counterexample :
    (ProcessNewBlockLock envReject 3 lock1 21 initialHandler).1 ≠ initialHandler ∧
    initialHandler.seenBlockLocks = [] ∧
    (ProcessNewBlockLock envReject 3 lock1 21 initialHandler).1.seenBlockLocks = [(21, 0)] ∧
    initialHandler.isEnforced = false ∧
    (ProcessNewBlockLock envReject 3 lock1 21 initialHandler).1.isEnforced = true ∧
    misbehaviour 3 (ProcessNewBlockLock envReject 3 lock1 21
      (ProcessNewBlockLock envReject 3 lock1 21 initialHandler).1).2 = 0 := by
  decide

/-! ## C12, C18: what an accepted lock does -/

theorem pnbl_relayed (env : Env) (pfrom : NodeId) (blsig : CBlockLockSig)
    (hash : uint256) (s : CBlockLocksHandler) :
    relayed (ProcessNewBlockLock env pfrom blsig hash s).2 =
      if accepts env blsig hash (CheckActiveState env s) = true ∧
          (env.LookupBlockIndex blsig.blockHash = none ∨
            ∃ p, env.LookupBlockIndex blsig.blockHash = some p ∧ p.nHeight = blsig.nHeight)
      then [hash] else [] := by
  cases hacc : accepts env blsig hash (CheckActiveState env s)
  · rw [pnbl_rejected env pfrom blsig hash s hacc]
    rw [relayed_eraseRequest]
    simp only [Bool.false_eq_true, false_and, if_false]
    split_ifs <;> simp [relayed]
  · rw [pnbl_accepted env pfrom blsig hash s hacc]
    cases hl : env.LookupBlockIndex blsig.blockHash with
    | none => simp [relayed_eraseRequest, relayed]
    | some p =>
      by_cases hp : p.nHeight = blsig.nHeight
      · simp [hp, relayed_eraseRequest, relayed]
      · have := relayed_eraseRequest pfrom hash []
        simp only [List.append_nil] at this
        simp [hp, this, relayed]

/-- Claim C12 (amended): `ProcessNewBlockLock` relays inventory for `hash`, exactly once,
if and only if the hash was not seen, the lock is a new best by height (after the opening
`CheckActiveState` the best lock is null or lower), the signature verifies, and the block
named by the lock is either unknown to the index or known at the height of the lock;
in every other case, also for an accepted lock whose block the index holds at another
height, nothing is relayed.  In a call that does not switch enforcement on, the best
lock the heights are compared with is the one held before the call. -/
theorem C12_relay_iff_accepted (env : Env) (pfrom : NodeId) (blsig : CBlockLockSig)
    (hash : uint256) (s : CBlockLocksHandler) :
    (relayed (ProcessNewBlockLock env pfrom blsig hash s).2 = [hash] ↔
      AlreadyHave s hash = false ∧
      ((CheckActiveState env s).bestBlockLock.IsNull = true ∨
        (CheckActiveState env s).bestBlockLock.nHeight < blsig.nHeight) ∧
      env.VerifyRecoveredSig env.llmqTypeBlockLocks blsig.nHeight
        (env.SerializeHashRequestId blsig.nHeight) blsig.blockHash blsig.sig = true ∧
      (env.LookupBlockIndex blsig.blockHash = none ∨
        ∃ p, env.LookupBlockIndex blsig.blockHash = some p ∧ p.nHeight = blsig.nHeight)) ∧
    (relayed (ProcessNewBlockLock env pfrom blsig hash s).2 = [hash] ∨
      relayed (ProcessNewBlockLock env pfrom blsig hash s).2 = []) ∧
    (resets env s = false → (CheckActiveState env s).bestBlockLock = s.bestBlockLock) := by
  have hrel := pnbl_relayed env pfrom blsig hash s
  have hseen : AlreadyHave (CheckActiveState env s) hash = AlreadyHave s hash := by
    unfold AlreadyHave
    rw [checkActiveState_seen]
  refine ⟨?_, ?_, ?_⟩
  · rw [hrel]
    have hai := accepts_iff env blsig hash (CheckActiveState env s)
    rw [hseen] at hai
    constructor
    · intro h
      split_ifs at h with hc
      have ha := hai.1 hc.1
      exact ⟨ha.1, ha.2.1, ha.2.2, hc.2⟩
    · rintro ⟨h1, h2, h3, h4⟩
      rw [if_pos ⟨hai.2 ⟨h1, h2, h3⟩, h4⟩]
  · rw [hrel]
    split_ifs
    · exact Or.inl rfl
    · exact Or.inr rfl
  · intro hr
    rw [checkActiveState_of_not_resets env s hr]

/-- Claim C12, counterexample: peer 3 sends, with a hash not seen and a signature that
verifies, a lock at height 2 naming `block1`, which the index holds at height 1.  The
lock becomes the best lock, and nothing is relayed. -/
theorem C12_counterexample :
    AlreadyHave initialHandler 40 = false ∧
    initialHandler.bestBlockLock.IsNull = true ∧
    envActive.VerifyRecoveredSig envActive.llmqTypeBlockLocks lockMismatch.nHeight
      (envActive.SerializeHashRequestId lockMismatch.nHeight) lockMismatch.blockHash
      lockMismatch.sig = true ∧
    (ProcessNewBlockLock envActive 3 lockMismatch 40 initialHandler).1.bestBlockLock
      = lockMismatch ∧
    (ProcessNewBlockLock envActive 3 lockMismatch 40 initialHandler).1.bestBlockLockHash = 40 ∧
    relayed (ProcessNewBlockLock envActive 3 lockMismatch 40 initialHandler).2 = [] := by
  decide

/-- Claim C18 (amended): when the hash was not seen, the lock is not older than the best
lock that the opening `CheckActiveState` left, and the signature verifies, then
afterwards the hash of the best lock is `hash` and the best lock is `blsig`, whether the
block is known at the height of the lock, known at another height, or unknown.  The best
lock with known block and its index become `(blsig, index)` when the index holds the
block at the height of the lock; otherwise they stay as the opening `CheckActiveState`
left them, which is as they were before the call unless the call switches enforcement
on.  When the index holds the block at another height nothing is relayed and no
enforcement is scheduled. -/
theorem C18_state_after_acceptance (env : Env) (pfrom : NodeId) (blsig : CBlockLockSig)
    (hash : uint256) (s : CBlockLocksHandler)
    (hnew : AlreadyHave s hash = false)
    (hh : (CheckActiveState env s).bestBlockLock.IsNull = true ∨
      (CheckActiveState env s).bestBlockLock.nHeight < blsig.nHeight)
    (hv : env.VerifyRecoveredSig env.llmqTypeBlockLocks blsig.nHeight
      (env.SerializeHashRequestId blsig.nHeight) blsig.blockHash blsig.sig = true) :
    (ProcessNewBlockLock env pfrom blsig hash s).1.bestBlockLockHash = hash ∧
    (ProcessNewBlockLock env pfrom blsig hash s).1.bestBlockLock = blsig ∧
    (∀ p, env.LookupBlockIndex blsig.blockHash = some p → p.nHeight = blsig.nHeight →
      (ProcessNewBlockLock env pfrom blsig hash s).1.bestBlockLockWithKnownBlock = blsig ∧
      (ProcessNewBlockLock env pfrom blsig hash s).1.bestBlockLockBlockIndex = some p) ∧
    ((¬ ∃ p, env.LookupBlockIndex blsig.blockHash = some p ∧ p.nHeight = blsig.nHeight) →
      (ProcessNewBlockLock env pfrom blsig hash s).1.bestBlockLockWithKnownBlock
        = (CheckActiveState env s).bestBlockLockWithKnownBlock ∧
      (ProcessNewBlockLock env pfrom blsig hash s).1.bestBlockLockBlockIndex
        = (CheckActiveState env s).bestBlockLockBlockIndex) ∧
    (resets env s = false →
      (CheckActiveState env s).bestBlockLockWithKnownBlock = s.bestBlockLockWithKnownBlock ∧
      (CheckActiveState env s).bestBlockLockBlockIndex = s.bestBlockLockBlockIndex) ∧
    (∀ p, env.LookupBlockIndex blsig.blockHash = some p → p.nHeight ≠ blsig.nHeight →
      relayed (ProcessNewBlockLock env pfrom blsig hash s).2 = [] ∧
      Effect.ScheduleEnforce ∉ (ProcessNewBlockLock env pfrom blsig hash s).2) := by
  have hacc : accepts env blsig hash (CheckActiveState env s) = true := by
    rw [accepts_iff]
    refine ⟨?_, hh, hv⟩
    unfold AlreadyHave
    rw [checkActiveState_seen]
    exact hnew
  rw [pnbl_state_accepted env pfrom blsig hash s hacc, pnbl_accepted env pfrom blsig hash s hacc]
  refine ⟨?_, ?_, ?_, ?_, ?_, ?_⟩
  · cases env.LookupBlockIndex blsig.blockHash with
    | none => rfl
    | some p => dsimp only; split_ifs <;> rfl
  · cases env.LookupBlockIndex blsig.blockHash with
    | none => rfl
    | some p => dsimp only; split_ifs <;> rfl
  · intro p hl hp
    rw [hl]
    dsimp only
    rw [if_pos hp]
    exact ⟨rfl, rfl⟩
  · intro hno
    cases hl : env.LookupBlockIndex blsig.blockHash with
    | none => exact ⟨rfl, rfl⟩
    | some p =>
      dsimp only
      have hp : ¬ p.nHeight = blsig.nHeight := fun hp => hno ⟨p, hl, hp⟩
      rw [if_neg hp]
      exact ⟨rfl, rfl⟩
  · intro hr
    rw [checkActiveState_of_not_resets env s hr]
    exact ⟨rfl, rfl⟩
  · intro p hl hp
    rw [hl]
    dsimp only
    rw [if_neg hp]
    have := relayed_eraseRequest pfrom hash []
    simp only [List.append_nil] at this
    refine ⟨by rw [this]; rfl, ?_⟩
    unfold eraseRequest
    split_ifs <;> simp

/-- Claim C18, witness: the handler locked on `block1` accepts `lockA`, whose block the
index does not know: the best lock is `lockA`, the index of the best lock with known block
stays `block1`. -/
theorem C18_state_after_acceptance_witness :
    (ProcessNewBlockLock envActive 3 lockA 9 handlerLocked1).1.bestBlockLock = lockA ∧
    (ProcessNewBlockLock envActive 3 lockA 9 handlerLocked1).1.bestBlockLockBlockIndex
      = some block1 :=
  have h := C18_state_after_acceptance envActive 3 lockA 9 handlerLocked1 (by decide)
    (by decide) (by decide)
  ⟨h.2.1, by decide⟩

/-- Claim C18, counterexample: the handler holds the lock of `block1`, received before
activation, with `block1` as index.  The call that brings `lockA`, for a block the index
does not know, finds enforcement switched on: the lock passes the three checks and
becomes the best lock, and the best lock with known block and its index are not what
they were before the call but cleared. -/
theorem C18_counterexample :
    handlerUnenforced1.bestBlockLockWithKnownBlock = lock1 ∧
    handlerUnenforced1.bestBlockLockBlockIndex = some block1 ∧
    AlreadyHave handlerUnenforced1 9 = false ∧
    envActive.LookupBlockIndex lockA.blockHash = none ∧
    (ProcessNewBlockLock envActive 3 lockA 9 handlerUnenforced1).1.bestBlockLock = lockA ∧
    (ProcessNewBlockLock envActive 3 lockA 9 handlerUnenforced1).1.bestBlockLockHash = 9 ∧
    (ProcessNewBlockLock envActive 3 lockA 9 handlerUnenforced1).1.bestBlockLockWithKnownBlock
      = {} ∧
    (ProcessNewBlockLock envActive 3 lockA 9 handlerUnenforced1).1.bestBlockLockBlockIndex
      = none := by
  decide

/-! ## C14: the lock handed out for a hash -/

/-- Claim C14: `GetBlockLockByHash(h)` hands out a lock exactly when `h` is the hash of the
best lock, and the lock is the best lock; every other hash yields nothing.  After a new
lock was accepted under hash `hash`, every hash but `hash` yields nothing, among them the
hash of the lock that was best before, as long as that hash is still in
`seenBlockLocks`. -/
theorem C14_get_by_hash_only_best (s : CBlockLocksHandler) (h : uint256) :
    (∀ l, GetBlockLockByHash s h = some l ↔ h = s.bestBlockLockHash ∧ l = s.bestBlockLock) ∧
    (GetBlockLockByHash s h = none ↔ h ≠ s.bestBlockLockHash) ∧
    (∀ (env : Env) (pfrom : NodeId) (blsig : CBlockLockSig) (hash : uint256),
      accepts env blsig hash (CheckActiveState env s) = true →
        (h ≠ hash → GetBlockLockByHash (ProcessNewBlockLock env pfrom blsig hash s).1 h = none) ∧
        (AlreadyHave s s.bestBlockLockHash = true →
          GetBlockLockByHash (ProcessNewBlockLock env pfrom blsig hash s).1
            s.bestBlockLockHash = none) ∧
        GetBlockLockByHash (ProcessNewBlockLock env pfrom blsig hash s).1 hash = some blsig) := by
  refine ⟨?_, ?_, ?_⟩
  · intro l
    unfold GetBlockLockByHash
    by_cases hh : h = s.bestBlockLockHash
    · simp [hh, eq_comm]
    · simp [hh]
  · unfold GetBlockLockByHash
    by_cases hh : h = s.bestBlockLockHash
    · simp [hh]
    · simp [hh]
  · intro env pfrom blsig hash hacc
    have hst : (ProcessNewBlockLock env pfrom blsig hash s).1.bestBlockLockHash = hash ∧
        (ProcessNewBlockLock env pfrom blsig hash s).1.bestBlockLock = blsig := by
      rw [pnbl_state_accepted env pfrom blsig hash s hacc]
      cases env.LookupBlockIndex blsig.blockHash with
      | none => exact ⟨rfl, rfl⟩
      | some p => dsimp only; split_ifs <;> exact ⟨rfl, rfl⟩
    have hne : ∀ w, w ≠ hash →
        GetBlockLockByHash (ProcessNewBlockLock env pfrom blsig hash s).1 w = none := by
      intro w hw
      unfold GetBlockLockByHash
      rw [hst.1, if_pos hw]
    refine ⟨hne h, ?_, ?_⟩
    · intro hseen
      apply hne
      intro heq
      have hnew := ((accepts_iff env blsig hash (CheckActiveState env s)).1 hacc).1
      unfold AlreadyHave at hnew hseen
      rw [checkActiveState_seen, ← heq, hseen] at hnew
      cases hnew
    · unfold GetBlockLockByHash
      rw [hst.1, hst.2]
      simp

/-- An example for `GetBlockLockByHash`: after `lock1` (hash 21) was superseded by `lockA`
(hash 9), hash 21 yields nothing and hash 9 yields `lockA`. -/
theorem getBlockLockByHash_example :
    GetBlockLockByHash handlerLocked1 21 = some lock1 ∧
    GetBlockLockByHash handlerAhead 21 = none ∧
    GetBlockLockByHash handlerAhead 9 = some lockA := by
  decide

/-! ## C19: a header that comes in late -/

/-- Claim C19: when the hash of `pindexNew` is the block hash of the best lock and its
height is the height of the best lock, `AcceptedBlockHeader` makes the best lock the best
lock with known block and `pindexNew` its index, and changes nothing else; in every other
case (another hash, or the hash with another height) the handler is unchanged.  The call
has no effect outside the handler: no notification, no call into the chain. -/
theorem C19_accepted_block_header (pindexNew : CBlockIndex) (s : CBlockLocksHandler) :
    (pindexNew.GetBlockHash = s.bestBlockLock.blockHash →
      pindexNew.nHeight = s.bestBlockLock.nHeight →
      AcceptedBlockHeader pindexNew s =
        { s with bestBlockLockWithKnownBlock := s.bestBlockLock,
                 bestBlockLockBlockIndex := some pindexNew }) ∧
    (¬ (pindexNew.GetBlockHash = s.bestBlockLock.blockHash ∧
        pindexNew.nHeight = s.bestBlockLock.nHeight) →
      AcceptedBlockHeader pindexNew s = s) ∧
    (Call.acceptedBlockHeader pindexNew).run s = some (AcceptedBlockHeader pindexNew s, []) := by
  refine ⟨?_, ?_, rfl⟩
  · intro h1 h2
    unfold AcceptedBlockHeader
    rw [if_pos h1, if_neg (not_not.2 h2.symm)]
  · intro hn
    unfold AcceptedBlockHeader
    by_cases h1 : pindexNew.GetBlockHash = s.bestBlockLock.blockHash
    · rw [if_pos h1]
      have h2 : s.bestBlockLock.nHeight ≠ pindexNew.nHeight := fun h2 => hn ⟨h1, h2.symm⟩
      rw [if_pos h2]
    · rw [if_neg h1]

/-- An example for `AcceptedBlockHeader`: the header `block1` has the hash named by
`lockMismatch` but not its height, and changes nothing; the handler that holds `lock2`
without index gets `block2` as index when the header comes in. -/
theorem acceptedBlockHeader_example :
    AcceptedBlockHeader block1 (ProcessNewBlockLock envActive 3 lockMismatch 40 initialHandler).1
      = (ProcessNewBlockLock envActive 3 lockMismatch 40 initialHandler).1 ∧
    (ProcessNewBlockLock envNoIndex 3 lock2 22 initialHandler).1.bestBlockLockBlockIndex
      = none ∧
    (AcceptedBlockHeader block2
      (ProcessNewBlockLock envNoIndex 3 lock2 22 initialHandler).1).bestBlockLockBlockIndex
        = some block2 := by
  decide

/-! ## C20: enforcement and notification -/

/-- The ways in which `EnforceBestBlockLock` returns. -/
theorem enforceBestBlockLock_cases (env : Env) (s : CBlockLocksHandler)
    (r : CBlockLocksHandler × List Effect) (h : EnforceBestBlockLock env s = some r) :
    (r = (s, []) ∧ (s.isEnforced = false ∨ s.bestBlockLockBlockIndex = none)) ∨
    (∃ cur, s.isEnforced = true ∧ s.bestBlockLockBlockIndex = some cur ∧
      ¬ tipReached env cur ∧
      r = (s, [Effect.EnforceBlock cur, Effect.ActivateBestChain])) ∨
    (∃ cur, s.isEnforced = true ∧ s.bestBlockLockBlockIndex = some cur ∧
      tipReached env cur ∧
      (r = notifyBlockLock s cur s.bestBlockLockWithKnownBlock [Effect.EnforceBlock cur] ∨
        r = notifyBlockLock s cur s.bestBlockLockWithKnownBlock
          [Effect.EnforceBlock cur, Effect.ActivateBestChain])) := by
  unfold EnforceBestBlockLock at h
  by_cases h1 : (!s.isEnforced) = true
  · rw [if_pos h1] at h
    cases h
    left
    refine ⟨rfl, Or.inl ?_⟩
    simpa using h1
  rw [if_neg h1] at h
  have he : s.isEnforced = true := by simpa using h1
  dsimp only at h
  cases hb : s.bestBlockLockBlockIndex with
  | none => rw [hb] at h; cases h; exact Or.inl ⟨rfl, Or.inr rfl⟩
  | some cur =>
    rw [hb] at h
    dsimp only at h
    cases ht : env.Tip with
    | none => rw [ht] at h; cases h
    | some tip =>
      rw [ht] at h
      dsimp only at h
      by_cases h2 : decide (tip.GetAncestor cur.nHeight ≠ some cur) = true
      · have h2' : tip.GetAncestor cur.nHeight ≠ some cur := by simpa using h2
        rw [if_pos h2] at h
        by_cases h3 : (!env.ActivateBestChain) = true
        · rw [if_pos h3] at h
          cases h
          right; left
          refine ⟨cur, he, rfl, ?_, rfl⟩
          rintro ⟨tip', ht', hd | ⟨ha, _⟩⟩
          · rw [ht] at ht'; cases ht'; exact h2' hd
          · rw [ha] at h3; simp at h3
        rw [if_neg h3] at h
        have ha : env.ActivateBestChain = true := by simpa using h3
        cases ht2 : env.TipAfterActivate with
        | none => rw [ht2] at h; cases h
        | some tip2 =>
          rw [ht2] at h
          dsimp only at h
          by_cases h4 : tip2.GetAncestor cur.nHeight ≠ some cur
          · rw [if_pos h4] at h
            cases h
            right; left
            refine ⟨cur, he, rfl, ?_, rfl⟩
            rintro ⟨tip', ht', hd | ⟨_, tip2', ht2', hd⟩⟩
            · rw [ht] at ht'; cases ht'; exact h2' hd
            · rw [ht2] at ht2'; cases ht2'; exact h4 hd
          · rw [if_neg h4] at h
            cases h
            right; right
            exact ⟨cur, he, rfl, ⟨tip, ht, Or.inr ⟨ha, tip2, ht2, not_not.1 h4⟩⟩, Or.inr rfl⟩
      · have h2' : tip.GetAncestor cur.nHeight = some cur := by simpa using h2
        rw [if_neg h2] at h
        cases h
        right; right
        exact ⟨cur, he, rfl, ⟨tip, ht, Or.inl h2'⟩, Or.inl rfl⟩

/-- When `EnforceBestBlockLock` does not return. -/
theorem enforceBestBlockLock_none_iff (env : Env) (s : CBlockLocksHandler) :
    EnforceBestBlockLock env s = none ↔
      s.isEnforced = true ∧ ∃ cur, s.bestBlockLockBlockIndex = some cur ∧
        (env.Tip = none ∨
          ∃ tip, env.Tip = some tip ∧ tip.GetAncestor cur.nHeight ≠ some cur ∧
            env.ActivateBestChain = true ∧ env.TipAfterActivate = none) := by
  unfold EnforceBestBlockLock
  cases he : s.isEnforced
  · simp
  · cases hb : s.bestBlockLockBlockIndex with
    | none => simp
    | some cur =>
      cases ht : env.Tip with
      | none => simp
      | some tip =>
        by_cases h2 : tip.GetAncestor cur.nHeight = some cur
        · simp [h2]
        · cases ha : env.ActivateBestChain
          · simp [h2]
          · cases ht2 : env.TipAfterActivate with
            | none => simp [h2]
            | some tip2 =>
              by_cases h4 : tip2.GetAncestor cur.nHeight = some cur
              · simp [h2, h4]
              · simp [h2, h4]

theorem notified_notifyBlockLock (s : CBlockLocksHandler) (cur : CBlockIndex)
    (blsig : CBlockLockSig) (pre : List Effect)
    (hpre : pre = [Effect.EnforceBlock cur] ∨
      pre = [Effect.EnforceBlock cur, Effect.ActivateBestChain]) :
    (s.lastNotifyBlockLockBlockIndex = some cur →
      notifyBlockLock s cur blsig pre = (s, pre) ∧ signalled pre = [] ∧ uiNotified pre = [] ∧
        notified pre = []) ∧
    (s.lastNotifyBlockLockBlockIndex ≠ some cur →
      (notifyBlockLock s cur blsig pre).1 = { s with lastNotifyBlockLockBlockIndex := some cur } ∧
      (notifyBlockLock s cur blsig pre).2 = pre ++ [Effect.NotifyBlockLock cur blsig,
        Effect.UiNotifyBlockLock blsig.blockHash blsig.nHeight] ∧
      signalled (notifyBlockLock s cur blsig pre).2 = [(cur, blsig)] ∧
      uiNotified (notifyBlockLock s cur blsig pre).2 = [(blsig.blockHash, blsig.nHeight)] ∧
      notified (notifyBlockLock s cur blsig pre).2 = [cur]) := by
  unfold notifyBlockLock
  constructor
  · intro hl
    rw [if_pos hl]
    rcases hpre with rfl | rfl <;> exact ⟨rfl, rfl, rfl, rfl⟩
  · intro hl
    rw [if_neg hl]
    rcases hpre with rfl | rfl <;> exact ⟨rfl, rfl, rfl, rfl, rfl⟩

theorem enforceBestBlockLock_emits (env : Env) (s : CBlockLocksHandler)
    (r : CBlockLocksHandler × List Effect) (h : EnforceBestBlockLock env s = some r) :
    (s.isEnforced = true ∧ ∃ cur, s.bestBlockLockBlockIndex = some cur ∧ tipReached env cur ∧
        s.lastNotifyBlockLockBlockIndex ≠ some cur ∧
        r.1 = { s with lastNotifyBlockLockBlockIndex := some cur } ∧
        signalled r.2 = [(cur, s.bestBlockLockWithKnownBlock)] ∧
        uiNotified r.2 = [(s.bestBlockLockWithKnownBlock.blockHash,
          s.bestBlockLockWithKnownBlock.nHeight)] ∧
        notified r.2 = [cur]) ∨
    (¬ (s.isEnforced = true ∧ ∃ cur, s.bestBlockLockBlockIndex = some cur ∧
          tipReached env cur ∧ s.lastNotifyBlockLockBlockIndex ≠ some cur) ∧
      r.1 = s ∧ signalled r.2 = [] ∧ uiNotified r.2 = [] ∧ notified r.2 = []) := by
  rcases enforceBestBlockLock_cases env s r h with ⟨hr, hc⟩ | ⟨cur, he, hb, hnt, hr⟩ |
    ⟨cur, he, hb, ht, hr⟩
  · right
    refine ⟨?_, by rw [hr], by rw [hr]; rfl, by rw [hr]; rfl, by rw [hr]; rfl⟩
    rintro ⟨he, cur, hb, _⟩
    rcases hc with hc | hc
    · rw [hc] at he; cases he
    · rw [hc] at hb; cases hb
  · right
    refine ⟨?_, by rw [hr], by rw [hr]; rfl, by rw [hr]; rfl, by rw [hr]; rfl⟩
    rintro ⟨_, cur', hb', ht', _⟩
    rw [hb] at hb'
    cases hb'
    exact hnt ht'
  · have key : ∀ pre, (pre = [Effect.EnforceBlock cur] ∨
        pre = [Effect.EnforceBlock cur, Effect.ActivateBestChain]) →
        r = notifyBlockLock s cur s.bestBlockLockWithKnownBlock pre → _ := fun pre hpre hr' =>
      notified_notifyBlockLock s cur s.bestBlockLockWithKnownBlock pre hpre
    have hgoal : ∀ pre, (pre = [Effect.EnforceBlock cur] ∨
        pre = [Effect.EnforceBlock cur, Effect.ActivateBestChain]) →
        r = notifyBlockLock s cur s.bestBlockLockWithKnownBlock pre →
        (s.isEnforced = true ∧ ∃ cur, s.bestBlockLockBlockIndex = some cur ∧
            tipReached env cur ∧ s.lastNotifyBlockLockBlockIndex ≠ some cur ∧
            r.1 = { s with lastNotifyBlockLockBlockIndex := some cur } ∧
            signalled r.2 = [(cur, s.bestBlockLockWithKnownBlock)] ∧
            uiNotified r.2 = [(s.bestBlockLockWithKnownBlock.blockHash,
              s.bestBlockLockWithKnownBlock.nHeight)] ∧
            notified r.2 = [cur]) ∨
        (¬ (s.isEnforced = true ∧ ∃ cur, s.bestBlockLockBlockIndex = some cur ∧
              tipReached env cur ∧ s.lastNotifyBlockLockBlockIndex ≠ some cur) ∧
          r.1 = s ∧ signalled r.2 = [] ∧ uiNotified r.2 = [] ∧ notified r.2 = []) := by
      intro pre hpre hr'
      obtain ⟨k1, k2⟩ := key pre hpre hr'
      by_cases hl : s.lastNotifyBlockLockBlockIndex = some cur
      · right
        obtain ⟨e1, e2, e3, e4⟩ := k1 hl
        rw [hr', e1]
        refine ⟨?_, rfl, e2, e3, e4⟩
        rintro ⟨_, cur', hb', _, hl'⟩
        rw [hb] at hb'
        cases hb'
        exact hl' hl
      · left
        obtain ⟨e1, _, e3, e4, e5⟩ := k2 hl
        rw [hr']
        exact ⟨he, cur, hb, ht, hl, e1, e3, e4, e5⟩
    rcases hr with hr | hr
    · exact hgoal _ (Or.inl rfl) hr
    · exact hgoal _ (Or.inr rfl) hr

/-- Claim C20: a call of `EnforceBestBlockLock` that returns emits notifications if and only
if the handler is enforced, the index of the best lock is set, the ancestor of the active
tip at the height of that index is the index (at once, or after `ActivateBestChain`
succeeded), and the last notified index is another one.  It then sets the last notified
index to the index of the best lock and emits exactly one signal, carrying the index and
the best lock with known block, and one notification of the user interface, carrying the
block hash and height of that lock.  When the handler is not enforced or the index is
unset the call has no effect at all, so it calls neither `EnforceBlock` nor
`ActivateBestChain`.  In every case without notification the handler is unchanged, and a
call right after one that notified notifies nothing.  The call returns unless it has to
read a tip that does not exist. -/
theorem C20_enforce_best_lock (env : Env) (s : CBlockLocksHandler) :
    (EnforceBestBlockLock env s = none ↔
      s.isEnforced = true ∧ ∃ cur, s.bestBlockLockBlockIndex = some cur ∧
        (env.Tip = none ∨
          ∃ tip, env.Tip = some tip ∧ tip.GetAncestor cur.nHeight ≠ some cur ∧
            env.ActivateBestChain = true ∧ env.TipAfterActivate = none)) ∧
    (∀ r, EnforceBestBlockLock env s = some r →
      (signalled r.2 ≠ [] ↔
        s.isEnforced = true ∧ ∃ cur, s.bestBlockLockBlockIndex = some cur ∧
          tipReached env cur ∧ s.lastNotifyBlockLockBlockIndex ≠ some cur) ∧
      (uiNotified r.2 ≠ [] ↔ signalled r.2 ≠ []) ∧
      (∀ cur, s.isEnforced = true → s.bestBlockLockBlockIndex = some cur →
        tipReached env cur → s.lastNotifyBlockLockBlockIndex ≠ some cur →
          r.1 = { s with lastNotifyBlockLockBlockIndex := some cur } ∧
          signalled r.2 = [(cur, s.bestBlockLockWithKnownBlock)] ∧
          uiNotified r.2 = [(s.bestBlockLockWithKnownBlock.blockHash,
            s.bestBlockLockWithKnownBlock.nHeight)]) ∧
      (s.isEnforced = false ∨ s.bestBlockLockBlockIndex = none → r = (s, [])) ∧
      (signalled r.2 = [] → r.1 = s) ∧
      (∀ env2 r2, signalled r.2 ≠ [] → EnforceBestBlockLock env2 r.1 = some r2 →
        signalled r2.2 = [] ∧ uiNotified r2.2 = [] ∧ r2.1 = r.1)) := by
  refine ⟨enforceBestBlockLock_none_iff env s, ?_⟩
  intro r h
  have hem := enforceBestBlockLock_emits env s r h
  refine ⟨?_, ?_, ?_, ?_, ?_, ?_⟩
  · rcases hem with ⟨he, cur, hb, ht, hl, _, e2, _⟩ | ⟨hn, _, e2, _⟩
    · rw [e2]
      exact ⟨fun _ => ⟨he, cur, hb, ht, hl⟩, fun _ => by simp⟩
    · rw [e2]
      exact ⟨fun hc => absurd rfl hc, fun hc => absurd hc hn⟩
  · rcases hem with ⟨_, cur, _, _, _, _, e2, e3, _⟩ | ⟨_, _, e2, e3, _⟩
    · rw [e2, e3]; simp
    · rw [e2, e3]; simp
  · intro cur he hb ht hl
    rcases hem with ⟨_, cur', hb', _, _, e1, e2, e3, _⟩ | ⟨hn, _⟩
    · rw [hb] at hb'
      cases hb'
      exact ⟨e1, e2, e3⟩
    · exact absurd ⟨he, cur, hb, ht, hl⟩ hn
  · intro hc
    rcases enforceBestBlockLock_cases env s r h with ⟨hr, _⟩ | ⟨cur, he, hb, _⟩ |
      ⟨cur, he, hb, _⟩
    · exact hr
    · rcases hc with hc | hc
      · rw [hc] at he; cases he
      · rw [hc] at hb; cases hb
    · rcases hc with hc | hc
      · rw [hc] at he; cases he
      · rw [hc] at hb; cases hb
  · intro hs
    rcases hem with ⟨_, cur, _, _, _, _, e2, _⟩ | ⟨_, e1, _⟩
    · rw [e2] at hs; cases hs
    · exact e1
  · intro env2 r2 hs h2
    rcases hem with ⟨_, cur, hb, _, _, e1, _⟩ | ⟨_, _, e2, _⟩
    · rcases enforceBestBlockLock_emits env2 r.1 r2 h2 with
        ⟨_, cur', hb', _, hl', _⟩ | ⟨_, f1, f2, f3, _⟩
      · rw [e1] at hb' hl'
        dsimp only at hb' hl'
        rw [hb] at hb'
        cases hb'
        exact absurd rfl hl'
      · exact ⟨f2, f3, f1⟩
    · exact absurd e2 hs

/-- Claim C20, witness: on the active chain the handler locked on `block1` notifies once:
the signal carries `block1` and `lock1`, and a second call notifies nothing. -/
theorem C20_enforce_best_lock_witness :
    (∃ r, EnforceBestBlockLock envActive handlerLocked1 = some r ∧
      signalled r.2 = [(block1, lock1)] ∧ uiNotified r.2 = [(11, 1)] ∧
      ∃ r2, EnforceBestBlockLock envActive r.1 = some r2 ∧ signalled r2.2 = []) ∧
    (EnforceBestBlockLock envActive handlerLocked1 = none ↔
      handlerLocked1.isEnforced = true ∧ ∃ cur,
        handlerLocked1.bestBlockLockBlockIndex = some cur ∧
        (envActive.Tip = none ∨
          ∃ tip, envActive.Tip = some tip ∧ tip.GetAncestor cur.nHeight ≠ some cur ∧
            envActive.ActivateBestChain = true ∧ envActive.TipAfterActivate = none)) :=
  ⟨⟨_, rfl, by decide, by decide, _, rfl, by decide⟩,
   (C20_enforce_best_lock envActive handlerLocked1).1⟩

/-! ## Calls that write only the maps -/

theorem coreView_eq_iff (a b : CBlockLocksHandler) :
    coreView a = coreView b ↔
      a.tryLockBlockTipScheduled = b.tryLockBlockTipScheduled ∧ a.isEnabled = b.isEnabled ∧
      a.isEnforced = b.isEnforced ∧ a.bestBlockLockHash = b.bestBlockLockHash ∧
      a.bestBlockLock = b.bestBlockLock ∧
      a.bestBlockLockWithKnownBlock = b.bestBlockLockWithKnownBlock ∧
      a.bestBlockLockBlockIndex = b.bestBlockLockBlockIndex ∧
      a.lastNotifyBlockLockBlockIndex = b.lastNotifyBlockLockBlockIndex ∧
      a.lastSignedHeight = b.lastSignedHeight ∧
      a.lastSignedRequestId = b.lastSignedRequestId ∧
      a.lastSignedMsgHash = b.lastSignedMsgHash := by
  unfold coreView
  simp only [Prod.mk.injEq]

theorem cleanup_coreView (env : Env) (s s1 : CBlockLocksHandler)
    (h : Cleanup env s = some s1) : coreView s1 = coreView s := by
  unfold Cleanup at h
  by_cases h1 : (!env.IsBlockchainSynced) = true
  · rw [if_pos h1] at h; cases h; rfl
  rw [if_neg h1] at h
  by_cases h2 : env.GetTimeMillis - s.lastCleanupTime < CLEANUP_INTERVAL
  · rw [if_pos h2] at h; cases h; rfl
  rw [if_neg h2] at h
  dsimp only at h
  cases hc : cleanupBlockTxs env s s.blockTxs s.txFirstSeenTime with
  | none => rw [hc] at h; cases h
  | some r =>
    rw [hc] at h
    dsimp only at h
    cases ht : cleanupTxFirstSeen env r.2 with
    | none => rw [ht] at h; cases h
    | some t =>
      rw [ht] at h
      cases h
      rfl

theorem getBlockTxs_coreView (env : Env) (blockHash : uint256) (s : CBlockLocksHandler) :
    coreView (GetBlockTxs env blockHash s).1 = coreView s := by
  unfold GetBlockTxs
  cases s.blockTxs.lookup blockHash with
  | some ret => rfl
  | none =>
    dsimp only
    cases env.ReadBlockFromDisk (env.LookupBlockIndex blockHash) with
    | none => rfl
    | some block => rfl

theorem walkChain_coreView (env : Env) (pindex : CBlockIndex) (w : CBlockIndex) :
    ∀ s : CBlockLocksHandler, coreView (walkChain env pindex w s).1 = coreView s := by
  induction w with
  | root ht x =>
    intro s
    unfold walkChain
    by_cases h1 : pindex.nHeight - ht > 5
    · rw [if_pos h1]
    rw [if_neg h1]
    by_cases h2 : HasBlockLock s ht x = true
    · rw [if_pos h2]
    rw [if_neg h2]
    have hg := getBlockTxs_coreView env x s
    rcases hgt : GetBlockTxs env x s with ⟨s1, _ | txids⟩
    · rw [hgt] at hg; exact hg
    · rw [hgt] at hg
      dsimp only
      split_ifs <;> exact hg
  | node ht x p ih =>
    intro s
    unfold walkChain
    by_cases h1 : pindex.nHeight - ht > 5
    · rw [if_pos h1]
    rw [if_neg h1]
    by_cases h2 : HasBlockLock s ht x = true
    · rw [if_pos h2]
    rw [if_neg h2]
    have hg := getBlockTxs_coreView env x s
    rcases hgt : GetBlockTxs env x s with ⟨s1, _ | txids⟩
    · rw [hgt] at hg
      dsimp only
      rw [ih s1]; exact hg
    · rw [hgt] at hg
      dsimp only
      split_ifs
      · exact hg
      · rw [ih s1]; exact hg

/-- The ways in which `TrySignChainTip` returns: without effect and with the core fields
as they were, or having signed the tip. -/
theorem trySignChainTip_cases (env : Env) (s : CBlockLocksHandler)
    (r : CBlockLocksHandler × List Effect) (h : TrySignChainTip env s = some r) :
    (r.2 = [] ∧ coreView r.1 = coreView s) ∨
    (∃ tip, env.Tip = some tip ∧
      r.2 = [Effect.AsyncSignIfMember env.llmqTypeBlockLocks
        (env.SerializeHashRequestId tip.nHeight) tip.GetBlockHash] ∧
      coreView r.1 = coreView { s with lastSignedHeight := tip.nHeight,
                                       lastSignedRequestId :=
                                         env.SerializeHashRequestId tip.nHeight,
                                       lastSignedMsgHash := tip.GetBlockHash } ∧
      env.fMasternodeMode = true ∧ env.IsBlockchainSynced = true ∧ s.isEnabled = true ∧
      tip.pprev ≠ none ∧ tip.nHeight ≠ s.lastSignedHeight ∧
      s.bestBlockLock.nHeight < tip.nHeight ∧
      HasConflictingBlockLock s tip.nHeight tip.GetBlockHash = some false) := by
  unfold TrySignChainTip at h
  cases hc : Cleanup env s with
  | none => rw [hc] at h; cases h
  | some s1 =>
    have hs1 := cleanup_coreView env s s1 hc
    have hf := (coreView_eq_iff s1 s).1 hs1
    rw [hc] at h
    dsimp only at h
    by_cases h1 : (!env.fMasternodeMode) = true
    · rw [if_pos h1] at h; cases h; exact Or.inl ⟨rfl, hs1⟩
    rw [if_neg h1] at h
    by_cases h2 : (!env.IsBlockchainSynced) = true
    · rw [if_pos h2] at h; cases h; exact Or.inl ⟨rfl, hs1⟩
    rw [if_neg h2] at h
    by_cases h3 : (!s1.isEnabled) = true
    · rw [if_pos h3] at h; cases h; exact Or.inl ⟨rfl, hs1⟩
    rw [if_neg h3] at h
    cases ht : env.Tip with
    | none => rw [ht] at h; cases h
    | some pindex =>
      rw [ht] at h
      dsimp only at h
      by_cases h4 : pindex.pprev.isNone = true
      · rw [if_pos h4] at h; cases h; exact Or.inl ⟨rfl, hs1⟩
      rw [if_neg h4] at h
      by_cases h5 : pindex.nHeight = s1.lastSignedHeight
      · rw [if_pos h5] at h; cases h; exact Or.inl ⟨rfl, hs1⟩
      rw [if_neg h5] at h
      by_cases h6 : s1.bestBlockLock.nHeight ≥ pindex.nHeight
      · rw [if_pos h6] at h; cases h; exact Or.inl ⟨rfl, hs1⟩
      rw [if_neg h6] at h
      cases hcf : InternalHasConflictingBlockLock s1 pindex.nHeight pindex.GetBlockHash with
      | none => rw [hcf] at h; cases h
      | some c =>
        rw [hcf] at h
        cases c with
        | true => dsimp only at h; cases h; exact Or.inl ⟨rfl, hs1⟩
        | false =>
          dsimp only at h
          have hw : coreView (if (env.IsInstantSendEnabled &&
                env.RejectConflictingBlocks) = true
              then walkChain env pindex pindex s1 else (s1, true)).1 = coreView s1 := by
            split_ifs
            · exact walkChain_coreView env pindex pindex s1
            · rfl
          generalize (if (env.IsInstantSendEnabled && env.RejectConflictingBlocks) = true
              then walkChain env pindex pindex s1 else (s1, true)) = w at h hw
          by_cases h7 : (!w.2) = true
          · rw [if_pos h7] at h; cases h; exact Or.inl ⟨rfl, hw.trans hs1⟩
          rw [if_neg h7] at h
          by_cases h8 : w.1.bestBlockLock.nHeight ≥ pindex.nHeight
          · rw [if_pos h8] at h; cases h; exact Or.inl ⟨rfl, hw.trans hs1⟩
          rw [if_neg h8] at h
          cases h
          right
          have hws := (coreView_eq_iff w.1 s).1 (hw.trans hs1)
          refine ⟨pindex, rfl, rfl, ?_, by simpa using h1, by simpa using h2, ?_, ?_, ?_, ?_, ?_⟩
          · rw [coreView_eq_iff]
            obtain ⟨a1, a2, a3, a4, a5, a6, a7, a8, _, _, _⟩ := hws
            exact ⟨a1, a2, a3, a4, a5, a6, a7, a8, rfl, rfl, rfl⟩
          · rw [← hf.2.1]; simpa using h3
          · intro hp; rw [hp] at h4; simp at h4
          · rw [← hf.2.2.2.2.2.2.2.2.1]; exact h5
          · rw [← hf.2.2.2.2.1]; omega
          · unfold HasConflictingBlockLock InternalHasConflictingBlockLock
            unfold InternalHasConflictingBlockLock at hcf
            rw [← hf.2.2.1, ← hf.2.2.2.2.2.2.1]
            exact hcf

/-! ## C17: the request id on signing and on verification -/

theorem handleNewRecoveredSig_eq (env : Env) (recoveredSig : CRecoveredSig)
    (s : CBlockLocksHandler) :
    (s.isEnabled = true ∧ recoveredSig.id = s.lastSignedRequestId ∧
        recoveredSig.msgHash = s.lastSignedMsgHash ∧
        s.bestBlockLock.nHeight < s.lastSignedHeight →
      HandleNewRecoveredSig env recoveredSig s =
        ProcessNewBlockLock env (-1)
          { nHeight := s.lastSignedHeight, blockHash := s.lastSignedMsgHash,
            sig := recoveredSig.sig }
          (env.SerializeHash { nHeight := s.lastSignedHeight,
                               blockHash := s.lastSignedMsgHash, sig := recoveredSig.sig }) s) ∧
    (¬ (s.isEnabled = true ∧ recoveredSig.id = s.lastSignedRequestId ∧
        recoveredSig.msgHash = s.lastSignedMsgHash ∧
        s.bestBlockLock.nHeight < s.lastSignedHeight) →
      HandleNewRecoveredSig env recoveredSig s = (s, [])) := by
  unfold HandleNewRecoveredSig
  constructor
  · rintro ⟨h1, h2, h3, h4⟩
    have c1 : ¬ (!s.isEnabled) = true := by simp [h1]
    have c2 : ¬ (recoveredSig.id ≠ s.lastSignedRequestId ∨
        recoveredSig.msgHash ≠ s.lastSignedMsgHash) := by
      rintro (hc | hc)
      · exact hc h2
      · exact hc h3
    have c3 : ¬ s.bestBlockLock.nHeight ≥ s.lastSignedHeight := by omega
    rw [if_neg c1, if_neg c2, if_neg c3]
  · intro hn
    by_cases c1 : (!s.isEnabled) = true
    · rw [if_pos c1]
    rw [if_neg c1]
    by_cases c2 : recoveredSig.id ≠ s.lastSignedRequestId ∨
        recoveredSig.msgHash ≠ s.lastSignedMsgHash
    · rw [if_pos c2]
    rw [if_neg c2]
    by_cases c3 : s.bestBlockLock.nHeight ≥ s.lastSignedHeight
    · rw [if_pos c3]
    exfalso
    apply hn
    refine ⟨by simpa using c1, ?_, ?_, by omega⟩
    · by_contra hc; exact c2 (Or.inl hc)
    · by_contra hc; exact c2 (Or.inr hc)

/-! ## C16: what `Cleanup` removes from `blockTxs` -/

theorem lookup_filter_key {α : Type} (f : uint256 → Bool) (k : uint256) :
    ∀ m : List (uint256 × α),
      (m.filter (fun e => f e.1)).lookup k = if f k = true then m.lookup k else none := by
  intro m
  induction m with
  | nil => simp
  | cons e rest ih =>
    obtain ⟨k0, v0⟩ := e
    by_cases hk : k = k0
    · subst hk
      cases hf : f k
      · simp only [List.filter_cons, hf, Bool.false_eq_true, if_false]
        rw [ih, hf]
        simp
      · simp [List.filter_cons, hf, List.lookup_cons]
    · have hbeq : (k == k0) = false := by simpa using hk
      cases hf0 : f k0
      · simp only [List.filter_cons, hf0, Bool.false_eq_true, if_false, List.lookup_cons, hbeq]
        exact ih
      · simp only [List.filter_cons, hf0, if_true, List.lookup_cons, hbeq]
        exact ih

theorem foldl_erase_subset (txids : List uint256) :
    ∀ (seen : List (uint256 × Int)) (e : uint256 × Int),
      e ∈ txids.foldl (fun m txid => erase m txid) seen → e ∈ seen := by
  induction txids with
  | nil => intro seen e he; exact he
  | cons t rest ih =>
    intro seen e he
    simp only [List.foldl_cons] at he
    have := ih _ e he
    unfold erase at this
    exact (List.mem_filter.1 this).1

/-- The second loop of `Cleanup`, when it ends: the entries kept are those of blocks the
index holds that are neither locked nor conflicting; every entry met has a block in the
index for which the lock query or the conflict query answered; the first-seen map only
lost entries. -/
theorem cleanupBlockTxs_spec (env : Env) (s : CBlockLocksHandler) :
    ∀ (m : List (uint256 × List uint256)) (seen : List (uint256 × Int))
      (r : List (uint256 × List uint256) × List (uint256 × Int)),
      cleanupBlockTxs env s m seen = some r →
        r.1 = m.filter (fun e => keepsBlockTxs env s e.1) ∧
        (∀ e ∈ m, ∃ p, env.LookupBlockIndex e.1 = some p ∧
          (InternalHasBlockLock s p.nHeight p.GetBlockHash = true ∨
            InternalHasConflictingBlockLock s p.nHeight p.GetBlockHash = some true ∨
            (InternalHasBlockLock s p.nHeight p.GetBlockHash = false ∧
              InternalHasConflictingBlockLock s p.nHeight p.GetBlockHash = some false))) ∧
        (∀ e ∈ r.2, e ∈ seen) := by
  intro m
  induction m with
  | nil =>
    intro seen r h
    simp only [cleanupBlockTxs, Option.some.injEq] at h
    rw [← h]
    exact ⟨rfl, fun e he => absurd he (List.not_mem_nil e), fun e he => he⟩
  | cons e rest ih =>
    intro seen r h
    obtain ⟨blockHash, txids⟩ := e
    unfold cleanupBlockTxs at h
    cases hl : env.LookupBlockIndex blockHash with
    | none => rw [hl] at h; cases h
    | some pindex =>
      rw [hl] at h
      dsimp only at h
      cases hlock : InternalHasBlockLock s pindex.nHeight pindex.GetBlockHash
      · rw [hlock] at h
        simp only [Bool.false_eq_true, if_false] at h
        cases hcf : InternalHasConflictingBlockLock s pindex.nHeight pindex.GetBlockHash with
        | none => rw [hcf] at h; cases h
        | some c =>
          rw [hcf] at h
          cases c with
          | true =>
            dsimp only at h
            obtain ⟨h1, h2, h3⟩ := ih seen r h
            refine ⟨?_, ?_, h3⟩
            · rw [h1, List.filter_cons]
              simp [keepsBlockTxs, hl, hlock, hcf]
            · intro e he
              rcases List.mem_cons.1 he with rfl | he
              · exact ⟨pindex, hl, Or.inr (Or.inl hcf)⟩
              · exact h2 e he
          | false =>
            dsimp only at h
            cases hrest : cleanupBlockTxs env s rest seen with
            | none => rw [hrest] at h; cases h
            | some r0 =>
              rw [hrest] at h
              dsimp only at h
              cases h
              obtain ⟨h1, h2, h3⟩ := ih seen r0 hrest
              refine ⟨?_, ?_, h3⟩
              · dsimp only
                rw [h1, List.filter_cons]
                simp [keepsBlockTxs, hl, hlock, hcf]
              · intro e he
                rcases List.mem_cons.1 he with rfl | he
                · exact ⟨pindex, hl, Or.inr (Or.inr ⟨hlock, hcf⟩)⟩
                · exact h2 e he
      · rw [hlock] at h
        simp only [if_true] at h
        obtain ⟨h1, h2, h3⟩ := ih _ r h
        refine ⟨?_, ?_, ?_⟩
        · rw [h1, List.filter_cons]
          simp [keepsBlockTxs, hl, hlock]
        · intro e he
          rcases List.mem_cons.1 he with rfl | he
          · exact ⟨pindex, hl, Or.inl hlock⟩
          · exact h2 e he
        · intro e he
          exact foldl_erase_subset txids seen e (h3 e he)

/-- The second loop of `Cleanup` ends when every block of `blockTxs` is in the index and,
unless locked, has an answer to the conflict query. -/
theorem cleanupBlockTxs_isSome (env : Env) (s : CBlockLocksHandler) :
    ∀ (m : List (uint256 × List uint256)),
      (∀ e ∈ m, ∃ p, env.LookupBlockIndex e.1 = some p ∧
        (InternalHasBlockLock s p.nHeight p.GetBlockHash = true ∨
          InternalHasConflictingBlockLock s p.nHeight p.GetBlockHash ≠ none)) →
      ∀ seen : List (uint256 × Int), ∃ r, cleanupBlockTxs env s m seen = some r := by
  intro m
  induction m with
  | nil => intro _ seen; exact ⟨_, rfl⟩
  | cons e rest ih =>
    intro hm seen
    obtain ⟨blockHash, txids⟩ := e
    obtain ⟨p, hl, hp⟩ := hm (blockHash, txids) (List.mem_cons_self _ _)
    have hrest := ih (fun e he => hm e (List.mem_cons_of_mem _ he))
    unfold cleanupBlockTxs
    dsimp only at hl
    rw [hl]
    dsimp only
    cases hlock : InternalHasBlockLock s p.nHeight p.GetBlockHash
    · simp only [Bool.false_eq_true, if_false]
      rcases hp with hp | hp
      · rw [hlock] at hp; cases hp
      · cases hcf : InternalHasConflictingBlockLock s p.nHeight p.GetBlockHash with
        | none => exact absurd hcf hp
        | some c =>
          cases c with
          | true => exact hrest seen
          | false =>
            obtain ⟨r0, hr0⟩ := hrest seen
            dsimp only
            rw [hr0]
            exact ⟨_, rfl⟩
    · simp only [if_true]
      exact hrest _

/-- The third loop of `Cleanup` ends when, for every transaction it finds in a block, the
block is in the index and the chain has a tip. -/
theorem cleanupTxFirstSeen_isSome (env : Env) :
    ∀ (seen : List (uint256 × Int)),
      (∀ e ∈ seen, ∀ hashBlock, env.GetTransaction e.1 = some hashBlock → hashBlock ≠ 0 →
        (env.LookupBlockIndex hashBlock).isSome = true ∧ env.Tip.isSome = true) →
      ∃ r, cleanupTxFirstSeen env seen = some r := by
  intro seen
  induction seen with
  | nil => intro _; exact ⟨_, rfl⟩
  | cons e rest ih =>
    intro hm
    obtain ⟨txid, t⟩ := e
    obtain ⟨r0, hr0⟩ := ih (fun e he => hm e (List.mem_cons_of_mem _ he))
    unfold cleanupTxFirstSeen
    cases hg : env.GetTransaction txid with
    | none => exact ⟨r0, hr0⟩
    | some hashBlock =>
      dsimp only
      by_cases hz : hashBlock ≠ 0
      · rw [if_pos hz]
        obtain ⟨h1, h2⟩ := hm (txid, t) (List.mem_cons_self _ _) hashBlock hg hz
        cases hl : env.LookupBlockIndex hashBlock with
        | none => rw [hl] at h1; cases h1
        | some pindex =>
          cases ht : env.Tip with
          | none => rw [ht] at h2; cases h2
          | some tip =>
            dsimp only
            split_ifs
            · exact ⟨r0, hr0⟩
            · rw [hr0]; exact ⟨_, rfl⟩
      · rw [if_neg hz, hr0]
        exact ⟨_, rfl⟩

theorem cleanup_blockTxs (env : Env) (s s1 : CBlockLocksHandler)
    (h : Cleanup env s = some s1) :
    s1.blockTxs = s.blockTxs ∨
    (s1.blockTxs = s.blockTxs.filter (fun e => keepsBlockTxs env s e.1) ∧
      ∀ e ∈ s.blockTxs, ∃ p, env.LookupBlockIndex e.1 = some p ∧
        (InternalHasBlockLock s p.nHeight p.GetBlockHash = true ∨
          InternalHasConflictingBlockLock s p.nHeight p.GetBlockHash = some true ∨
          (InternalHasBlockLock s p.nHeight p.GetBlockHash = false ∧
            InternalHasConflictingBlockLock s p.nHeight p.GetBlockHash = some false))) := by
  unfold Cleanup at h
  by_cases h1 : (!env.IsBlockchainSynced) = true
  · rw [if_pos h1] at h; cases h; exact Or.inl rfl
  rw [if_neg h1] at h
  by_cases h2 : env.GetTimeMillis - s.lastCleanupTime < CLEANUP_INTERVAL
  · rw [if_pos h2] at h; cases h; exact Or.inl rfl
  rw [if_neg h2] at h
  dsimp only at h
  cases hc : cleanupBlockTxs env s s.blockTxs s.txFirstSeenTime with
  | none => rw [hc] at h; cases h
  | some r =>
    rw [hc] at h
    dsimp only at h
    cases ht : cleanupTxFirstSeen env r.2 with
    | none => rw [ht] at h; cases h
    | some t =>
      rw [ht] at h
      cases h
      obtain ⟨e1, e2, _⟩ := cleanupBlockTxs_spec env s _ _ r hc
      exact Or.inr ⟨e1, e2⟩

theorem cleanup_isSome (env : Env) (s : CBlockLocksHandler)
    (hm : ∀ e ∈ s.blockTxs, ∃ p, env.LookupBlockIndex e.1 = some p ∧
      (InternalHasBlockLock s p.nHeight p.GetBlockHash = true ∨
        InternalHasConflictingBlockLock s p.nHeight p.GetBlockHash ≠ none))
    (ht : ∀ e ∈ s.txFirstSeenTime, ∀ hashBlock, env.GetTransaction e.1 = some hashBlock →
      hashBlock ≠ 0 →
        (env.LookupBlockIndex hashBlock).isSome = true ∧ env.Tip.isSome = true) :
    ∃ s1, Cleanup env s = some s1 := by
  unfold Cleanup
  by_cases h1 : (!env.IsBlockchainSynced) = true
  · rw [if_pos h1]; exact ⟨_, rfl⟩
  rw [if_neg h1]
  by_cases h2 : env.GetTimeMillis - s.lastCleanupTime < CLEANUP_INTERVAL
  · rw [if_pos h2]; exact ⟨_, rfl⟩
  rw [if_neg h2]
  dsimp only
  obtain ⟨r, hr⟩ := cleanupBlockTxs_isSome env s s.blockTxs hm s.txFirstSeenTime
  rw [hr]
  dsimp only
  obtain ⟨_, _, hsub⟩ := cleanupBlockTxs_spec env s _ _ r hr
  obtain ⟨t, htt⟩ := cleanupTxFirstSeen_isSome env r.2
    (fun e he => ht e (hsub e he))
  rw [htt]
  exact ⟨_, rfl⟩

/-- Claim C16: when `Cleanup` returns, the lock fields are as before, so both queries answer
as before; an entry of `blockTxs` that is gone has a block that is locked or conflicting
(at the height and hash of its index entry); an entry whose block is neither locked nor
conflicting is still there with the same transaction set, and is still what a lookup of
its block hash finds; nothing is added.  `Cleanup` returns if every block of `blockTxs` is
in the index at a height of at least 0, the index of the best lock is on a well-formed
chain, and for every first-seen transaction found in a block that block is in the index
and the chain has a tip. -/
theorem C16_cleanup_keeps_unlocked_blocks (env : Env) (s : CBlockLocksHandler) :
    (∀ s1, Cleanup env s = some s1 →
      coreView s1 = coreView s ∧
      (∀ e ∈ s.blockTxs, e ∉ s1.blockTxs →
        ∃ p, env.LookupBlockIndex e.1 = some p ∧
          (HasBlockLock s p.nHeight p.GetBlockHash = true ∨
            HasConflictingBlockLock s p.nHeight p.GetBlockHash = some true)) ∧
      (∀ e ∈ s.blockTxs, ∀ p, env.LookupBlockIndex e.1 = some p →
        HasBlockLock s p.nHeight p.GetBlockHash = false →
        HasConflictingBlockLock s p.nHeight p.GetBlockHash = some false →
          e ∈ s1.blockTxs) ∧
      (∀ (k : uint256) (txids : List uint256) (p : CBlockIndex),
        s.blockTxs.lookup k = some txids → env.LookupBlockIndex k = some p →
        HasBlockLock s p.nHeight p.GetBlockHash = false →
        HasConflictingBlockLock s p.nHeight p.GetBlockHash = some false →
          s1.blockTxs.lookup k = some txids) ∧
      (∀ e ∈ s1.blockTxs, e ∈ s.blockTxs)) ∧
    ((∀ e ∈ s.blockTxs, ∃ p, env.LookupBlockIndex e.1 = some p ∧ 0 ≤ p.nHeight) →
      (∀ b, s.bestBlockLockBlockIndex = some b → b.WellFormed) →
      (∀ e ∈ s.txFirstSeenTime, ∀ hashBlock, env.GetTransaction e.1 = some hashBlock →
        hashBlock ≠ 0 →
          (env.LookupBlockIndex hashBlock).isSome = true ∧ env.Tip.isSome = true) →
      ∃ s1, Cleanup env s = some s1) := by
  constructor
  · intro s1 h
    refine ⟨cleanup_coreView env s s1 h, ?_⟩
    have hkeep : ∀ (k : uint256) (p : CBlockIndex), env.LookupBlockIndex k = some p →
        HasBlockLock s p.nHeight p.GetBlockHash = false →
        HasConflictingBlockLock s p.nHeight p.GetBlockHash = some false →
        keepsBlockTxs env s k = true := by
      intro k p hl h1 h2
      unfold HasBlockLock at h1
      unfold HasConflictingBlockLock at h2
      simp [keepsBlockTxs, hl, h1, h2]
    rcases cleanup_blockTxs env s s1 h with heq | ⟨heq, hall⟩
    · rw [heq]
      exact ⟨fun e he hne => absurd he hne, fun e he _ _ _ _ => he,
        fun k txids p hk _ _ _ => hk, fun e he => he⟩
    · rw [heq]
      refine ⟨?_, ?_, ?_, ?_⟩
      · intro e he hne
        obtain ⟨p, hl, hp⟩ := hall e he
        refine ⟨p, hl, ?_⟩
        rcases hp with hp | hp | ⟨hp1, hp2⟩
        · exact Or.inl hp
        · exact Or.inr hp
        · exfalso
          apply hne
          rw [List.mem_filter]
          exact ⟨he, hkeep e.1 p hl hp1 hp2⟩
      · intro e he p hl h1 h2
        rw [List.mem_filter]
        exact ⟨he, hkeep e.1 p hl h1 h2⟩
      · intro k txids p hk hl h1 h2
        rw [lookup_filter_key (fun k => keepsBlockTxs env s k) k, if_pos (hkeep k p hl h1 h2)]
        exact hk
      · intro e he
        exact (List.mem_filter.1 he).1
  · intro hm hw ht
    apply cleanup_isSome env s _ ht
    intro e he
    obtain ⟨p, hl, hp0⟩ := hm e he
    refine ⟨p, hl, Or.inr ?_⟩
    intro hnone
    obtain ⟨_, best, hb, hlt, hga⟩ :=
      (hasConflictingBlockLock_none_iff s p.nHeight p.GetBlockHash).1 hnone
    obtain ⟨a, ha⟩ := getAncestor_exists best (hw best hb) p.nHeight hp0 (le_of_lt hlt)
    rw [hga] at ha
    cases ha

/-- An example for `Cleanup`: the handler locked on `block1` has seen `block1` (locked),
`block1b` (conflicting) and `block2` (neither); afterwards only the entry of `block2` is
left, and the first-seen time of the transaction of the locked block is gone. -/
theorem cleanup_example :
    (Cleanup envCleanup handlerWithBlocks).map (fun s => (s.blockTxs, s.txFirstSeenTime))
      = some ([(12, [102])], [(101, 5), (102, 5)]) ∧
    HasBlockLock handlerWithBlocks 1 11 = true ∧
    HasConflictingBlockLock handlerWithBlocks 1 13 = some true ∧
    HasBlockLock handlerWithBlocks 2 12 = false ∧
    HasConflictingBlockLock handlerWithBlocks 2 12 = some false := by
  decide

/-! ## C15: serialisation round trip -/

theorem leBytes_length (width : Nat) : ∀ v, (leBytes width v).length = width := by
  induction width with
  | zero => intro v; rfl
  | succ n ih => intro v; simp [leBytes, ih]

theorem leBytes_lt (width : Nat) : ∀ v, ∀ b ∈ leBytes width v, b < 256 := by
  induction width with
  | zero => intro v b hb; simp [leBytes] at hb
  | succ n ih =>
    intro v b hb
    simp only [leBytes, List.mem_cons] at hb
    rcases hb with rfl | hb
    · exact Nat.mod_lt _ (by decide)
    · exact ih _ b hb

theorem leValue_leBytes (width : Nat) : ∀ v, v < 256 ^ width → leValue (leBytes width v) = v := by
  induction width with
  | zero =>
    intro v hv
    simp only [pow_zero, Nat.lt_one_iff] at hv
    simp [leBytes, leValue, hv]
  | succ n ih =>
    intro v hv
    have hdiv : v / 256 < 256 ^ n := by
      rw [Nat.div_lt_iff_lt_mul (by decide)]
      rw [pow_succ] at hv
      exact hv
    simp only [leBytes, leValue, ih _ hdiv]
    omega

theorem decInt32_encInt32 (h : Int) (h1 : -2147483648 ≤ h) (h2 : h < 2147483648) :
    decInt32 (encInt32 h) = h := by
  unfold decInt32 encInt32
  have hlt : (h % 4294967296).toNat < 256 ^ 4 := by
    have : (256 : Nat) ^ 4 = 4294967296 := by norm_num
    rw [this]
    omega
  rw [leValue_leBytes 4 _ hlt]
  split_ifs with hc <;> omega

theorem readBytes_append (a rest : List Nat) :
    readBytes a.length (a ++ rest) = some (a, rest) := by
  unfold readBytes
  simp

theorem deserialize_serialize (sigSize : Nat) (obj : CBlockLockSig) (rest : List Nat)
    (hr : obj.InRange sigSize) :
    deserialize sigSize (serialize sigSize obj ++ rest) = some (obj, rest) := by
  obtain ⟨h1, h2, h3, h4⟩ := hr
  unfold deserialize serialize
  have e1 : readBytes 4 (encInt32 obj.nHeight ++ leBytes 32 obj.blockHash ++
      leBytes sigSize obj.sig ++ rest) =
      some (encInt32 obj.nHeight, leBytes 32 obj.blockHash ++ leBytes sigSize obj.sig ++ rest) := by
    have := readBytes_append (encInt32 obj.nHeight)
      (leBytes 32 obj.blockHash ++ leBytes sigSize obj.sig ++ rest)
    rw [show (encInt32 obj.nHeight).length = 4 from leBytes_length 4 _] at this
    simpa [List.append_assoc] using this
  have e2 : readBytes 32 (leBytes 32 obj.blockHash ++ leBytes sigSize obj.sig ++ rest) =
      some (leBytes 32 obj.blockHash, leBytes sigSize obj.sig ++ rest) := by
    have := readBytes_append (leBytes 32 obj.blockHash) (leBytes sigSize obj.sig ++ rest)
    rw [leBytes_length] at this
    simpa [List.append_assoc] using this
  have e3 : readBytes sigSize (leBytes sigSize obj.sig ++ rest) =
      some (leBytes sigSize obj.sig, rest) := by
    have := readBytes_append (leBytes sigSize obj.sig) rest
    rw [leBytes_length] at this
    exact this
  rw [e1]
  dsimp only
  rw [e2]
  dsimp only
  rw [e3]
  dsimp only
  rw [decInt32_encInt32 _ h1 h2, leValue_leBytes 32 _ h3, leValue_leBytes sigSize _ h4]

/-- Claim C15: `serialize` writes the height as four little-endian bytes (of its two's
complement), then the 32 bytes of the block hash, then the signature in its fixed width,
in that order; for every lock whose members are in the range of their types, reading
back what was written gives the lock and leaves the rest of the stream, and the wire
hash of the lock read back is the wire hash of the lock. -/
theorem C15_serialize_round_trip (sigSize : Nat) (H : List Nat → uint256)
    (obj : CBlockLockSig) (rest : List Nat) (hr : obj.InRange sigSize) :
    serialize sigSize obj
      = encInt32 obj.nHeight ++ leBytes 32 obj.blockHash ++ leBytes sigSize obj.sig ∧
    (encInt32 obj.nHeight).length = 4 ∧
    (leValue (encInt32 obj.nHeight) : Int) = obj.nHeight % 4294967296 ∧
    (leBytes 32 obj.blockHash).length = 32 ∧
    (leBytes sigSize obj.sig).length = sigSize ∧
    (serialize sigSize obj).length = 4 + 32 + sigSize ∧
    (∀ b ∈ serialize sigSize obj, b < 256) ∧
    deserialize sigSize (serialize sigSize obj ++ rest) = some (obj, rest) ∧
    deserialize sigSize (serialize sigSize obj) = some (obj, []) ∧
    (∀ r, deserialize sigSize (serialize sigSize obj) = some r →
      wireHash H sigSize r.1 = wireHash H sigSize obj) := by
  have hrt := deserialize_serialize sigSize obj rest hr
  have hrt0 := deserialize_serialize sigSize obj [] hr
  rw [List.append_nil] at hrt0
  refine ⟨rfl, leBytes_length 4 _, ?_, leBytes_length 32 _, leBytes_length sigSize _, ?_, ?_,
    hrt, hrt0, ?_⟩
  · unfold encInt32
    have hlt : (obj.nHeight % 4294967296).toNat < 256 ^ 4 := by
      have : (256 : Nat) ^ 4 = 4294967296 := by norm_num
      rw [this]
      omega
    rw [leValue_leBytes 4 _ hlt]
    omega
  · unfold serialize encInt32
    simp only [List.length_append, leBytes_length]
  · intro b hb
    unfold serialize encInt32 at hb
    simp only [List.mem_append] at hb
    rcases hb with (hb | hb) | hb <;> exact leBytes_lt _ _ b hb
  · intro r hrr
    rw [hrt0] at hrr
    cases hrr
    rfl

/-- Claim C15, witness: `lock2` with a signature of three bytes: ten bytes follow the 36
of height and hash on the stream, three of them the signature. -/
theorem C15_serialize_round_trip_witness :
    lock2.InRange 3 ∧
    serialize 3 lock2 = [2, 0, 0, 0] ++ (12 :: List.replicate 31 0) ++ [4, 0, 0] ∧
    deserialize 3 (serialize 3 lock2 ++ [7, 7]) = some (lock2, [7, 7]) :=
  have hr : lock2.InRange 3 := by
    unfold CBlockLockSig.InRange
    decide
  ⟨hr, by decide,
   (C15_serialize_round_trip 3 (fun _ => 0) lock2 [7, 7] hr).2.2.2.2.2.2.2.1⟩

/-! ## C13: at most one notification for an index -/

/-- The invariant passes to a handler whose index of the best lock is the same or higher
and whose last notified index is the same. -/
theorem notifyInv_move (index : uint256 → Option CBlockIndex) (s s1 : CBlockLocksHandler)
    (l : List CBlockIndex) (hinv : NotifyInv index s l)
    (h1 : ∀ b, s1.bestBlockLockBlockIndex = some b →
      b.nHeight = s1.bestBlockLockWithKnownBlock.nHeight ∧
      b.GetBlockHash = s1.bestBlockLockWithKnownBlock.blockHash ∧
      index b.GetBlockHash = some b ∧
      (s1.bestBlockLockWithKnownBlock = s1.bestBlockLock ∨
        s1.bestBlockLockWithKnownBlock.nHeight < s1.bestBlockLock.nHeight))
    (hl : s1.lastNotifyBlockLockBlockIndex = s.lastNotifyBlockLockBlockIndex)
    (hm : ∀ b, s.bestBlockLockBlockIndex = some b →
      ∃ b2, s1.bestBlockLockBlockIndex = some b2 ∧ (b2 = b ∨ b.nHeight < b2.nHeight)) :
    NotifyInv index s1 l := by
  obtain ⟨_, i2, i3⟩ := hinv
  refine ⟨h1, i2, ?_⟩
  intro N hN
  obtain ⟨b, hb, hc⟩ := i3 N hN
  obtain ⟨b2, hb2, hrel⟩ := hm b hb
  refine ⟨b2, hb2, ?_⟩
  rcases hrel with rfl | hlt
  · rcases hc with ⟨h1', h2'⟩ | h
    · exact Or.inl ⟨h1', by rw [hl]; exact h2'⟩
    · exact Or.inr h
  · rcases hc with ⟨h1', _⟩ | h
    · right; rw [h1']; exact hlt
    · right; omega

/-- The invariant passes to a handler with the same lock fields and last notified index. -/
theorem notifyInv_frame (index : uint256 → Option CBlockIndex) (s s1 : CBlockLocksHandler)
    (l : List CBlockIndex) (hinv : NotifyInv index s l)
    (hv : lockView s1 = lockView s)
    (hl : s1.lastNotifyBlockLockBlockIndex = s.lastNotifyBlockLockBlockIndex) :
    NotifyInv index s1 l := by
  simp only [lockView, Prod.mk.injEq] at hv
  obtain ⟨_, v2, v3, v4⟩ := hv
  apply notifyInv_move index s s1 l hinv
  · rw [v2, v3, v4]
    exact hinv.1
  · exact hl
  · intro b hb
    exact ⟨b, by rw [v4]; exact hb, Or.inl rfl⟩

theorem notifyInv_nil (index : uint256 → Option CBlockIndex) (s : CBlockLocksHandler)
    (h1 : ∀ b, s.bestBlockLockBlockIndex = some b →
      b.nHeight = s.bestBlockLockWithKnownBlock.nHeight ∧
      b.GetBlockHash = s.bestBlockLockWithKnownBlock.blockHash ∧
      index b.GetBlockHash = some b ∧
      (s.bestBlockLockWithKnownBlock = s.bestBlockLock ∨
        s.bestBlockLockWithKnownBlock.nHeight < s.bestBlockLock.nHeight)) :
    NotifyInv index s [] :=
  ⟨h1, List.nodup_nil, fun N hN => absurd hN (List.not_mem_nil N)⟩

/-- `CheckActiveState` keeps the invariant; the list starts anew when enforcement is
switched on. -/
theorem notifyInv_checkActiveState (index : uint256 → Option CBlockIndex) (env : Env)
    (s : CBlockLocksHandler) (l : List CBlockIndex) (hinv : NotifyInv index s l) :
    NotifyInv index (CheckActiveState env s)
      (if (!s.isEnforced && (CheckActiveState env s).isEnforced) = true then [] else l) := by
  have hflag := (checkActiveState_flags env s).2
  cases hres : resets env s
  · have hno : ¬ (!s.isEnforced && (CheckActiveState env s).isEnforced) = true := by
      rw [hflag]
      unfold resets at hres
      rw [hres]
      simp
    rw [if_neg hno]
    apply notifyInv_frame index s _ l hinv
    · rw [checkActiveState_of_not_resets env s hres]; rfl
    · rw [checkActiveState_of_not_resets env s hres]
  · have hyes : (!s.isEnforced && (CheckActiveState env s).isEnforced) = true := by
      rw [hflag]
      unfold resets at hres
      exact hres
    rw [if_pos hyes]
    apply notifyInv_nil
    rw [checkActiveState_of_resets env s hres]
    intro b hb
    cases hb

/-- The part of `ProcessNewBlockLock` after `CheckActiveState` keeps the invariant. -/
theorem notifyInv_pnbl (index : uint256 → Option CBlockIndex) (hidx : IndexOK index)
    (env : Env) (huse : env.Uses index) (pfrom : NodeId) (blsig : CBlockLockSig)
    (hash : uint256) (s : CBlockLocksHandler) (l : List CBlockIndex)
    (hinv : NotifyInv index (CheckActiveState env s) l) :
    NotifyInv index (ProcessNewBlockLock env pfrom blsig hash s).1 l := by
  cases hacc : accepts env blsig hash (CheckActiveState env s)
  · rw [pnbl_state_rejected env pfrom blsig hash s hacc]
    exact notifyInv_frame index _ _ l hinv rfl rfl
  · have hcond := ((accepts_iff env blsig hash (CheckActiveState env s)).1 hacc).2.1
    -- the new lock is above the best lock with known block, when an index is set
    have habove : ∀ b, (CheckActiveState env s).bestBlockLockBlockIndex = some b →
        b.nHeight < blsig.nHeight := by
      intro b hb
      obtain ⟨e1, _, e3, e4⟩ := hinv.1 b hb
      have h0 := (hidx _ b e3).2
      have hle : (CheckActiveState env s).bestBlockLockWithKnownBlock.nHeight ≤
          (CheckActiveState env s).bestBlockLock.nHeight := by
        rcases e4 with e4 | e4
        · rw [e4]
        · exact le_of_lt e4
      rcases hcond with hn | hlt
      · have := isNull_nHeight _ hn
        omega
      · omega
    have hkeep : NotifyInv index
        { CheckActiveState env s with
          seenBlockLocks :=
            (emplace (CheckActiveState env s).seenBlockLocks hash env.GetTimeMillis).1,
          bestBlockLockHash := hash, bestBlockLock := blsig } l := by
      apply notifyInv_move index _ _ l hinv
      · intro b hb
        obtain ⟨e1, e2, e3, _⟩ := hinv.1 b hb
        refine ⟨e1, e2, e3, Or.inr ?_⟩
        have := habove b hb
        dsimp only
        omega
      · rfl
      · intro b hb
        exact ⟨b, hb, Or.inl rfl⟩
    rw [pnbl_state_accepted env pfrom blsig hash s hacc]
    cases hl : env.LookupBlockIndex blsig.blockHash with
    | none => exact hkeep
    | some p =>
      dsimp only
      by_cases hp : p.nHeight = blsig.nHeight
      · rw [if_pos hp]
        have hip := huse _ p hl
        have hph := (hidx _ p hip).1
        apply notifyInv_move index _ _ l hinv
        · intro b hb
          simp only [Option.some.injEq] at hb
          rw [← hb]
          exact ⟨hp, hph, by rw [hph]; exact hip, Or.inl rfl⟩
        · rfl
        · intro b hb
          refine ⟨p, rfl, Or.inr ?_⟩
          rw [hp]
          exact habove b hb
      · rw [if_neg hp]
        exact hkeep

theorem notifyInv_acceptedBlockHeader (index : uint256 → Option CBlockIndex)
    (pindexNew : CBlockIndex)
    (hnew : index pindexNew.GetBlockHash = some pindexNew)
    (s : CBlockLocksHandler) (l : List CBlockIndex) (hinv : NotifyInv index s l) :
    NotifyInv index (AcceptedBlockHeader pindexNew s) l := by
  unfold AcceptedBlockHeader
  by_cases h1 : pindexNew.GetBlockHash = s.bestBlockLock.blockHash
  · rw [if_pos h1]
    by_cases h2 : s.bestBlockLock.nHeight ≠ pindexNew.nHeight
    · rw [if_pos h2]; exact hinv
    · rw [if_neg h2]
      have h2' : s.bestBlockLock.nHeight = pindexNew.nHeight := not_not.1 h2
      apply notifyInv_move index s _ l hinv
      · intro b hb
        simp only [Option.some.injEq] at hb
        rw [← hb]
        exact ⟨h2'.symm, h1, hnew, Or.inl rfl⟩
      · rfl
      · intro b hb
        refine ⟨pindexNew, rfl, ?_⟩
        obtain ⟨e1, e2, e3, e4⟩ := hinv.1 b hb
        rcases e4 with e4 | e4
        · left
          have hh : pindexNew.GetBlockHash = b.GetBlockHash := by rw [h1, e2, e4]
          rw [hh, e3] at hnew
          exact (Option.some.inj hnew).symm
        · right
          omega
  · rw [if_neg h1]; exact hinv

theorem notifyInv_enforce (index : uint256 → Option CBlockIndex) (env : Env)
    (s : CBlockLocksHandler) (r : CBlockLocksHandler × List Effect)
    (h : EnforceBestBlockLock env s = some r) (l : List CBlockIndex)
    (hinv : NotifyInv index s l) :
    NotifyInv index r.1 (l ++ notified r.2) ∧ r.1.isEnforced = s.isEnforced := by
  rcases enforceBestBlockLock_emits env s r h with
    ⟨_, cur, hb, _, hl, e1, _, _, e4⟩ | ⟨_, e1, _, _, e4⟩
  · rw [e1, e4]
    refine ⟨?_, rfl⟩
    obtain ⟨i1, i2, i3⟩ := hinv
    have hnot : cur ∉ l := by
      intro hc
      obtain ⟨b, hb', hrel⟩ := i3 cur hc
      rw [hb] at hb'
      cases hb'
      rcases hrel with ⟨_, hl'⟩ | hlt
      · exact hl hl'
      · omega
    refine ⟨i1, ?_, ?_⟩
    · rw [List.nodup_append]
      refine ⟨i2, List.nodup_singleton cur, ?_⟩
      intro a ha ha'
      rw [List.mem_singleton] at ha'
      rw [ha'] at ha
      exact hnot ha
    · intro N hN
      refine ⟨cur, hb, ?_⟩
      rcases List.mem_append.1 hN with hN | hN
      · obtain ⟨b, hb', hrel⟩ := i3 N hN
        rw [hb] at hb'
        cases hb'
        rcases hrel with ⟨_, hl'⟩ | hlt
        · exact absurd hl' hl
        · exact Or.inr hlt
      · rw [List.mem_singleton] at hN
        exact Or.inl ⟨hN, rfl⟩
  · rw [e1, e4, List.append_nil]
    exact ⟨hinv, rfl⟩
theorem notified_eraseRequest (pfrom : NodeId) (hash : uint256) (fx : List Effect) :
    notified (eraseRequest pfrom hash ++ fx) = notified fx := by
  unfold eraseRequest
  split_ifs <;> simp [notified]

theorem pnbl_notified (env : Env) (pfrom : NodeId) (blsig : CBlockLockSig) (hash : uint256)
    (s : CBlockLocksHandler) :
    notified (ProcessNewBlockLock env pfrom blsig hash s).2 = [] ∧
    (ProcessNewBlockLock env pfrom blsig hash s).1.isEnforced
      = (CheckActiveState env s).isEnforced := by
  cases hacc : accepts env blsig hash (CheckActiveState env s)
  · rw [pnbl_rejected env pfrom blsig hash s hacc, notified_eraseRequest]
    refine ⟨?_, rfl⟩
    split_ifs <;> rfl
  · rw [pnbl_accepted env pfrom blsig hash s hacc, pnbl_state_accepted env pfrom blsig hash s hacc]
    have h0 := notified_eraseRequest pfrom hash []
    rw [List.append_nil] at h0
    cases env.LookupBlockIndex blsig.blockHash with
    | none => exact ⟨by rw [notified_eraseRequest]; rfl, rfl⟩
    | some p =>
      dsimp only
      by_cases hp : p.nHeight = blsig.nHeight
      · rw [if_pos hp, if_pos hp]
        exact ⟨by rw [notified_eraseRequest]; rfl, rfl⟩
      · rw [if_neg hp, if_neg hp]
        exact ⟨by rw [h0]; rfl, rfl⟩

/-- `ProcessNewBlockLock` keeps the invariant; the list starts anew when the call switches
enforcement on. -/
theorem notifyInv_processNewBlockLock (index : uint256 → Option CBlockIndex)
    (hidx : IndexOK index) (env : Env) (huse : env.Uses index) (pfrom : NodeId)
    (blsig : CBlockLockSig) (hash : uint256) (s : CBlockLocksHandler) (l : List CBlockIndex)
    (hinv : NotifyInv index s l) :
    NotifyInv index (ProcessNewBlockLock env pfrom blsig hash s).1
      (if (!s.isEnforced && (ProcessNewBlockLock env pfrom blsig hash s).1.isEnforced) = true
        then notified (ProcessNewBlockLock env pfrom blsig hash s).2
        else l ++ notified (ProcessNewBlockLock env pfrom blsig hash s).2) := by
  obtain ⟨hn, he⟩ := pnbl_notified env pfrom blsig hash s
  rw [hn, he, List.append_nil]
  exact notifyInv_pnbl index hidx env huse pfrom blsig hash s _
    (notifyInv_checkActiveState index env s l hinv)

/-- A call that leaves the lock fields, the last notified index and `isEnforced` alone and
notifies nothing keeps the invariant. -/
theorem notifyInv_silent (index : uint256 → Option CBlockIndex) (s : CBlockLocksHandler)
    (r : CBlockLocksHandler × List Effect) (l : List CBlockIndex)
    (hinv : NotifyInv index s l) (hv : lockView r.1 = lockView s)
    (hl : r.1.lastNotifyBlockLockBlockIndex = s.lastNotifyBlockLockBlockIndex)
    (he : r.1.isEnforced = s.isEnforced) (hn : notified r.2 = []) :
    NotifyInv index r.1
      (if (!s.isEnforced && r.1.isEnforced) = true then notified r.2 else l ++ notified r.2) := by
  have hno : ¬ (!s.isEnforced && r.1.isEnforced) = true := by
    rw [he]
    cases s.isEnforced <;> simp
  rw [if_neg hno, hn, List.append_nil]
  exact notifyInv_frame index s r.1 l hinv hv hl

/-- Every call keeps the invariant. -/
theorem notifyInv_step (index : uint256 → Option CBlockIndex) (hidx : IndexOK index)
    (c : Call) (huse : c.Uses index) (s : CBlockLocksHandler)
    (r : CBlockLocksHandler × List Effect) (hr : c.run s = some r) (l : List CBlockIndex)
    (hinv : NotifyInv index s l) :
    NotifyInv index r.1
      (if (!s.isEnforced && r.1.isEnforced) = true then notified r.2 else l ++ notified r.2) := by
  cases c with
  | processMessage env pfrom blsig =>
    simp only [Call.run, Option.some.injEq] at hr
    rw [← hr]
    unfold ProcessMessage
    by_cases h1 : (!AreBlockLocksEnabled env) = true
    · rw [if_pos h1]
      exact notifyInv_silent index s (s, []) l hinv rfl rfl rfl rfl
    · rw [if_neg h1]
      exact notifyInv_processNewBlockLock index hidx env huse pfrom blsig _ s l hinv
  | processNewBlockLock env pfrom blsig hash =>
    simp only [Call.run, Option.some.injEq] at hr
    rw [← hr]
    exact notifyInv_processNewBlockLock index hidx env huse pfrom blsig hash s l hinv
  | acceptedBlockHeader pindexNew =>
    simp only [Call.run, Option.some.injEq] at hr
    rw [← hr]
    have he : (AcceptedBlockHeader pindexNew s).isEnforced = s.isEnforced := by
      unfold AcceptedBlockHeader
      split_ifs <;> rfl
    have hno : ¬ (!s.isEnforced && (AcceptedBlockHeader pindexNew s).isEnforced) = true := by
      rw [he]
      cases s.isEnforced <;> simp
    dsimp only
    rw [if_neg hno]
    simp only [notified, List.append_nil]
    exact notifyInv_acceptedBlockHeader index pindexNew huse s l hinv
  | updatedBlockTip =>
    simp only [Call.run, Option.some.injEq] at hr
    rw [← hr]
    have key : lockView (UpdatedBlockTip s).1 = lockView s ∧
        (UpdatedBlockTip s).1.lastNotifyBlockLockBlockIndex = s.lastNotifyBlockLockBlockIndex ∧
        (UpdatedBlockTip s).1.isEnforced = s.isEnforced ∧
        notified (UpdatedBlockTip s).2 = [] := by
      unfold UpdatedBlockTip
      split_ifs <;> exact ⟨rfl, rfl, rfl, rfl⟩
    exact notifyInv_silent index s _ l hinv key.1 key.2.1 key.2.2.1 key.2.2.2
  | taskDone =>
    simp only [Call.run, Option.some.injEq] at hr
    rw [← hr]
    exact notifyInv_silent index s ({ s with tryLockBlockTipScheduled := false }, []) l hinv
      rfl rfl rfl rfl
  | checkActiveState env =>
    simp only [Call.run, Option.some.injEq] at hr
    rw [← hr]
    dsimp only
    simp only [notified, List.append_nil]
    exact notifyInv_checkActiveState index env s l hinv
  | trySignChainTip env =>
    simp only [Call.run] at hr
    have hv := trySignChainTip_lockView env s r hr
    rcases trySignChainTip_cases env s r hr with ⟨hfx, hcv⟩ | ⟨tip, _, hfx, hcv, _⟩
    · have hf := (coreView_eq_iff _ _).1 hcv
      exact notifyInv_silent index s r l hinv hv hf.2.2.2.2.2.2.2.1 hf.2.2.1 (by rw [hfx]; rfl)
    · have hf := (coreView_eq_iff _ _).1 hcv
      exact notifyInv_silent index s r l hinv hv hf.2.2.2.2.2.2.2.1 hf.2.2.1 (by rw [hfx]; rfl)
  | transactionAddedToMempool tx nAcceptTime =>
    simp only [Call.run, Option.some.injEq] at hr
    rw [← hr]
    have key : lockView (TransactionAddedToMempool tx nAcceptTime s) = lockView s ∧
        (TransactionAddedToMempool tx nAcceptTime s).lastNotifyBlockLockBlockIndex
          = s.lastNotifyBlockLockBlockIndex ∧
        (TransactionAddedToMempool tx nAcceptTime s).isEnforced = s.isEnforced := by
      unfold TransactionAddedToMempool
      split_ifs <;> exact ⟨rfl, rfl, rfl⟩
    exact notifyInv_silent index s (_, []) l hinv key.1 key.2.1 key.2.2 rfl
  | blockConnected env pblock pindex =>
    simp only [Call.run, Option.some.injEq] at hr
    rw [← hr]
    have key : lockView (BlockConnected env pblock pindex s) = lockView s ∧
        (BlockConnected env pblock pindex s).lastNotifyBlockLockBlockIndex
          = s.lastNotifyBlockLockBlockIndex ∧
        (BlockConnected env pblock pindex s).isEnforced = s.isEnforced := by
      unfold BlockConnected
      split_ifs <;> exact ⟨rfl, rfl, rfl⟩
    exact notifyInv_silent index s (_, []) l hinv key.1 key.2.1 key.2.2 rfl
  | blockDisconnected pindexDisconnected =>
    simp only [Call.run, Option.some.injEq] at hr
    rw [← hr]
    exact notifyInv_silent index s (BlockDisconnected pindexDisconnected s, []) l hinv
      rfl rfl rfl rfl
  | enforceBestBlockLock env =>
    simp only [Call.run] at hr
    obtain ⟨h1, he⟩ := notifyInv_enforce index env s r hr l hinv
    have hno : ¬ (!s.isEnforced && r.1.isEnforced) = true := by
      rw [he]
      cases s.isEnforced <;> simp
    rw [if_neg hno]
    exact h1
  | handleNewRecoveredSig env recoveredSig =>
    simp only [Call.run, Option.some.injEq] at hr
    rw [← hr]
    by_cases hc : s.isEnabled = true ∧ recoveredSig.id = s.lastSignedRequestId ∧
        recoveredSig.msgHash = s.lastSignedMsgHash ∧
        s.bestBlockLock.nHeight < s.lastSignedHeight
    · rw [(handleNewRecoveredSig_eq env recoveredSig s).1 hc]
      exact notifyInv_processNewBlockLock index hidx env huse (-1) _ _ s l hinv
    · rw [(handleNewRecoveredSig_eq env recoveredSig s).2 hc]
      exact notifyInv_silent index s (s, []) l hinv rfl rfl rfl rfl

theorem notifyInv_run (index : uint256 → Option CBlockIndex) (hidx : IndexOK index)
    (calls : List Call) :
    ∀ (s : CBlockLocksHandler) (l : List CBlockIndex),
      (∀ c ∈ calls, c.Uses index) → NotifyInv index s l →
      ∀ r, notifiedSinceSwitchOn calls s l = some r → NotifyInv index r.1 r.2 := by
  induction calls with
  | nil =>
    intro s l _ hinv r hr
    simp only [notifiedSinceSwitchOn, Option.some.injEq] at hr
    rw [← hr]
    exact hinv
  | cons c cs ih =>
    intro s l huse hinv r hr
    unfold notifiedSinceSwitchOn at hr
    cases hc : c.run s with
    | none => rw [hc] at hr; cases hr
    | some r1 =>
      rw [hc] at hr
      dsimp only at hr
      exact ih r1.1 _ (fun d hd => huse d (List.mem_cons_of_mem _ hd))
        (notifyInv_step index hidx c (huse c (List.mem_cons_self _ _)) s r1 hc l hinv) r hr

/-- Claim C13 (amended): over any sequence of calls from the initial handler, served by a
block index that holds one entry for a hash and none below height 0, the index entries
notified since `isEnforced` last went from false to true are pairwise distinct: between
two such transitions the notification is emitted at most once for an index.  (At such
a transition the last notified index is cleared, and an index notified before can be
notified again.) -/
theorem C13_notified_once_per_epoch (index : uint256 → Option CBlockIndex)
    (calls : List Call) (r : CBlockLocksHandler × List CBlockIndex)
    (hidx : IndexOK index) (huse : ∀ c ∈ calls, c.Uses index)
    (hr : notifiedSinceSwitchOn calls initialHandler [] = some r) :
    r.2.Nodup :=
  (notifyInv_run index hidx calls initialHandler [] huse
    (notifyInv_nil index initialHandler (fun b hb => by cases hb)) r hr).2.1

theorem indexOK_envActive : IndexOK envActive.LookupBlockIndex := by
  intro h b hb
  simp only [envActive] at hb
  split_ifs at hb with h1 h2 h3
  · cases hb; rw [h1]; decide
  · cases hb; rw [h2]; decide
  · cases hb; rw [h3]; decide

theorem uses_runTwoLocks : ∀ c ∈ runTwoLocks, c.Uses envActive.LookupBlockIndex := by
  intro c hc
  simp only [runTwoLocks, List.mem_cons, List.mem_singleton, List.not_mem_nil, or_false] at hc
  rcases hc with rfl | rfl | rfl | rfl | rfl | rfl
  · exact fun _ _ h => h
  · trivial
  · trivial
  · exact fun _ _ h => h
  · trivial
  · trivial

/-- Claim C13, witness: the locks for `block1` and `block2` arrive and are enforced twice
each; `block1` and `block2` are notified once each. -/
theorem C13_notified_once_per_epoch_witness :
    notifiedSinceSwitchOn runTwoLocks initialHandler [] = some twoLocksNotified ∧
    twoLocksNotified.2 = [block1, block2] ∧
    twoLocksNotified.2.Nodup :=
  ⟨by decide, by decide,
   C13_notified_once_per_epoch envActive.LookupBlockIndex runTwoLocks twoLocksNotified
     indexOK_envActive uses_runTwoLocks (by decide)⟩

/-- Claim C13, counterexample: the lock for `block1` is accepted and notified; the feature
gate goes off and, a day later, on again, which clears the last notified index; the same
lock arrives again and `block1` is notified a second time. -/
theorem C13_counterexample :
    (runCalls runOffAndOn initialHandler).map (fun r => notified r.2)
      = some [block1, block1] ∧
    (runCalls runOffAndOn initialHandler).map (fun r => r.1.bestBlockLockBlockIndex)
      = some (some block1) := by
  decide

theorem recoveredSigCall_run (env : Env) (recoveredSig : CRecoveredSig)
    (s : CBlockLocksHandler) :
    HandleNewRecoveredSig env recoveredSig s =
      match recoveredSigCall env recoveredSig s with
      | some c => ProcessNewBlockLock env c.1 c.2.1 c.2.2 s
      | none => (s, []) := by
  unfold HandleNewRecoveredSig recoveredSigCall
  by_cases h1 : (!s.isEnabled) = true
  · rw [if_pos h1, if_pos h1]
  rw [if_neg h1, if_neg h1]
  by_cases h2 : recoveredSig.id ≠ s.lastSignedRequestId ∨
      recoveredSig.msgHash ≠ s.lastSignedMsgHash
  · rw [if_pos h2, if_pos h2]
  rw [if_neg h2, if_neg h2]
  by_cases h3 : s.bestBlockLock.nHeight ≥ s.lastSignedHeight
  · rw [if_pos h3, if_pos h3]
  rw [if_neg h3, if_neg h3]

theorem recoveredSigCall_eq (env : Env) (recoveredSig : CRecoveredSig)
    (s : CBlockLocksHandler) :
    recoveredSigCall env recoveredSig s =
      if s.isEnabled = true ∧ recoveredSig.id = s.lastSignedRequestId ∧
          recoveredSig.msgHash = s.lastSignedMsgHash ∧
          s.bestBlockLock.nHeight < s.lastSignedHeight
      then some (-1, { nHeight := s.lastSignedHeight, blockHash := s.lastSignedMsgHash,
                       sig := recoveredSig.sig },
                 env.SerializeHash { nHeight := s.lastSignedHeight,
                                     blockHash := s.lastSignedMsgHash,
                                     sig := recoveredSig.sig })
      else none := by
  unfold recoveredSigCall
  by_cases h1 : (!s.isEnabled) = true
  · rw [if_pos h1, if_neg]
    intro hc
    rw [hc.1] at h1
    exact absurd h1 (by decide)
  rw [if_neg h1]
  have he : s.isEnabled = true := by
    cases hb : s.isEnabled
    · rw [hb] at h1; exact absurd rfl h1
    · rfl
  by_cases h2 : recoveredSig.id ≠ s.lastSignedRequestId ∨
      recoveredSig.msgHash ≠ s.lastSignedMsgHash
  · rw [if_pos h2, if_neg]
    intro hc
    rcases h2 with h2 | h2
    · exact h2 hc.2.1
    · exact h2 hc.2.2.1
  rw [if_neg h2]
  have h2a : recoveredSig.id = s.lastSignedRequestId := by
    by_contra hc; exact h2 (Or.inl hc)
  have h2b : recoveredSig.msgHash = s.lastSignedMsgHash := by
    by_contra hc; exact h2 (Or.inr hc)
  by_cases h3 : s.bestBlockLock.nHeight ≥ s.lastSignedHeight
  · rw [if_pos h3, if_neg]
    intro hc
    omega
  rw [if_neg h3, if_pos ⟨he, h2a, h2b, by omega⟩]

/-- Claim C21: the recovered-signature handler calls `ProcessNewBlockLock` if and
only if the handler is enabled, the request id and the message hash of the
recovered signature are the last signed ones and the best lock is below the
last signed height; the call then carries the source -1, the lock
`(lastSignedHeight, lastSignedMsgHash, sig)` and the hash of that lock, and the
handler's result is the result of that call; without the call the state is
unchanged and nothing is emitted.  The handler as constructed drops every
recovered signature. -/
theorem C21_recovered_sig_handler (env : Env) (recoveredSig : CRecoveredSig)
    (s : CBlockLocksHandler) :
    ((recoveredSigCall env recoveredSig s).isSome = true ↔
      (s.isEnabled = true ∧ recoveredSig.id = s.lastSignedRequestId ∧
        recoveredSig.msgHash = s.lastSignedMsgHash ∧
        s.bestBlockLock.nHeight < s.lastSignedHeight)) ∧
    (∀ c, recoveredSigCall env recoveredSig s = some c →
      c.1 = -1 ∧
      c.2.1 = { nHeight := s.lastSignedHeight, blockHash := s.lastSignedMsgHash,
                sig := recoveredSig.sig } ∧
      c.2.2 = env.SerializeHash c.2.1 ∧
      HandleNewRecoveredSig env recoveredSig s =
        ProcessNewBlockLock env (-1) c.2.1 (env.SerializeHash c.2.1) s) ∧
    (recoveredSigCall env recoveredSig s = none →
      HandleNewRecoveredSig env recoveredSig s = (s, [])) ∧
    recoveredSigCall env recoveredSig initialHandler = none ∧
    HandleNewRecoveredSig env recoveredSig initialHandler = (initialHandler, []) := by
  have hrun := recoveredSigCall_run env recoveredSig s
  have heq := recoveredSigCall_eq env recoveredSig s
  have hinit : recoveredSigCall env recoveredSig initialHandler = none := by
    rw [recoveredSigCall_eq, if_neg]
    intro hc
    exact absurd hc.1 (by decide)
  refine ⟨?_, ?_, ?_, hinit, ?_⟩
  · rw [heq]
    by_cases hc : s.isEnabled = true ∧ recoveredSig.id = s.lastSignedRequestId ∧
        recoveredSig.msgHash = s.lastSignedMsgHash ∧
        s.bestBlockLock.nHeight < s.lastSignedHeight
    · rw [if_pos hc]; simp only [Option.isSome_some, true_iff]; exact hc
    · rw [if_neg hc]; simp only [Option.isSome_none, Bool.false_eq_true, false_iff]; exact hc
  · intro c hcall
    rw [hcall] at hrun
    rw [heq] at hcall
    by_cases hc : s.isEnabled = true ∧ recoveredSig.id = s.lastSignedRequestId ∧
        recoveredSig.msgHash = s.lastSignedMsgHash ∧
        s.bestBlockLock.nHeight < s.lastSignedHeight
    · rw [if_pos hc] at hcall
      cases hcall
      exact ⟨rfl, rfl, rfl, hrun⟩
    · rw [if_neg hc] at hcall; cases hcall
  · intro hcall
    rw [hcall] at hrun
    exact hrun
  · have h := recoveredSigCall_run env recoveredSig initialHandler
    rw [hinit] at h
    exact h

/-- Counterexample to claim C26 as stated: a lock of height -1 with a block
hash other than zero is not null. -/
theorem C26_counterexample :
    lockNoHeight.nHeight = -1 ∧ lockNoHeight.IsNull = false := by
  decide

/-- Claim C26 (amended): `IsNull` holds if and only if the height is -1 and the
block hash is zero; the signature plays no part, and a default-constructed lock
is null. -/
theorem C26_is_null_iff (b : CBlockLockSig) :
    (b.IsNull = true ↔ b.nHeight = -1 ∧ b.blockHash = 0) ∧
    ({ b with sig := 0 } : CBlockLockSig).IsNull = b.IsNull ∧
    ({} : CBlockLockSig).IsNull = true := by
  refine ⟨?_, rfl, by decide⟩
  unfold CBlockLockSig.IsNull
  simp only [Bool.and_eq_true, beq_iff_eq]

/-- Claim C22: a call of `TrySignChainTip` that returns calls `AsyncSignIfMember`
at most once.  It calls it only if the node is a masternode, the block chain is
synchronised, the handler is enabled, the tip has a predecessor, the tip height
differs from `lastSignedHeight`, the best lock is below the tip and no
conflicting lock exists at the tip; the arguments are the quorum type, the
request id of the tip height and the tip hash, and the three `lastSigned`
fields are set to the tip height, that request id and the tip hash.  Without
the call the three fields are unchanged. -/
theorem C22_try_sign_chain_tip (env : Env) (s : CBlockLocksHandler)
    (r : CBlockLocksHandler × List Effect) (h : TrySignChainTip env s = some r) :
    (signRequests r.2).length ≤ 1 ∧
    (signRequests r.2 ≠ [] →
      ∃ tip, env.Tip = some tip ∧
        env.IsBlockchainSynced = true ∧ env.fMasternodeMode = true ∧ s.isEnabled = true ∧
        tip.pprev ≠ none ∧ tip.nHeight ≠ s.lastSignedHeight ∧
        s.bestBlockLock.nHeight < tip.nHeight ∧
        HasConflictingBlockLock s tip.nHeight tip.GetBlockHash = some false ∧
        signRequests r.2 = [(env.llmqTypeBlockLocks, env.SerializeHashRequestId tip.nHeight,
                             tip.GetBlockHash)] ∧
        r.1.lastSignedHeight = tip.nHeight ∧
        r.1.lastSignedRequestId = env.SerializeHashRequestId tip.nHeight ∧
        r.1.lastSignedMsgHash = tip.GetBlockHash) ∧
    (signRequests r.2 = [] →
      r.1.lastSignedHeight = s.lastSignedHeight ∧
      r.1.lastSignedRequestId = s.lastSignedRequestId ∧
      r.1.lastSignedMsgHash = s.lastSignedMsgHash) := by
  rcases trySignChainTip_cases env s r h with ⟨hfx, hcore⟩ |
    ⟨tip, htip, hfx, hcore, hm, hsync, hen, hprev, hne, hlt, hconf⟩
  · rw [coreView_eq_iff] at hcore
    obtain ⟨_, _, _, _, _, _, _, _, f9, f10, f11⟩ := hcore
    rw [hfx]
    refine ⟨by simp [signRequests], fun hc => absurd rfl hc, fun _ => ⟨f9, f10, f11⟩⟩
  · rw [coreView_eq_iff] at hcore
    obtain ⟨_, _, _, _, _, _, _, _, f9, f10, f11⟩ := hcore
    rw [hfx]
    refine ⟨by simp [signRequests], fun _ => ?_, fun hc => ?_⟩
    · exact ⟨tip, htip, hsync, hm, hen, hprev, hne, hlt, hconf, rfl, f9, f10, f11⟩
    · simp [signRequests] at hc

/-- Claim C22 on the masternode: with the handler locked on `block1` and the tip
`block2`, the call signs once, for height 2 and hash 12. -/
theorem C22_try_sign_chain_tip_witness :
    TrySignChainTip envSigner handlerLocked1 = some signedTip2 ∧
    signRequests signedTip2.2 = [(1, 1002, 12)] ∧
    (signRequests signedTip2.2).length ≤ 1 :=
  ⟨by decide, by decide,
    (C22_try_sign_chain_tip envSigner handlerLocked1 signedTip2 (by decide)).1⟩

/-! ## C24, C25: the maps `blockTxs` and `txFirstSeenTime` -/

theorem lookup_emplace {α : Type} (m : List (uint256 × α)) (k k1 : uint256) (v : α) :
    (emplace m k v).1.lookup k1 =
      (m.lookup k1).or (if k1 = k then some v else none) := by
  unfold emplace
  by_cases h : (m.lookup k).isSome = true
  · rw [if_pos h]
    by_cases hk : k1 = k
    · subst hk
      obtain ⟨w, hw⟩ := Option.isSome_iff_exists.mp h
      rw [hw]; rfl
    · rw [if_neg hk]; simp
  · rw [if_neg h]
    simp only [List.lookup_append]
    by_cases hk : k1 = k
    · subst hk
      simp
    · have : (k1 == k) = false := by simpa using hk
      simp [List.lookup, this, hk]

theorem lookup_foldl_emplace {α : Type} (v : α) (k1 : uint256) :
    ∀ (xs : List uint256) (m : List (uint256 × α)),
      (xs.foldl (fun m x => (emplace m x v).1) m).lookup k1 =
        (m.lookup k1).or (if k1 ∈ xs then some v else none) := by
  intro xs
  induction xs with
  | nil => intro m; simp
  | cons x rest ih =>
    intro m
    rw [List.foldl_cons, ih, lookup_emplace]
    cases hm : m.lookup k1 with
    | some w => simp
    | none =>
      by_cases hk : k1 = x
      · subst hk; simp
      · by_cases hr : k1 ∈ rest
        · simp [hk, hr]
        · simp [hk, hr]

theorem mem_setEmplace (s : List uint256) (x y : uint256) :
    y ∈ setEmplace s x ↔ y ∈ s ∨ y = x := by
  unfold setEmplace
  by_cases h : s.contains x = true
  · rw [if_pos h]
    constructor
    · exact Or.inl
    · rintro (h1 | h1)
      · exact h1
      · subst h1; simpa using h
  · rw [if_neg h]; simp

theorem mem_diskTxs (x : uint256) :
    ∀ (txs : List CTransaction) (ret : List uint256),
      x ∈ diskTxs txs ret ↔ x ∈ ret ∨ holdsTx txs x = true := by
  intro txs
  induction txs with
  | nil => intro ret; simp [diskTxs, holdsTx]
  | cons tx rest ih =>
    intro ret
    unfold diskTxs
    by_cases h : (tx.IsCoinBase || tx.vin.isEmpty) = true
    · rw [if_pos h, ih]
      have hl : lockable tx = false := by unfold lockable; rw [h]; rfl
      simp [holdsTx, hl] at *
    · rw [if_neg h, ih, mem_setEmplace]
      have hl : lockable tx = true := by
        unfold lockable; simpa using h
      simp only [holdsTx, List.any_cons, hl, Bool.true_and, Bool.or_eq_true, beq_iff_eq]
      constructor
      · rintro ((h1 | h1) | h1)
        · exact Or.inl h1
        · exact Or.inr (Or.inl h1.symm)
        · exact Or.inr (Or.inr h1)
      · rintro (h1 | h1 | h1)
        · exact Or.inl (Or.inl h1)
        · exact Or.inl (Or.inr h1.symm)
        · exact Or.inr h1

theorem mem_connectTxs (curTime : Int) (x : uint256) :
    ∀ (txs : List CTransaction) (txids : List uint256) (seen : List (uint256 × Int)),
      x ∈ (connectTxs curTime txs txids seen).1 ↔ x ∈ txids ∨ holdsTx txs x = true := by
  intro txs
  induction txs with
  | nil => intro txids seen; simp [connectTxs, holdsTx]
  | cons tx rest ih =>
    intro txids seen
    unfold connectTxs
    by_cases h : (tx.IsCoinBase || tx.vin.isEmpty) = true
    · rw [if_pos h, ih]
      have hl : lockable tx = false := by unfold lockable; rw [h]; rfl
      simp [holdsTx, hl] at *
    · rw [if_neg h, ih, mem_setEmplace]
      have hl : lockable tx = true := by
        unfold lockable; simpa using h
      simp only [holdsTx, List.any_cons, hl, Bool.true_and, Bool.or_eq_true, beq_iff_eq]
      constructor
      · rintro ((h1 | h1) | h1)
        · exact Or.inl h1
        · exact Or.inr (Or.inl h1.symm)
        · exact Or.inr (Or.inr h1)
      · rintro (h1 | h1 | h1)
        · exact Or.inl (Or.inl h1)
        · exact Or.inl (Or.inr h1.symm)
        · exact Or.inr h1

theorem lookup_connectTxs (curTime : Int) (k : uint256) :
    ∀ (txs : List CTransaction) (txids : List uint256) (seen : List (uint256 × Int)),
      (connectTxs curTime txs txids seen).2.lookup k =
        (seen.lookup k).or (if holdsTx txs k = true then some curTime else none) := by
  intro txs
  induction txs with
  | nil => intro txids seen; simp [connectTxs, holdsTx]
  | cons tx rest ih =>
    intro txids seen
    unfold connectTxs
    by_cases h : (tx.IsCoinBase || tx.vin.isEmpty) = true
    · rw [if_pos h, ih]
      have hl : lockable tx = false := by unfold lockable; rw [h]; rfl
      simp [holdsTx, hl]
    · rw [if_neg h, ih, lookup_emplace]
      have hl : lockable tx = true := by
        unfold lockable; simpa using h
      cases hs : seen.lookup k with
      | some w => simp
      | none =>
        by_cases hk : k = tx.hash
        · subst hk; simp [holdsTx, hl]
        · have hk2 : ¬ tx.hash = k := fun hc => hk hc.symm
          simp [holdsTx, hl, hk, hk2]

theorem lookup_assign_self {α : Type} (k : uint256) (v : α) :
    ∀ m : List (uint256 × α), (m.lookup k).isSome = true → (assign m k v).lookup k = some v := by
  intro m
  induction m with
  | nil => intro h; simp at h
  | cons e rest ih =>
    obtain ⟨k0, v0⟩ := e
    intro h
    unfold assign
    by_cases hk : (k0 == k) = true
    · rw [if_pos hk]
      have hk0 : k0 = k := by simpa using hk
      subst hk0
      simp [List.lookup]
    · rw [if_neg hk]
      have hk1 : ¬ k0 = k := by simpa using hk
      have hk2 : (k == k0) = false := by
        simp only [beq_eq_false_iff_ne, ne_eq]
        exact fun hc => hk1 hc.symm
      simp only [List.lookup, hk2] at h ⊢
      exact ih h

theorem lookup_assign_ne {α : Type} (k k1 : uint256) (v : α) (hne : k1 ≠ k) :
    ∀ m : List (uint256 × α), (assign m k v).lookup k1 = m.lookup k1 := by
  intro m
  induction m with
  | nil => rfl
  | cons e rest ih =>
    obtain ⟨k0, v0⟩ := e
    unfold assign
    by_cases hk : (k0 == k) = true
    · rw [if_pos hk]
      have hk0 : k0 = k := by simpa using hk
      have : (k1 == k0) = false := by rw [hk0]; simpa using hne
      simp [List.lookup, this]
    · rw [if_neg hk]
      cases hb : (k1 == k0)
      · simp only [List.lookup, hb]; exact ih
      · simp only [List.lookup, hb]

theorem holdsTx_of_mem (vtx : List CTransaction) (tx : CTransaction) (hm : tx ∈ vtx)
    (hc : tx.IsCoinBase = false) (hv : tx.vin ≠ []) : holdsTx vtx tx.hash = true := by
  unfold holdsTx
  rw [List.any_eq_true]
  refine ⟨tx, hm, ?_⟩
  have : tx.vin.isEmpty = false := by
    cases hvin : tx.vin with
    | nil => exact absurd hvin hv
    | cons a l => rfl
  simp [lockable, hc, this]

theorem blockConnected_synced (env : Env) (pblock : CBlock) (pindex : CBlockIndex)
    (s : CBlockLocksHandler) (hs : env.IsBlockchainSynced = true) :
    (BlockConnected env pblock pindex s).blockTxs.lookup pindex.GetBlockHash =
        some (connectTxs env.GetAdjustedTime pblock.vtx
          ((s.blockTxs.lookup pindex.GetBlockHash).getD []) s.txFirstSeenTime).1 ∧
    (∀ k, k ≠ pindex.GetBlockHash →
      (BlockConnected env pblock pindex s).blockTxs.lookup k = s.blockTxs.lookup k) ∧
    (BlockConnected env pblock pindex s).txFirstSeenTime =
      (connectTxs env.GetAdjustedTime pblock.vtx
          ((s.blockTxs.lookup pindex.GetBlockHash).getD []) s.txFirstSeenTime).2 := by
  unfold BlockConnected
  rw [hs]
  simp only [Bool.not_true, Bool.false_eq_true, if_false]
  cases hf : s.blockTxs.lookup pindex.GetBlockHash with
  | none =>
    simp only [Option.isNone_none, if_true, Option.getD_none]
    refine ⟨?_, ?_, trivial⟩
    · apply lookup_assign_self
      rw [lookup_emplace, hf]
      simp
    · intro k hk
      rw [lookup_assign_ne _ _ _ hk, lookup_emplace, if_neg hk]
      simp
  | some old =>
    simp only [Option.isNone_some, Bool.false_eq_true, if_false, Option.getD_some]
    refine ⟨?_, ?_, trivial⟩
    · apply lookup_assign_self
      rw [hf]; rfl
    · intro k hk
      rw [lookup_assign_ne _ _ _ hk]

/-- Counterexample to claim C25 as stated: while the block chain is not
synchronised `BlockConnected` creates no entry for the block, and on a
synchronised node the entry leaves out a transaction that is not a coinbase
and has no input. -/
theorem C25_counterexample :
    envActive.IsBlockchainSynced = false ∧
    (BlockConnected envActive blockThree block2 initialHandler).blockTxs.lookup
      block2.GetBlockHash = none ∧
    envSigner.IsBlockchainSynced = true ∧
    txNoInput ∈ blockThree.vtx ∧ txNoInput.IsCoinBase = false ∧
    (BlockConnected envSigner blockThree block2 initialHandler).blockTxs.lookup
      block2.GetBlockHash = some [txPay.hash] ∧
    txNoInput.hash ∉ [txPay.hash] := by
  decide

/-- Claim C25 (amended): while the block chain is not synchronised
`BlockConnected` changes nothing.  On a synchronised node the map `blockTxs`
has an entry for the hash of the index afterwards, whatever the block holds;
the entry holds what it held before and the ids of the transactions of the
block that are no coinbase and have inputs, and nothing else, and the entries
of other hashes are as before.  `BlockDisconnected` removes the entries of the
hash of the index and no other, and leaves `txFirstSeenTime` unchanged. -/
theorem C25_block_connected (env : Env) (pblock : CBlock) (pindex : CBlockIndex)
    (s : CBlockLocksHandler) :
    (env.IsBlockchainSynced = false → BlockConnected env pblock pindex s = s) ∧
    (env.IsBlockchainSynced = true →
      ∃ txids,
        (BlockConnected env pblock pindex s).blockTxs.lookup pindex.GetBlockHash = some txids ∧
        (∀ tx ∈ pblock.vtx, tx.IsCoinBase = false → tx.vin ≠ [] → tx.hash ∈ txids) ∧
        (∀ x, x ∈ txids ↔
          x ∈ (s.blockTxs.lookup pindex.GetBlockHash).getD [] ∨ holdsTx pblock.vtx x = true) ∧
        ∀ k, k ≠ pindex.GetBlockHash →
          (BlockConnected env pblock pindex s).blockTxs.lookup k = s.blockTxs.lookup k) ∧
    (∀ e, e ∈ (BlockDisconnected pindex s).blockTxs ↔
      e ∈ s.blockTxs ∧ e.1 ≠ pindex.GetBlockHash) ∧
    (BlockDisconnected pindex s).blockTxs.lookup pindex.GetBlockHash = none ∧
    (BlockDisconnected pindex s).txFirstSeenTime = s.txFirstSeenTime := by
  refine ⟨?_, ?_, ?_, ?_, rfl⟩
  · intro hs
    unfold BlockConnected
    rw [hs]; rfl
  · intro hs
    obtain ⟨h1, h2, _⟩ := blockConnected_synced env pblock pindex s hs
    refine ⟨_, h1, ?_, ?_, h2⟩
    · intro tx hm hc hv
      rw [mem_connectTxs]
      exact Or.inr (holdsTx_of_mem _ _ hm hc hv)
    · intro x
      rw [mem_connectTxs]
  · intro e
    unfold BlockDisconnected erase
    simp only [List.mem_filter, bne_iff_ne, ne_eq]
  · unfold BlockDisconnected erase
    have h := @lookup_filter_key (List uint256) (fun k => k != pindex.GetBlockHash)
      pindex.GetBlockHash s.blockTxs
    rw [h]
    simp

theorem seenEvent_step (txid : uint256) (e : SeenEvent) (s : CBlockLocksHandler) :
    (e.run s).txFirstSeenTime.lookup txid =
      (s.txFirstSeenTime.lookup txid).or (e.records txid s) := by
  cases e with
  | transactionAddedToMempool tx t =>
    simp only [SeenEvent.run, SeenEvent.records, SeenEvent.active, SeenEvent.txs,
      SeenEvent.time, Bool.true_and]
    unfold TransactionAddedToMempool
    by_cases h : (tx.IsCoinBase || tx.vin.isEmpty) = true
    · rw [if_pos h]
      have hl : lockable tx = false := by unfold lockable; rw [h]; rfl
      simp [holdsTx, hl]
    · rw [if_neg h]
      have hl : lockable tx = true := by unfold lockable; simpa using h
      rw [lookup_emplace]
      by_cases hk : txid = tx.hash
      · subst hk; simp [holdsTx, hl]
      · have hk2 : ¬ tx.hash = txid := fun hc => hk hc.symm
        simp [holdsTx, hl, hk, hk2]
  | blockConnected env pblock pindex =>
    simp only [SeenEvent.run, SeenEvent.records, SeenEvent.active, SeenEvent.txs,
      SeenEvent.time]
    cases hs : env.IsBlockchainSynced
    · unfold BlockConnected
      rw [hs]
      simp
    · rw [(blockConnected_synced env pblock pindex s hs).2.2, lookup_connectTxs]
      simp
  | getBlockTxs env blockHash =>
    simp only [SeenEvent.run, SeenEvent.records, SeenEvent.active, SeenEvent.txs,
      SeenEvent.time]
    unfold GetBlockTxs
    cases hl : s.blockTxs.lookup blockHash with
    | some ret => simp
    | none =>
      dsimp only
      cases hd : env.ReadBlockFromDisk (env.LookupBlockIndex blockHash) with
      | none => simp [holdsTx]
      | some block =>
        dsimp only
        rw [lookup_foldl_emplace]
        have hm := mem_diskTxs txid block.vtx []
        simp only [List.not_mem_nil, false_or] at hm
        simp only [Option.isNone_none, Bool.true_and]
        by_cases hh : holdsTx block.vtx txid = true
        · rw [if_pos (hm.2 hh), if_pos hh]
        · rw [if_neg (fun hc => hh (hm.1 hc)), if_neg hh]

theorem runSeen_keeps (txid : uint256) (t : Int) :
    ∀ (es : List SeenEvent) (s : CBlockLocksHandler),
      s.txFirstSeenTime.lookup txid = some t →
        (runSeen es s).txFirstSeenTime.lookup txid = some t := by
  intro es
  induction es with
  | nil => intro s h; exact h
  | cons e rest ih =>
    intro s h
    unfold runSeen
    apply ih
    rw [seenEvent_step, h]
    rfl

theorem runSeen_unlockable (txid : uint256) :
    ∀ (es : List SeenEvent) (s : CBlockLocksHandler),
      (∀ e ∈ es, e.Unlockable txid) → s.txFirstSeenTime.lookup txid = none →
        (runSeen es s).txFirstSeenTime.lookup txid = none := by
  intro es
  induction es with
  | nil => intro s _ h; exact h
  | cons e rest ih =>
    intro s hu h
    unfold runSeen
    apply ih
    · exact fun e1 he1 => hu e1 (List.mem_cons_of_mem _ he1)
    · rw [seenEvent_step, h]
      have hh : holdsTx e.txs txid = false := by
        unfold holdsTx
        rw [List.any_eq_false]
        intro tx htx
        have hu1 := hu e (List.mem_cons_self _ _) tx htx
        by_cases hk : tx.hash = txid
        · rw [hu1 hk]; simp
        · simp [hk]
      simp [SeenEvent.records, hh]

/-- Counterexample to claim C24 as stated: the transaction enters the mempool at
time 1000 and a block with it is connected at adjusted time 900, and the
recorded time stays 1000 while the earliest time witnessed is 900; and a block
connected at time 0 while the chain is not synchronised records nothing, so
that the later accept time 1000 is recorded while the earliest time witnessed
is 0. -/
theorem C24_counterexample :
    lockable txPay = true ∧
    witnessedTimes txPay.hash seenLate = [1000, 900] ∧
    earliest (witnessedTimes txPay.hash seenLate) = some 900 ∧
    (runSeen seenLate initialHandler).txFirstSeenTime.lookup txPay.hash = some 1000 ∧
    witnessedTimes txPay.hash seenUnsynced = [0, 1000] ∧
    earliest (witnessedTimes txPay.hash seenUnsynced) = some 0 ∧
    (runSeen seenUnsynced initialHandler).txFirstSeenTime.lookup txPay.hash = some 1000 := by
  decide

theorem runSeen_append :
    ∀ (a b : List SeenEvent) (s : CBlockLocksHandler),
      runSeen (a ++ b) s = runSeen b (runSeen a s) := by
  intro a
  induction a with
  | nil => intro b s; rfl
  | cons e rest ih =>
    intro b s
    rw [List.cons_append, runSeen, runSeen, ih]

/-- Claim C24 (amended): the time recorded for a transaction id is the time of
the first call that records it, and no later call changes it.  After a call the
entry of `txid` is the entry before it or, when there was none, the time the
call offers (the accept time, the adjusted time of a block connected on a
synchronised node, the time of a block that `GetBlockTxs` reads from disk),
offered only for a transaction that is no coinbase and has inputs.  So in a
sequence of such calls, when the map has no entry for `txid` before the call
`e` and `e` offers `t`, the entry is `t` at the end of the sequence; an entry
there at the start is the entry at the end; and a sequence whose transactions
of that id are all coinbase or without inputs records nothing. -/
theorem C24_first_seen_kept (txid : uint256) (pre : List SeenEvent) (e : SeenEvent)
    (post : List SeenEvent) (s : CBlockLocksHandler) :
    (e.run s).txFirstSeenTime.lookup txid =
      (s.txFirstSeenTime.lookup txid).or (e.records txid s) ∧
    (∀ t, e.records txid s = some t →
      e.time = t ∧ ∃ tx ∈ e.txs, tx.hash = txid ∧ tx.IsCoinBase = false ∧ tx.vin ≠ []) ∧
    (∀ t, (runSeen pre s).txFirstSeenTime.lookup txid = none →
      e.records txid (runSeen pre s) = some t →
      (runSeen (pre ++ e :: post) s).txFirstSeenTime.lookup txid = some t) ∧
    (∀ t, s.txFirstSeenTime.lookup txid = some t →
      (runSeen (pre ++ e :: post) s).txFirstSeenTime.lookup txid = some t) ∧
    ((∀ e1 ∈ pre ++ e :: post, e1.Unlockable txid) → s.txFirstSeenTime.lookup txid = none →
      (runSeen (pre ++ e :: post) s).txFirstSeenTime.lookup txid = none) := by
  refine ⟨seenEvent_step txid e s, ?_, ?_, fun t h => runSeen_keeps txid t _ s h,
    fun hu h => runSeen_unlockable txid _ s hu h⟩
  · intro t h
    unfold SeenEvent.records at h
    by_cases hc : (e.active s && holdsTx e.txs txid) = true
    · rw [if_pos hc] at h
      simp only [Bool.and_eq_true] at hc
      obtain ⟨_, hh⟩ := hc
      unfold holdsTx at hh
      rw [List.any_eq_true] at hh
      obtain ⟨tx, hm, hp⟩ := hh
      simp only [lockable, Bool.and_eq_true, Bool.not_eq_true', Bool.or_eq_false_iff,
        beq_iff_eq] at hp
      refine ⟨Option.some.inj h, tx, hm, hp.2, hp.1.1, ?_⟩
      intro hv
      rw [hv] at hp
      simp at hp
    · rw [if_neg hc] at h; cases h
  · intro t hnone hrec
    rw [runSeen_append, runSeen]
    apply runSeen_keeps
    rw [seenEvent_step, hnone, hrec]
    rfl

/-! ## C28: the map `seenBlockLocks` -/

theorem getBlockTxs_seen (env : Env) (blockHash : uint256) (s : CBlockLocksHandler) :
    (GetBlockTxs env blockHash s).1.seenBlockLocks = s.seenBlockLocks := by
  unfold GetBlockTxs
  cases s.blockTxs.lookup blockHash with
  | some ret => rfl
  | none =>
    dsimp only
    cases env.ReadBlockFromDisk (env.LookupBlockIndex blockHash) with
    | none => rfl
    | some block => rfl

theorem walkChain_seen (env : Env) (pindex : CBlockIndex) (w : CBlockIndex) :
    ∀ s : CBlockLocksHandler,
      (walkChain env pindex w s).1.seenBlockLocks = s.seenBlockLocks := by
  induction w with
  | root ht x =>
    intro s
    unfold walkChain
    split_ifs
    · rfl
    · rfl
    · have hg := getBlockTxs_seen env x s
      split
      · rename_i s1 heq
        rw [heq] at hg
        exact hg
      · rename_i s1 txids heq
        rw [heq] at hg
        split_ifs <;> exact hg
  | node ht x p ih =>
    intro s
    unfold walkChain
    split_ifs
    · rfl
    · rfl
    · have hg := getBlockTxs_seen env x s
      split
      · rename_i s1 heq
        rw [heq] at hg
        rw [ih s1]
        exact hg
      · rename_i s1 txids heq
        rw [heq] at hg
        split_ifs
        · exact hg
        · rw [ih s1]
          exact hg

theorem trySignChainTip_seen (env : Env) (s : CBlockLocksHandler)
    (r : CBlockLocksHandler × List Effect) (h : TrySignChainTip env s = some r) :
    ∃ s1, Cleanup env s = some s1 ∧ r.1.seenBlockLocks = s1.seenBlockLocks := by
  unfold TrySignChainTip at h
  cases hc : Cleanup env s with
  | none => rw [hc] at h; cases h
  | some s1 =>
    refine ⟨s1, rfl, ?_⟩
    rw [hc] at h
    dsimp only at h
    by_cases h1 : (!env.fMasternodeMode) = true
    · rw [if_pos h1] at h; cases h; rfl
    rw [if_neg h1] at h
    by_cases h2 : (!env.IsBlockchainSynced) = true
    · rw [if_pos h2] at h; cases h; rfl
    rw [if_neg h2] at h
    by_cases h3 : (!s1.isEnabled) = true
    · rw [if_pos h3] at h; cases h; rfl
    rw [if_neg h3] at h
    cases ht : env.Tip with
    | none => rw [ht] at h; cases h
    | some pindex =>
      rw [ht] at h
      dsimp only at h
      by_cases h4 : pindex.pprev.isNone = true
      · rw [if_pos h4] at h; cases h; rfl
      rw [if_neg h4] at h
      by_cases h5 : pindex.nHeight = s1.lastSignedHeight
      · rw [if_pos h5] at h; cases h; rfl
      rw [if_neg h5] at h
      by_cases h6 : s1.bestBlockLock.nHeight ≥ pindex.nHeight
      · rw [if_pos h6] at h; cases h; rfl
      rw [if_neg h6] at h
      cases hcf : InternalHasConflictingBlockLock s1 pindex.nHeight pindex.GetBlockHash with
      | none => rw [hcf] at h; cases h
      | some c =>
        rw [hcf] at h
        cases c with
        | true => dsimp only at h; cases h; rfl
        | false =>
          dsimp only at h
          have hw : (if (env.IsInstantSendEnabled &&
                env.RejectConflictingBlocks) = true
              then walkChain env pindex pindex s1 else (s1, true)).1.seenBlockLocks =
                s1.seenBlockLocks := by
            split_ifs
            · exact walkChain_seen env pindex pindex s1
            · rfl
          generalize (if (env.IsInstantSendEnabled && env.RejectConflictingBlocks) = true
              then walkChain env pindex pindex s1 else (s1, true)) = w at h hw
          by_cases h7 : (!w.2) = true
          · rw [if_pos h7] at h; cases h; exact hw
          rw [if_neg h7] at h
          by_cases h8 : w.1.bestBlockLock.nHeight ≥ pindex.nHeight
          · rw [if_pos h8] at h; cases h; exact hw
          rw [if_neg h8] at h
          cases h
          exact hw

theorem lookup_filter_keep {α : Type} (p : uint256 × α → Bool) (k : uint256) (v : α)
    (hp : p (k, v) = true) :
    ∀ m : List (uint256 × α), m.lookup k = some v → (m.filter p).lookup k = some v := by
  intro m
  induction m with
  | nil => intro h; cases h
  | cons e rest ih =>
    obtain ⟨k0, v0⟩ := e
    intro h
    cases hb : (k == k0)
    · simp only [List.lookup, hb] at h
      by_cases hpe : p (k0, v0) = true
      · rw [List.filter_cons_of_pos hpe]
        simp only [List.lookup, hb]
        exact ih h
      · rw [List.filter_cons_of_neg hpe]
        exact ih h
    · simp only [List.lookup, hb, Option.some.injEq] at h
      have hk : k = k0 := by simpa using hb
      subst hk
      subst h
      rw [List.filter_cons_of_pos hp]
      simp [List.lookup]

theorem cleanup_seen (env : Env) (s s1 : CBlockLocksHandler) (h : Cleanup env s = some s1) :
    s1.seenBlockLocks = s.seenBlockLocks ∨
    s1.seenBlockLocks =
      s.seenBlockLocks.filter
        (fun e => !decide (env.GetTimeMillis - e.2 ≥ CLEANUP_SEEN_TIMEOUT)) := by
  unfold Cleanup at h
  by_cases h1 : (!env.IsBlockchainSynced) = true
  · rw [if_pos h1] at h; cases h; exact Or.inl rfl
  rw [if_neg h1] at h
  by_cases h2 : env.GetTimeMillis - s.lastCleanupTime < CLEANUP_INTERVAL
  · rw [if_pos h2] at h; cases h; exact Or.inl rfl
  rw [if_neg h2] at h
  dsimp only at h
  cases hc : cleanupBlockTxs env s s.blockTxs s.txFirstSeenTime with
  | none => rw [hc] at h; cases h
  | some r =>
    rw [hc] at h
    dsimp only at h
    cases hc2 : cleanupTxFirstSeen env r.2 with
    | none => rw [hc2] at h; cases h
    | some m =>
      rw [hc2] at h
      cases h
      exact Or.inr rfl

theorem pnbl_seen (env : Env) (pfrom : NodeId) (blsig : CBlockLockSig) (hash : uint256)
    (s : CBlockLocksHandler) :
    (ProcessNewBlockLock env pfrom blsig hash s).1.seenBlockLocks =
      (emplace s.seenBlockLocks hash env.GetTimeMillis).1 := by
  cases hacc : accepts env blsig hash (CheckActiveState env s)
  · rw [pnbl_state_rejected env pfrom blsig hash s hacc, checkActiveState_seen]
  · rw [pnbl_state_accepted env pfrom blsig hash s hacc]
    cases env.LookupBlockIndex blsig.blockHash with
    | none => dsimp only; rw [checkActiveState_seen]
    | some p =>
      dsimp only
      by_cases hp : p.nHeight = blsig.nHeight
      · rw [if_pos hp]; dsimp only; rw [checkActiveState_seen]
      · rw [if_neg hp]; dsimp only; rw [checkActiveState_seen]

theorem pnbl_seen_lookup (env : Env) (pfrom : NodeId) (blsig : CBlockLockSig)
    (hash w : uint256) (t : Int) (s : CBlockLocksHandler)
    (h : s.seenBlockLocks.lookup w = some t) :
    (ProcessNewBlockLock env pfrom blsig hash s).1.seenBlockLocks.lookup w = some t := by
  rw [pnbl_seen, lookup_emplace, h]
  rfl

theorem call_seen_lookup (w : uint256) (t : Int) (c : Call) (s : CBlockLocksHandler)
    (r : CBlockLocksHandler × List Effect) (hrun : c.run s = some r)
    (hk : c.keepsSeen t = true) (h : s.seenBlockLocks.lookup w = some t) :
    r.1.seenBlockLocks.lookup w = some t := by
  cases c with
  | processMessage env pfrom blsig =>
    simp only [Call.run, Option.some.injEq] at hrun
    subst hrun
    unfold ProcessMessage
    split_ifs
    · exact h
    · exact pnbl_seen_lookup env pfrom blsig _ w t s h
  | processNewBlockLock env pfrom blsig hash =>
    simp only [Call.run, Option.some.injEq] at hrun
    subst hrun
    exact pnbl_seen_lookup env pfrom blsig hash w t s h
  | acceptedBlockHeader pindexNew =>
    simp only [Call.run, Option.some.injEq] at hrun
    subst hrun
    unfold AcceptedBlockHeader
    split_ifs <;> exact h
  | updatedBlockTip =>
    simp only [Call.run, Option.some.injEq] at hrun
    subst hrun
    unfold UpdatedBlockTip
    split_ifs <;> exact h
  | taskDone =>
    simp only [Call.run, Option.some.injEq] at hrun
    subst hrun
    exact h
  | checkActiveState env =>
    simp only [Call.run, Option.some.injEq] at hrun
    subst hrun
    dsimp only
    rw [checkActiveState_seen]
    exact h
  | trySignChainTip env =>
    simp only [Call.run] at hrun
    obtain ⟨s1, hc, hs1⟩ := trySignChainTip_seen env s r hrun
    rw [hs1]
    rcases cleanup_seen env s s1 hc with hcs | hcs
    · rw [hcs]; exact h
    · rw [hcs]
      apply lookup_filter_keep _ _ _ _ _ h
      simp only [Call.keepsSeen, decide_eq_true_eq] at hk
      simp only [ge_iff_le, Bool.not_eq_true', decide_eq_false_iff_not, not_le]
      exact hk
  | transactionAddedToMempool tx nAcceptTime =>
    simp only [Call.run, Option.some.injEq] at hrun
    subst hrun
    unfold TransactionAddedToMempool
    split_ifs <;> exact h
  | blockConnected env pblock pindex =>
    simp only [Call.run, Option.some.injEq] at hrun
    subst hrun
    unfold BlockConnected
    split_ifs <;> exact h
  | blockDisconnected pindexDisconnected =>
    simp only [Call.run, Option.some.injEq] at hrun
    subst hrun
    exact h
  | enforceBestBlockLock env =>
    simp only [Call.run] at hrun
    rcases enforceBestBlockLock_emits env s r hrun with ⟨_, cur, _, _, _, hr, _⟩ | ⟨_, hr, _⟩
    · rw [hr]; exact h
    · rw [hr]; exact h
  | handleNewRecoveredSig env recoveredSig =>
    simp only [Call.run, Option.some.injEq] at hrun
    subst hrun
    rw [recoveredSigCall_run]
    cases recoveredSigCall env recoveredSig s with
    | none => exact h
    | some c => exact pnbl_seen_lookup env _ _ _ w t s h

theorem runCalls_seen_lookup (w : uint256) (t : Int) :
    ∀ (calls : List Call) (s : CBlockLocksHandler) (r : CBlockLocksHandler × List Effect),
      runCalls calls s = some r → (∀ c ∈ calls, c.keepsSeen t = true) →
      s.seenBlockLocks.lookup w = some t → r.1.seenBlockLocks.lookup w = some t := by
  intro calls
  induction calls with
  | nil =>
    intro s r hrun _ h
    simp only [runCalls, Option.some.injEq] at hrun
    subst hrun
    exact h
  | cons c rest ih =>
    intro s r hrun hk h
    unfold runCalls at hrun
    cases hc : c.run s with
    | none => rw [hc] at hrun; cases hrun
    | some r1 =>
      rw [hc] at hrun
      dsimp only at hrun
      cases hr : runCalls rest r1.1 with
      | none => rw [hr] at hrun; cases hrun
      | some r2 =>
        rw [hr] at hrun
        simp only [Option.some.injEq] at hrun
        subst hrun
        exact ih r1.1 r2 hr (fun c1 hc1 => hk c1 (List.mem_cons_of_mem _ hc1))
          (call_seen_lookup w t c s r1 hc (hk c (List.mem_cons_self _ _)) h)

theorem pnbl_duplicate (env : Env) (pfrom : NodeId) (blsig : CBlockLockSig) (w : uint256)
    (s : CBlockLocksHandler) (h : AlreadyHave s w = true) :
    ProcessNewBlockLock env pfrom blsig w s = (CheckActiveState env s, eraseRequest pfrom w) := by
  have hseen := checkActiveState_seen env s
  have ha : AlreadyHave (CheckActiveState env s) w = true := by
    unfold AlreadyHave at h ⊢
    rw [hseen]; exact h
  have hacc : accepts env blsig w (CheckActiveState env s) = false := by
    cases hb : accepts env blsig w (CheckActiveState env s)
    · rfl
    · have := (accepts_iff env blsig w _).1 hb
      rw [ha] at this
      exact absurd this.1 (by decide)
  have hem : emplace (CheckActiveState env s).seenBlockLocks w env.GetTimeMillis =
      ((CheckActiveState env s).seenBlockLocks, false) := by
    unfold emplace
    unfold AlreadyHave at ha
    rw [if_pos ha]
  rw [pnbl_rejected env pfrom blsig w s hacc, hem]
  simp

/-- Counterexample to claim C28 as stated: the handler received `lock1` under
hash 21 before activation and holds it as best lock.  The next call with hash
21 is the first that finds enforcement switched on: it is dropped as a
duplicate and relays nothing, and it clears the lock fields. -/
theorem C28_counterexample :
    AlreadyHave handlerUnenforced1 21 = true ∧
    handlerUnenforced1.bestBlockLock = lock1 ∧
    handlerUnenforced1.bestBlockLockBlockIndex = some block1 ∧
    (ProcessNewBlockLock envActive 3 lock1 21 handlerUnenforced1).1.bestBlockLock = {} ∧
    (ProcessNewBlockLock envActive 3 lock1 21 handlerUnenforced1).1.bestBlockLockBlockIndex
      = none ∧
    lockView (ProcessNewBlockLock envActive 3 lock1 21 handlerUnenforced1).1 ≠
      lockView handlerUnenforced1 ∧
    relayed (ProcessNewBlockLock envActive 3 lock1 21 handlerUnenforced1).2 = [] := by
  decide

/-- Claim C28 (amended): every call of `ProcessNewBlockLock` with hash `w`
leaves an entry for `w` in `seenBlockLocks`, whatever becomes of the lock, and
`CheckActiveState` never touches the map.  The entry, made at time `t`, stays
through every run of calls in which no `TrySignChainTip` finds
`GetTimeMillis() - t >= CLEANUP_SEEN_TIMEOUT`; a later
`ProcessNewBlockLock` with hash `w` is then dropped as a duplicate: the handler
is as the opening `CheckActiveState` leaves it, nothing is relayed and no peer
is penalised, and the lock fields are unchanged unless that call is the one
that switches enforcement on. -/
theorem C28_duplicate_dropped (env0 : Env) (pfrom0 : NodeId) (blsig0 : CBlockLockSig)
    (w : uint256) (s0 : CBlockLocksHandler) (t : Int) (calls : List Call)
    (r : CBlockLocksHandler × List Effect) (env : Env) (pfrom : NodeId)
    (blsig : CBlockLockSig)
    (ht : (ProcessNewBlockLock env0 pfrom0 blsig0 w s0).1.seenBlockLocks.lookup w = some t)
    (hkeep : ∀ c ∈ calls, c.keepsSeen t = true)
    (hrun : runCalls calls (ProcessNewBlockLock env0 pfrom0 blsig0 w s0).1 = some r) :
    AlreadyHave (ProcessNewBlockLock env0 pfrom0 blsig0 w s0).1 w = true ∧
    (AlreadyHave s0 w = false → t = env0.GetTimeMillis) ∧
    (CheckActiveState env r.1).seenBlockLocks = r.1.seenBlockLocks ∧
    AlreadyHave r.1 w = true ∧
    ProcessNewBlockLock env pfrom blsig w r.1 =
      (CheckActiveState env r.1, eraseRequest pfrom w) ∧
    relayed (ProcessNewBlockLock env pfrom blsig w r.1).2 = [] ∧
    (∀ p, misbehaviour p (ProcessNewBlockLock env pfrom blsig w r.1).2 = 0) ∧
    (resets env r.1 = false →
      lockView (ProcessNewBlockLock env pfrom blsig w r.1).1 = lockView r.1) := by
  have hr := runCalls_seen_lookup w t calls _ r hrun hkeep ht
  have ha : AlreadyHave r.1 w = true := by
    unfold AlreadyHave; rw [hr]; rfl
  have hd := pnbl_duplicate env pfrom blsig w r.1 ha
  refine ⟨?_, ?_, checkActiveState_seen env r.1, ha, hd, ?_, ?_, ?_⟩
  · unfold AlreadyHave; rw [ht]; rfl
  · intro hn
    rw [pnbl_seen, lookup_emplace] at ht
    unfold AlreadyHave at hn
    cases hl : s0.seenBlockLocks.lookup w with
    | some v => rw [hl] at hn; cases hn
    | none =>
      rw [hl] at ht
      simp at ht
      exact ht.symm
  · rw [hd]
    have := relayed_eraseRequest pfrom w []
    simpa using this
  · intro p
    rw [hd]
    have := misbehaviour_eraseRequest p pfrom w []
    simpa using this
  · intro hres
    rw [hd, checkActiveState_of_not_resets env r.1 hres]
    rfl

/-- Claim C28 on a run: `lock1` arrives under hash 21 at time 0; a header is
accepted, the masternode tries to sign, enforcement runs; the lock sent again
under hash 21 is dropped. -/
theorem C28_duplicate_dropped_witness :
    runCalls callsAfterLock1 handlerLocked1 = some afterLock1 ∧
    ProcessNewBlockLock envActive 4 lock1 21 afterLock1.1 =
      (CheckActiveState envActive afterLock1.1, eraseRequest 4 21) ∧
    lockView (ProcessNewBlockLock envActive 4 lock1 21 afterLock1.1).1 =
      lockView afterLock1.1 :=
  have h := C28_duplicate_dropped envActive 3 lock1 21 initialHandler 0 callsAfterLock1
    afterLock1 envActive 4 lock1 (by decide) (by decide) (by decide)
  ⟨by decide, h.2.2.2.2.1, h.2.2.2.2.2.2.2 (by decide)⟩

/-! ## C27: the pair of the best lock with known block and its index -/

theorem knownPair_of_lockView (a b : CBlockLocksHandler) (hv : lockView a = lockView b)
    (h : KnownPair b) : KnownPair a := by
  unfold lockView at hv
  simp only [Prod.mk.injEq] at hv
  obtain ⟨_, _, hk, hi⟩ := hv
  unfold KnownPair at h ⊢
  rw [hk, hi]
  exact h

theorem knownPair_checkActiveState (env : Env) (s : CBlockLocksHandler) (h : KnownPair s) :
    KnownPair (CheckActiveState env s) := by
  cases hres : resets env s
  · rw [checkActiveState_of_not_resets env s hres]; exact h
  · rw [checkActiveState_of_resets env s hres]; exact Or.inl ⟨rfl, rfl⟩

theorem knownPair_pnbl (env : Env) (hidx : IndexOK env.LookupBlockIndex) (pfrom : NodeId)
    (blsig : CBlockLockSig) (hash : uint256) (s : CBlockLocksHandler) (h : KnownPair s) :
    KnownPair (ProcessNewBlockLock env pfrom blsig hash s).1 := by
  have h1 := knownPair_checkActiveState env s h
  cases hacc : accepts env blsig hash (CheckActiveState env s)
  · rw [pnbl_state_rejected env pfrom blsig hash s hacc]
    exact h1
  · rw [pnbl_state_accepted env pfrom blsig hash s hacc]
    cases hl : env.LookupBlockIndex blsig.blockHash with
    | none => exact h1
    | some p =>
      dsimp only
      by_cases hp : p.nHeight = blsig.nHeight
      · rw [if_pos hp]
        exact Or.inr ⟨p, rfl, hp, (hidx _ _ hl).1, (hidx _ _ hl).2⟩
      · rw [if_neg hp]
        exact h1

theorem signalled_eraseRequest (pfrom : NodeId) (hash : uint256) (fx : List Effect) :
    signalled (eraseRequest pfrom hash ++ fx) = signalled fx := by
  unfold eraseRequest
  split_ifs <;> simp [signalled]

theorem pnbl_signalled (env : Env) (pfrom : NodeId) (blsig : CBlockLockSig) (hash : uint256)
    (s : CBlockLocksHandler) :
    signalled (ProcessNewBlockLock env pfrom blsig hash s).2 = [] := by
  cases hacc : accepts env blsig hash (CheckActiveState env s)
  · rw [pnbl_rejected env pfrom blsig hash s hacc, signalled_eraseRequest]
    split_ifs <;> rfl
  · rw [pnbl_accepted env pfrom blsig hash s hacc]
    have h0 := signalled_eraseRequest pfrom hash []
    rw [List.append_nil] at h0
    cases env.LookupBlockIndex blsig.blockHash with
    | none => dsimp only; rw [signalled_eraseRequest]; rfl
    | some p =>
      dsimp only
      split_ifs
      · rw [signalled_eraseRequest]; rfl
      · exact h0

theorem signalled_append (a b : List Effect) :
    signalled (a ++ b) = signalled a ++ signalled b := by
  induction a with
  | nil => rfl
  | cons e rest ih =>
    cases e <;> simp [signalled, ih]

theorem knownPair_step (c : Call) (hc : c.IndexSound) (s : CBlockLocksHandler)
    (r : CBlockLocksHandler × List Effect) (hr : c.run s = some r) (h : KnownPair s) :
    KnownPair r.1 ∧ ∀ e ∈ signalled r.2, Agree e := by
  cases c with
  | processMessage env pfrom blsig =>
    simp only [Call.run, Option.some.injEq] at hr
    subst hr
    unfold ProcessMessage
    split_ifs
    · exact ⟨h, fun e he => absurd he (List.not_mem_nil e)⟩
    · refine ⟨knownPair_pnbl env hc pfrom blsig _ s h, ?_⟩
      rw [pnbl_signalled]
      exact fun e he => absurd he (List.not_mem_nil e)
  | processNewBlockLock env pfrom blsig hash =>
    simp only [Call.run, Option.some.injEq] at hr
    subst hr
    refine ⟨knownPair_pnbl env hc pfrom blsig hash s h, ?_⟩
    rw [pnbl_signalled]
    exact fun e he => absurd he (List.not_mem_nil e)
  | acceptedBlockHeader pindexNew =>
    simp only [Call.run, Option.some.injEq] at hr
    subst hr
    refine ⟨?_, fun e he => absurd he (List.not_mem_nil e)⟩
    dsimp only
    unfold AcceptedBlockHeader
    by_cases h1 : pindexNew.GetBlockHash = s.bestBlockLock.blockHash
    · rw [if_pos h1]
      by_cases h2 : s.bestBlockLock.nHeight ≠ pindexNew.nHeight
      · rw [if_pos h2]; exact h
      · rw [if_neg h2]
        have h3 : s.bestBlockLock.nHeight = pindexNew.nHeight := by
          by_contra hne; exact h2 hne
        exact Or.inr ⟨pindexNew, rfl, h3.symm, h1, hc⟩
    · rw [if_neg h1]; exact h
  | updatedBlockTip =>
    simp only [Call.run, Option.some.injEq] at hr
    subst hr
    unfold UpdatedBlockTip
    split_ifs
    · exact ⟨h, fun e he => by simp [signalled] at he⟩
    · exact ⟨h, fun e he => absurd he (List.not_mem_nil e)⟩
  | taskDone =>
    simp only [Call.run, Option.some.injEq] at hr
    subst hr
    exact ⟨h, fun e he => absurd he (List.not_mem_nil e)⟩
  | checkActiveState env =>
    simp only [Call.run, Option.some.injEq] at hr
    subst hr
    exact ⟨knownPair_checkActiveState env s h, fun e he => absurd he (List.not_mem_nil e)⟩
  | trySignChainTip env =>
    simp only [Call.run] at hr
    refine ⟨knownPair_of_lockView _ _ (trySignChainTip_lockView env s r hr) h, ?_⟩
    rcases trySignChainTip_cases env s r hr with ⟨hfx, _⟩ | ⟨tip, _, hfx, _⟩
    · rw [hfx]; exact fun e he => absurd he (List.not_mem_nil e)
    · rw [hfx]; exact fun e he => by simp [signalled] at he
  | transactionAddedToMempool tx nAcceptTime =>
    simp only [Call.run, Option.some.injEq] at hr
    subst hr
    refine ⟨?_, fun e he => absurd he (List.not_mem_nil e)⟩
    dsimp only
    unfold TransactionAddedToMempool
    split_ifs <;> exact h
  | blockConnected env pblock pindex =>
    simp only [Call.run, Option.some.injEq] at hr
    subst hr
    refine ⟨?_, fun e he => absurd he (List.not_mem_nil e)⟩
    dsimp only
    unfold BlockConnected
    split_ifs <;> exact h
  | blockDisconnected pindexDisconnected =>
    simp only [Call.run, Option.some.injEq] at hr
    subst hr
    exact ⟨h, fun e he => absurd he (List.not_mem_nil e)⟩
  | enforceBestBlockLock env =>
    simp only [Call.run] at hr
    refine ⟨knownPair_of_lockView _ _ (enforceBestBlockLock_lockView env s r hr) h, ?_⟩
    rcases enforceBestBlockLock_emits env s r hr with
      ⟨_, cur, hb, _, _, _, hsig, _⟩ | ⟨_, _, hsig, _⟩
    · rw [hsig]
      intro e he
      simp only [List.mem_singleton] at he
      subst he
      rcases h with ⟨hn, _⟩ | ⟨b, hb2, hh, hx, _⟩
      · rw [hn] at hb; cases hb
      · rw [hb2] at hb
        cases hb
        exact ⟨hh, hx⟩
    · rw [hsig]; exact fun e he => absurd he (List.not_mem_nil e)
  | handleNewRecoveredSig env recoveredSig =>
    simp only [Call.run, Option.some.injEq] at hr
    subst hr
    rw [recoveredSigCall_run]
    cases recoveredSigCall env recoveredSig s with
    | none => exact ⟨h, fun e he => absurd he (List.not_mem_nil e)⟩
    | some c =>
      refine ⟨knownPair_pnbl env hc _ _ _ s h, ?_⟩
      dsimp only
      rw [pnbl_signalled]
      exact fun e he => absurd he (List.not_mem_nil e)

theorem knownPair_run :
    ∀ (calls : List Call) (s : CBlockLocksHandler) (r : CBlockLocksHandler × List Effect),
      (∀ c ∈ calls, c.IndexSound) → runCalls calls s = some r → KnownPair s →
      KnownPair r.1 ∧ ∀ e ∈ signalled r.2, Agree e := by
  intro calls
  induction calls with
  | nil =>
    intro s r _ hrun h
    simp only [runCalls, Option.some.injEq] at hrun
    subst hrun
    exact ⟨h, fun e he => absurd he (List.not_mem_nil e)⟩
  | cons c rest ih =>
    intro s r hs hrun h
    unfold runCalls at hrun
    cases hc : c.run s with
    | none => rw [hc] at hrun; cases hrun
    | some r1 =>
      rw [hc] at hrun
      dsimp only at hrun
      cases hr : runCalls rest r1.1 with
      | none => rw [hr] at hrun; cases hrun
      | some r2 =>
        rw [hr] at hrun
        simp only [Option.some.injEq] at hrun
        subst hrun
        have h1 := knownPair_step c (hs c (List.mem_cons_self _ _)) s r1 hc h
        have h2 := ih r1.1 r2 (fun c1 hc1 => hs c1 (List.mem_cons_of_mem _ hc1)) hr h1.1
        refine ⟨h2.1, ?_⟩
        intro e he
        dsimp only at he
        rw [signalled_append, List.mem_append] at he
        rcases he with he | he
        · exact h1.2 e he
        · exact h2.2 e he

theorem indexSound_runTwoLocks : ∀ c ∈ runTwoLocks, c.IndexSound := by
  intro c hc
  simp only [runTwoLocks, List.mem_cons, List.mem_singleton, List.not_mem_nil, or_false] at hc
  rcases hc with rfl | rfl | rfl | rfl | rfl | rfl
  · exact indexOK_envActive
  · trivial
  · trivial
  · exact indexOK_envActive
  · trivial
  · trivial

/-- Claim C27: in every state that a run of calls reaches from the handler as
constructed, where the index entries the calls meet carry the hash asked for
and a height from 0 on, the index of the best lock is set if and only if the
best lock with known block is not null, and the index then has the height and
the hash of that lock; and in every notification the run emits the index and
the lock agree on height and hash. -/
theorem C27_known_block_pair (calls : List Call) (r : CBlockLocksHandler × List Effect)
    (hsound : ∀ c ∈ calls, c.IndexSound)
    (hrun : runCalls calls initialHandler = some r) :
    (r.1.bestBlockLockBlockIndex.isSome = true ↔
      r.1.bestBlockLockWithKnownBlock.IsNull = false) ∧
    (∀ b, r.1.bestBlockLockBlockIndex = some b →
      b.nHeight = r.1.bestBlockLockWithKnownBlock.nHeight ∧
      b.GetBlockHash = r.1.bestBlockLockWithKnownBlock.blockHash) ∧
    (∀ e ∈ signalled r.2, e.1.nHeight = e.2.nHeight ∧ e.1.GetBlockHash = e.2.blockHash) := by
  have hinit : KnownPair initialHandler := Or.inl ⟨rfl, rfl⟩
  obtain ⟨hk, hsig⟩ := knownPair_run calls initialHandler r hsound hrun hinit
  refine ⟨?_, ?_, hsig⟩
  · rcases hk with ⟨hn, hd⟩ | ⟨b, hb, hh, _, h0⟩
    · rw [hn, hd]
      decide
    · rw [hb]
      simp only [Option.isSome_some, true_iff]
      cases hnull : r.1.bestBlockLockWithKnownBlock.IsNull
      · rfl
      · have := isNull_nHeight _ hnull
        omega
  · intro b hb
    rcases hk with ⟨hn, _⟩ | ⟨b2, hb2, hh, hx, _⟩
    · rw [hn] at hb; cases hb
    · rw [hb2] at hb
      cases hb
      exact ⟨hh, hx⟩

/-- Claim C27 on a run: after the locks for `block1` and `block2` arrived and
were enforced, the index of the best lock is `block2` and the lock is `lock2`;
the two notifications carry `block1` with `lock1` and `block2` with `lock2`. -/
theorem C27_known_block_pair_witness :
    runCalls runTwoLocks initialHandler = some afterTwoLocks ∧
    afterTwoLocks.1.bestBlockLockBlockIndex = some block2 ∧
    afterTwoLocks.1.bestBlockLockWithKnownBlock = lock2 ∧
    signalled afterTwoLocks.2 = [(block1, lock1), (block2, lock2)] ∧
    (afterTwoLocks.1.bestBlockLockBlockIndex.isSome = true ↔
      afterTwoLocks.1.bestBlockLockWithKnownBlock.IsNull = false) :=
  ⟨by decide, by decide, by decide, by decide,
    (C27_known_block_pair runTwoLocks afterTwoLocks indexSound_runTwoLocks (by decide)).1⟩

/-! ## C23: the safety walk -/

theorem hasBlockLock_coreView (a b : CBlockLocksHandler) (h : coreView a = coreView b)
    (ht : Int) (x : uint256) : HasBlockLock a ht x = HasBlockLock b ht x := by
  have hf := (coreView_eq_iff a b).1 h
  unfold HasBlockLock InternalHasBlockLock
  rw [hf.2.2.1, hf.2.2.2.2.2.2.1]

theorem walked_coreView (a b : CBlockLocksHandler) (h : coreView a = coreView b)
    (pindex w : CBlockIndex) : walked a pindex w = walked b pindex w := by
  unfold walked
  congr 1
  funext c
  rw [hasBlockLock_coreView a b h]

theorem any_txBlocksSigning (env : Env) (s : CBlockLocksHandler) (txids : List uint256) :
    txids.any (txBlocksSigning env s) = !txids.all (txSafe env s) := by
  induction txids with
  | nil => rfl
  | cons t rest ih =>
    rw [List.any_cons, List.all_cons, ih]
    have : txBlocksSigning env s t = !txSafe env s t := by
      unfold txBlocksSigning txSafe firstSeenAge
      dsimp only
      cases env.IsLocked t <;>
        by_cases hh : (match s.txFirstSeenTime.lookup t with
            | some t1 => wrapInt64 (env.GetAdjustedTime - t1)
            | none => 0) < WAIT_FOR_ISLOCK_TIMEOUT <;>
        simp [hh, not_le.mpr, not_lt.mp]
    rw [this]
    cases txSafe env s t <;> simp

theorem walked_root (s : CBlockLocksHandler) (pindex : CBlockIndex) (ht : Int) (x : uint256) :
    walked s pindex (.root ht x) =
      if (decide (pindex.nHeight - ht ≤ 5) && !HasBlockLock s ht x) = true
      then [.root ht x] else [] := by
  unfold walked CBlockIndex.chain
  rw [List.takeWhile_cons]
  rfl

theorem walked_node (s : CBlockLocksHandler) (pindex : CBlockIndex) (ht : Int) (x : uint256)
    (p : CBlockIndex) :
    walked s pindex (.node ht x p) =
      if (decide (pindex.nHeight - ht ≤ 5) && !HasBlockLock s ht x) = true
      then .node ht x p :: walked s pindex p else [] := by
  unfold walked
  rw [CBlockIndex.chain, List.takeWhile_cons]
  rfl

theorem walkBlocks_cons (env : Env) (b : CBlockIndex) (rest : List CBlockIndex)
    (s : CBlockLocksHandler) :
    walkBlocks env (b :: rest) s =
      if ((GetBlockTxs env b.GetBlockHash s).2.getD []).all
          (txSafe env (GetBlockTxs env b.GetBlockHash s).1) = true
      then walkBlocks env rest (GetBlockTxs env b.GetBlockHash s).1
      else ((GetBlockTxs env b.GetBlockHash s).1, false) := by
  rw [walkBlocks]
  rcases GetBlockTxs env b.GetBlockHash s with ⟨s1, _ | txids⟩
  · simp
  · rfl

theorem walkChain_eq_walkBlocks (env : Env) (pindex : CBlockIndex) (w : CBlockIndex) :
    ∀ s : CBlockLocksHandler,
      walkChain env pindex w s = walkBlocks env (walked s pindex w) s := by
  induction w with
  | root ht x =>
    intro s
    rw [walked_root]
    unfold walkChain
    by_cases h1 : pindex.nHeight - ht > 5
    · rw [if_pos h1]
      have : ¬ (pindex.nHeight - ht ≤ 5) := by omega
      rw [if_neg (by simp [this])]
      rfl
    rw [if_neg h1]
    have h1a : pindex.nHeight - ht ≤ 5 := by omega
    by_cases h2 : HasBlockLock s ht x = true
    · rw [if_pos h2, if_neg (by simp [h2])]
      rfl
    rw [if_neg h2]
    have h2a : HasBlockLock s ht x = false := by simpa using h2
    rw [if_pos (by simp [h1a, h2a]), walkBlocks_cons]
    show _ = if ((GetBlockTxs env x s).2.getD []).all (txSafe env (GetBlockTxs env x s).1) = true
      then walkBlocks env [] (GetBlockTxs env x s).1 else ((GetBlockTxs env x s).1, false)
    rcases GetBlockTxs env x s with ⟨s1, _ | txids⟩
    · simp [walkBlocks]
    · simp only [Option.getD_some]
      rw [any_txBlocksSigning]
      cases txids.all (txSafe env s1) <;> simp [walkBlocks]
  | node ht x p ih =>
    intro s
    rw [walked_node]
    unfold walkChain
    by_cases h1 : pindex.nHeight - ht > 5
    · rw [if_pos h1]
      have : ¬ (pindex.nHeight - ht ≤ 5) := by omega
      rw [if_neg (by simp [this])]
      rfl
    rw [if_neg h1]
    have h1a : pindex.nHeight - ht ≤ 5 := by omega
    by_cases h2 : HasBlockLock s ht x = true
    · rw [if_pos h2, if_neg (by simp [h2])]
      rfl
    rw [if_neg h2]
    have h2a : HasBlockLock s ht x = false := by simpa using h2
    rw [if_pos (by simp [h1a, h2a]), walkBlocks_cons]
    show _ = if ((GetBlockTxs env x s).2.getD []).all (txSafe env (GetBlockTxs env x s).1) = true
      then walkBlocks env (walked s pindex p) (GetBlockTxs env x s).1
      else ((GetBlockTxs env x s).1, false)
    have hcore := getBlockTxs_coreView env x s
    rw [← walked_coreView _ s hcore pindex p]
    rcases GetBlockTxs env x s with ⟨s1, _ | txids⟩
    · dsimp only
      rw [ih s1]
      simp
    · simp only [Option.getD_some]
      rw [any_txBlocksSigning, ih s1]
      cases txids.all (txSafe env s1) <;> simp

theorem walked_eq_take (s : CBlockLocksHandler) (tip : CBlockIndex) (w : CBlockIndex) :
    w.WellFormed → ∀ k : Nat, tip.nHeight - w.nHeight = 6 - (k : Int) →
      walked s tip w =
        (w.chain.take k).takeWhile (fun b => !HasBlockLock s b.nHeight b.GetBlockHash) := by
  induction w with
  | root ht x =>
    intro _ k hk
    rw [walked_root]
    have hk1 : tip.nHeight - ht = 6 - (k : Int) := hk
    cases k with
    | zero =>
      have : ¬ (tip.nHeight - ht ≤ 5) := by omega
      rw [if_neg (by simp [this])]
      rfl
    | succ k1 =>
      have h5 : tip.nHeight - ht ≤ 5 := by omega
      simp only [CBlockIndex.chain, List.take_succ_cons, List.take_nil, List.takeWhile_cons,
        List.takeWhile_nil, h5, decide_True, Bool.true_and]
      rfl
  | node ht x p ih =>
    intro hwf k hk
    rw [walked_node]
    have hk1 : tip.nHeight - ht = 6 - (k : Int) := hk
    obtain ⟨hht, hp⟩ := hwf
    cases k with
    | zero =>
      have : ¬ (tip.nHeight - ht ≤ 5) := by omega
      rw [if_neg (by simp [this])]
      rfl
    | succ k1 =>
      have h5 : tip.nHeight - ht ≤ 5 := by omega
      have hih := ih hp k1 (by omega)
      rw [hih]
      simp only [CBlockIndex.chain, List.take_succ_cons, List.takeWhile_cons, h5, decide_True,
        Bool.true_and]
      rfl

theorem walked_eq_inspected (s : CBlockLocksHandler) (tip : CBlockIndex)
    (hwf : tip.WellFormed) : walked s tip tip = inspected s tip := by
  unfold inspected
  exact walked_eq_take s tip tip hwf 6 (by simp)

theorem walked_depth (s : CBlockLocksHandler) (tip w b : CBlockIndex)
    (hb : b ∈ walked s tip w) :
    tip.nHeight - b.nHeight ≤ 5 ∧ HasBlockLock s b.nHeight b.GetBlockHash = false ∧
      b ∈ w.chain := by
  unfold walked at hb
  have h1 := List.mem_takeWhile_imp hb
  simp only [Bool.and_eq_true, decide_eq_true_eq, Bool.not_eq_true'] at h1
  exact ⟨h1.1, h1.2, (List.takeWhile_sublist _).subset hb⟩

theorem walkSafe_cons (env : Env) (b : CBlockIndex) (rest : List CBlockIndex)
    (s : CBlockLocksHandler) :
    WalkSafe env (b :: rest) s ↔
      (∀ txids, (GetBlockTxs env b.GetBlockHash s).2 = some txids →
        ∀ txid ∈ txids, txSafe env (GetBlockTxs env b.GetBlockHash s).1 txid = true) ∧
      WalkSafe env rest (GetBlockTxs env b.GetBlockHash s).1 := by
  constructor
  · intro h
    refine ⟨h [] b rest rfl, ?_⟩
    intro pre b1 post hr
    exact h (b :: pre) b1 post (by rw [hr]; rfl)
  · rintro ⟨h1, h2⟩ pre b1 post hr
    cases pre with
    | nil =>
      simp only [List.nil_append, List.cons.injEq] at hr
      obtain ⟨hb, _⟩ := hr
      subst hb
      exact h1
    | cons p pre1 =>
      simp only [List.cons_append, List.cons.injEq] at hr
      obtain ⟨hb, hr1⟩ := hr
      subst hb
      exact h2 pre1 b1 post hr1

theorem walkBlocks_true_iff (env : Env) :
    ∀ (blocks : List CBlockIndex) (s : CBlockLocksHandler),
      (walkBlocks env blocks s).2 = true ↔ WalkSafe env blocks s := by
  intro blocks
  induction blocks with
  | nil =>
    intro s
    simp only [walkBlocks, true_iff]
    intro pre b post h
    simp at h
  | cons b rest ih =>
    intro s
    rw [walkBlocks_cons, walkSafe_cons, ← ih]
    rcases GetBlockTxs env b.GetBlockHash s with ⟨s1, _ | txids⟩
    · simp
    · simp only [Option.getD_some, Option.some.injEq, forall_eq']
      by_cases hall : txids.all (txSafe env s1) = true
      · rw [if_pos hall]
        rw [List.all_eq_true] at hall
        exact ⟨fun h => ⟨hall, h⟩, fun h => h.2⟩
      · rw [if_neg hall]
        rw [List.all_eq_true] at hall
        simp only [Bool.false_eq_true, false_iff, not_and]
        exact fun h => absurd h hall

theorem trySignChainTip_walk (env : Env) (s s1 : CBlockLocksHandler) (tip : CBlockIndex)
    (hclean : Cleanup env s = some s1) (htip : env.Tip = some tip)
    (his : env.IsInstantSendEnabled = true) (hrej : env.RejectConflictingBlocks = true)
    (hm : env.fMasternodeMode = true) (hsync : env.IsBlockchainSynced = true)
    (hen : s.isEnabled = true) (hprev : tip.pprev ≠ none)
    (hne : tip.nHeight ≠ s.lastSignedHeight) (hlt : s.bestBlockLock.nHeight < tip.nHeight)
    (hconf : HasConflictingBlockLock s tip.nHeight tip.GetBlockHash = some false) :
    TrySignChainTip env s = some
      (if (walkChain env tip tip s1).2 = true then
        ({ (walkChain env tip tip s1).1 with
            lastSignedHeight := tip.nHeight,
            lastSignedRequestId := env.SerializeHashRequestId tip.nHeight,
            lastSignedMsgHash := tip.GetBlockHash },
         [Effect.AsyncSignIfMember env.llmqTypeBlockLocks
            (env.SerializeHashRequestId tip.nHeight) tip.GetBlockHash])
       else ((walkChain env tip tip s1).1, [])) := by
  have hf := (coreView_eq_iff s1 s).1 (cleanup_coreView env s s1 hclean)
  have hw := (coreView_eq_iff _ _).1 (walkChain_coreView env tip tip s1)
  have h3 : ¬ (!s1.isEnabled) = true := by rw [hf.2.1, hen]; decide
  have h4 : ¬ tip.pprev.isNone = true := by
    cases hp : tip.pprev with
    | none => exact absurd hp hprev
    | some p => simp
  have h5 : ¬ tip.nHeight = s1.lastSignedHeight := by
    rw [hf.2.2.2.2.2.2.2.2.1]; exact hne
  have h6 : ¬ s1.bestBlockLock.nHeight ≥ tip.nHeight := by
    rw [hf.2.2.2.2.1]; omega
  have hcf : InternalHasConflictingBlockLock s1 tip.nHeight tip.GetBlockHash = some false := by
    unfold HasConflictingBlockLock InternalHasConflictingBlockLock at hconf
    unfold InternalHasConflictingBlockLock
    rw [hf.2.2.1, hf.2.2.2.2.2.2.1]
    exact hconf
  have h8 : ¬ (walkChain env tip tip s1).1.bestBlockLock.nHeight ≥ tip.nHeight := by
    rw [hw.2.2.2.2.1]; exact h6
  unfold TrySignChainTip
  rw [hclean]
  dsimp only
  rw [if_neg (by rw [hm]; decide), if_neg (by rw [hsync]; decide), if_neg h3, htip]
  dsimp only
  rw [if_neg h4, if_neg h5, if_neg h6, hcf]
  dsimp only
  rw [his, hrej, if_pos (show (true && true) = true from rfl)]
  by_cases h7 : (walkChain env tip tip s1).2 = true
  · rw [if_neg (by rw [h7]; decide), if_neg h8, if_pos h7]
  · rw [if_pos (by simpa using h7), if_neg h7]

/-- The recovered signature for the request the masternode signed is passed on
as the lock for `block2`, from the handler itself; before the masternode
signed, the same recovered signature is dropped. -/
theorem recoveredSigCall_example :
    recoveredSigCall envActive recovered2 signedTip2.1 =
      some (-1, lock2, envActive.SerializeHash lock2) ∧
    recoveredSigCall envActive recovered2 handlerLocked1 = none ∧
    HandleNewRecoveredSig envActive recovered2 handlerLocked1 = (handlerLocked1, []) := by
  decide

/-- On the synchronised masternode `BlockConnected` makes the entry for a block
that holds a coinbase only, and the entry is empty; `BlockDisconnected` removes
it again. -/
theorem blockConnected_example :
    (BlockConnected envSigner blockCoinbaseOnly block2 initialHandler).blockTxs.lookup
      block2.GetBlockHash = some [] ∧
    (BlockDisconnected block2
      (BlockConnected envSigner blockCoinbaseOnly block2 initialHandler)).blockTxs = [] := by
  decide

/-! ## C17: the request id on signing and on verification, and what the
verification decides -/

theorem getBlockTxs_result (env : Env) (h : uint256) (s : CBlockLocksHandler) :
    (GetBlockTxs env h s).2 =
      (s.blockTxs.lookup h).or ((diskBlock env h).map (fun block => diskTxs block.vtx [])) := by
  unfold GetBlockTxs diskBlock
  cases s.blockTxs.lookup h with
  | some ret => rfl
  | none =>
    dsimp only
    cases env.ReadBlockFromDisk (env.LookupBlockIndex h) with
    | none => rfl
    | some block => rfl

theorem getBlockTxs_blockTxs (env : Env) (h k : uint256) (s : CBlockLocksHandler) :
    (GetBlockTxs env h s).1.blockTxs.lookup k =
      (s.blockTxs.lookup k).or
        (if k = h then (diskBlock env h).map (fun block => diskTxs block.vtx []) else none) := by
  unfold GetBlockTxs diskBlock
  cases hl : s.blockTxs.lookup h with
  | some ret =>
    dsimp only
    by_cases hk : k = h
    · subst hk; rw [hl]; rfl
    · rw [if_neg hk]; simp
  | none =>
    dsimp only
    cases env.ReadBlockFromDisk (env.LookupBlockIndex h) with
    | none =>
      dsimp only
      by_cases hk : k = h
      · rw [if_pos hk]; simp
      · rw [if_neg hk]; simp
    | some block =>
      dsimp only
      rw [lookup_emplace]
      rfl

theorem holdsTx_iff (vtx : List CTransaction) (x : uint256) :
    holdsTx vtx x = true ↔
      ∃ tx ∈ vtx, tx.IsCoinBase = false ∧ tx.vin ≠ [] ∧ tx.hash = x := by
  unfold holdsTx
  rw [List.any_eq_true]
  constructor
  · rintro ⟨tx, hm, hp⟩
    simp only [lockable, Bool.and_eq_true, Bool.not_eq_true', Bool.or_eq_false_iff,
      beq_iff_eq] at hp
    refine ⟨tx, hm, hp.1.1, ?_, hp.2⟩
    intro hv
    rw [hv] at hp
    simp at hp
  · rintro ⟨tx, hm, hc, hv, hx⟩
    refine ⟨tx, hm, ?_⟩
    have : tx.vin.isEmpty = false := by
      cases hvin : tx.vin with
      | nil => exact absurd hvin hv
      | cons a l => rfl
    simp [lockable, hc, this, hx]

theorem getBlockTxs_firstSeen (env : Env) (b : CBlockIndex) (txid : uint256)
    (s : CBlockLocksHandler) :
    (GetBlockTxs env b.GetBlockHash s).1.txFirstSeenTime.lookup txid =
      (s.txFirstSeenTime.lookup txid).or (diskRecord env s b txid) := by
  unfold GetBlockTxs diskRecord diskBlock
  cases hl : s.blockTxs.lookup b.GetBlockHash with
  | some ret => simp
  | none =>
    dsimp only
    cases hd : env.ReadBlockFromDisk (env.LookupBlockIndex b.GetBlockHash) with
    | none => simp
    | some block =>
      dsimp only
      rw [lookup_foldl_emplace]
      have hm := mem_diskTxs txid block.vtx []
      simp only [List.not_mem_nil, false_or] at hm
      by_cases hh : holdsTx block.vtx txid = true
      · rw [if_pos (hm.2 hh), if_pos hh]
      · rw [if_neg (fun hc => hh (hm.1 hc)), if_neg hh]

theorem backfilled_snoc (env : Env) (pre : List CBlockIndex) (b : CBlockIndex)
    (s : CBlockLocksHandler) :
    backfilled env (pre ++ [b]) s = (GetBlockTxs env b.GetBlockHash (backfilled env pre s)).1 := by
  unfold backfilled
  rw [List.foldl_append]
  rfl

theorem diskSeen_append (env : Env) (s : CBlockLocksHandler) (txid : uint256) :
    ∀ a b : List CBlockIndex,
      diskSeen env s (a ++ b) txid = (diskSeen env s a txid).or (diskSeen env s b txid) := by
  intro a
  induction a with
  | nil => intro b; rfl
  | cons c rest ih =>
    intro b
    rw [List.cons_append, diskSeen, diskSeen, ih]
    cases diskRecord env s c txid <;> rfl

theorem diskSeen_none (env : Env) (s : CBlockLocksHandler) (txid : uint256) :
    ∀ pre : List CBlockIndex, diskSeen env s pre txid = none →
      ∀ c ∈ pre, diskRecord env s c txid = none := by
  intro pre
  induction pre with
  | nil => intro _ c hc; exact absurd hc (List.not_mem_nil c)
  | cons d rest ih =>
    intro h c hc
    rw [diskSeen] at h
    cases hd : diskRecord env s d txid with
    | some t => rw [hd] at h; cases h
    | none =>
      rw [hd] at h
      rcases List.mem_cons.1 hc with rfl | hc1
      · exact hd
      · exact ih h c hc1

theorem backfilled_blockTxs (env : Env) (s : CBlockLocksHandler) (k : uint256) :
    ∀ pre : List CBlockIndex,
      (backfilled env pre s).blockTxs.lookup k =
        (s.blockTxs.lookup k).or
          (if pre.any (fun b => b.GetBlockHash == k) = true
            then (diskBlock env k).map (fun block => diskTxs block.vtx []) else none) := by
  intro pre
  induction pre using List.reverseRecOn with
  | nil => simp [backfilled]
  | append_singleton pre b ih =>
    rw [backfilled_snoc, getBlockTxs_blockTxs, ih]
    cases s.blockTxs.lookup k with
    | some v => rfl
    | none =>
      simp only [Option.none_or, List.any_append, List.any_cons, List.any_nil, Bool.or_false,
        Bool.or_eq_true, beq_iff_eq]
      by_cases hp : pre.any (fun b => b.GetBlockHash == k) = true
      · rw [if_pos hp, if_pos (Or.inl hp)]
        by_cases hk : k = b.GetBlockHash
        · subst hk
          rw [if_pos rfl]
          cases (diskBlock env b.GetBlockHash).map (fun block => diskTxs block.vtx []) <;> rfl
        · rw [if_neg hk]
          simp
      · rw [if_neg hp]
        by_cases hk : k = b.GetBlockHash
        · subst hk
          rw [if_pos rfl, if_pos (Or.inr rfl)]
          rfl
        · rw [if_neg hk, if_neg]
          · rfl
          · rintro (hc | hc)
            · exact hp hc
            · exact hk hc.symm

theorem backfilled_firstSeen (env : Env) (s : CBlockLocksHandler) (txid : uint256) :
    ∀ pre : List CBlockIndex,
      (backfilled env pre s).txFirstSeenTime.lookup txid = firstSeenAt env s pre txid := by
  intro pre
  induction pre using List.reverseRecOn with
  | nil => simp [backfilled, firstSeenAt, diskSeen]
  | append_singleton pre b ih =>
    rw [backfilled_snoc, getBlockTxs_firstSeen, ih]
    unfold firstSeenAt
    rw [diskSeen_append]
    have hb : diskSeen env s [b] txid = diskRecord env s b txid := by
      rw [diskSeen, diskSeen]
      cases diskRecord env s b txid <;> rfl
    rw [hb]
    cases hs : s.txFirstSeenTime.lookup txid with
    | some t => rfl
    | none =>
      simp only [Option.none_or]
      cases hd : diskSeen env s pre txid with
      | some t => rfl
      | none =>
        simp only [Option.none_or]
        -- nothing recorded so far: the block brings the same time in both handlers
        have hI := backfilled_blockTxs env s b.GetBlockHash pre
        unfold diskRecord
        cases hl : s.blockTxs.lookup b.GetBlockHash with
        | some v =>
          rw [hl] at hI
          have hI1 : (backfilled env pre s).blockTxs.lookup b.GetBlockHash = some v := hI
          rw [hI1]
        | none =>
          rw [hl] at hI
          simp only [Option.none_or] at hI
          cases hdb : diskBlock env b.GetBlockHash with
          | none =>
            rw [hdb] at hI
            simp only [Option.map_none', ite_self] at hI
            rw [hI]
          | some block =>
            rw [hdb] at hI
            simp only [Option.map_some'] at hI
            by_cases hp : pre.any (fun c => c.GetBlockHash == b.GetBlockHash) = true
            · rw [if_pos hp] at hI
              rw [hI]
              dsimp only
              rw [List.any_eq_true] at hp
              obtain ⟨c, hc, hch⟩ := hp
              have hch1 : c.GetBlockHash = b.GetBlockHash := by simpa using hch
              have hrec := diskSeen_none env s txid pre hd c hc
              unfold diskRecord at hrec
              rw [hch1, hl, hdb] at hrec
              dsimp only at hrec
              by_cases hh : holdsTx block.vtx txid = true
              · rw [if_pos hh] at hrec; cases hrec
              · rw [if_neg hh]
            · rw [if_neg hp] at hI
              rw [hI]

theorem backfilled_result (env : Env) (s : CBlockLocksHandler) (pre : List CBlockIndex)
    (b : CBlockIndex) :
    (GetBlockTxs env b.GetBlockHash (backfilled env pre s)).2 =
      (s.blockTxs.lookup b.GetBlockHash).or
        ((diskBlock env b.GetBlockHash).map (fun block => diskTxs block.vtx [])) := by
  rw [getBlockTxs_result, backfilled_blockTxs]
  cases s.blockTxs.lookup b.GetBlockHash with
  | some v => rfl
  | none =>
    simp only [Option.none_or]
    by_cases hp : pre.any (fun c => c.GetBlockHash == b.GetBlockHash) = true
    · rw [if_pos hp]
      cases (diskBlock env b.GetBlockHash).map (fun block => diskTxs block.vtx []) <;> rfl
    · rw [if_neg hp]
      rfl

theorem txSafe_backfilled (env : Env) (s : CBlockLocksHandler) (blocks : List CBlockIndex)
    (txid : uint256) :
    txSafe env (backfilled env blocks s) txid = true ↔ SafeAt env s blocks txid := by
  unfold txSafe firstSeenAge SafeAt ageAt
  rw [backfilled_firstSeen]
  simp only [Bool.or_eq_true, decide_eq_true_eq]

theorem walkSafe_iff_allSafe (env : Env) (blocks : List CBlockIndex) (s : CBlockLocksHandler) :
    WalkSafe env blocks s ↔ AllSafe env blocks s := by
  unfold WalkSafe AllSafe
  refine forall_congr' (fun pre => forall_congr' (fun b => forall_congr' (fun post =>
    imp_congr_right (fun _ => ?_))))
  rw [← backfilled_snoc, backfilled_result]
  simp only [txSafe_backfilled]
  cases hl : s.blockTxs.lookup b.GetBlockHash with
  | some v =>
    simp only [Option.some.injEq, forall_eq', reduceCtorEq, false_implies, and_true]
    constructor
    · intro h
      exact h v rfl
    · intro h txids ht
      have : v = txids := by
        have h2 : (some v).or ((diskBlock env b.GetBlockHash).map
            (fun block => diskTxs block.vtx [])) = some v := rfl
        rw [h2] at ht
        exact Option.some.inj ht
      subst this
      exact h
  | none =>
    simp only [Option.none_or, reduceCtorEq, false_implies, implies_true, true_and,
      forall_const]
    cases hd : diskBlock env b.GetBlockHash with
    | none => simp
    | some block =>
      simp only [Option.map_some', Option.some.injEq, forall_eq']
      constructor
      · intro h tx hm hc hv
        apply h
        have hm2 := mem_diskTxs tx.hash block.vtx []
        simp only [List.not_mem_nil, false_or] at hm2
        exact hm2.2 (holdsTx_of_mem _ _ hm hc hv)
      · intro h txid hmem
        have hm2 := mem_diskTxs txid block.vtx []
        simp only [List.not_mem_nil, false_or] at hm2
        obtain ⟨tx, hm, hc, hv, hx⟩ := (holdsTx_iff _ _).1 (hm2.1 hmem)
        rw [← hx]
        exact h tx hm hc hv

theorem diskSeen_of_held (env : Env) (s : CBlockLocksHandler) (txid : uint256) :
    ∀ blocks : List CBlockIndex,
      (∀ b ∈ blocks, s.blockTxs.lookup b.GetBlockHash ≠ none) →
        diskSeen env s blocks txid = none := by
  intro blocks
  induction blocks with
  | nil => intro _; rfl
  | cons c rest ih =>
    intro h
    rw [diskSeen, ih (fun b hb => h b (List.mem_cons_of_mem _ hb))]
    have hc := h c (List.mem_cons_self _ _)
    unfold diskRecord
    cases hl : s.blockTxs.lookup c.GetBlockHash with
    | none => exact absurd hl hc
    | some v => rfl

theorem ageAt_of_held (env : Env) (s : CBlockLocksHandler) (txid : uint256)
    (blocks : List CBlockIndex)
    (h : ∀ b ∈ blocks, s.blockTxs.lookup b.GetBlockHash ≠ none) :
    ageAt env s blocks txid = firstSeenAge env s txid := by
  unfold ageAt firstSeenAt firstSeenAge
  rw [diskSeen_of_held env s txid blocks h]
  cases s.txFirstSeenTime.lookup txid <;> rfl

/-- Claim C23: with instant-send enabled, conflicting blocks rejected and the
other conditions of signing met, `TrySignChainTip` returns, and it calls
`AsyncSignIfMember` if and only if every block among the tip and its at most 5
nearest ancestors that lies above the first locked block, and whose
transaction set can be obtained, holds only transaction ids that are
instant-locked or of first-seen age at least `WAIT_FOR_ISLOCK_TIMEOUT`, which is
600.  The set of a block is the one `blockTxs` holds for it; without one it is
made of the non-coinbase transactions with inputs of the block read from disk,
which then are first seen at the time of that block unless seen before; a block
that has no set and cannot be read is passed over.  When `blockTxs` holds a set
for each of these blocks, the ages are those of `txFirstSeenTime` as the call
finds it.  The blocks inspected are at most 6 and none is more than 5 below
the tip.  Without the call `lastSignedHeight` is unchanged and differs from the
tip height as before. -/
theorem C23_safety_walk (env : Env) (s s1 : CBlockLocksHandler) (tip : CBlockIndex)
    (hclean : Cleanup env s = some s1) (htip : env.Tip = some tip) (hwf : tip.WellFormed)
    (his : env.IsInstantSendEnabled = true) (hrej : env.RejectConflictingBlocks = true)
    (hm : env.fMasternodeMode = true) (hsync : env.IsBlockchainSynced = true)
    (hen : s.isEnabled = true) (hprev : tip.pprev ≠ none)
    (hne : tip.nHeight ≠ s.lastSignedHeight) (hlt : s.bestBlockLock.nHeight < tip.nHeight)
    (hconf : HasConflictingBlockLock s tip.nHeight tip.GetBlockHash = some false) :
    WAIT_FOR_ISLOCK_TIMEOUT = 600 ∧
    ∃ r, TrySignChainTip env s = some r ∧
      (signRequests r.2 ≠ [] ↔ AllSafe env (inspected s1 tip) s1) ∧
      (signRequests r.2 ≠ [] ↔
        ∀ pre b post, inspected s1 tip = pre ++ b :: post →
          (∀ txids, s1.blockTxs.lookup b.GetBlockHash = some txids →
            ∀ txid ∈ txids,
              env.IsLocked txid = true ∨
                ageAt env s1 (pre ++ [b]) txid ≥ WAIT_FOR_ISLOCK_TIMEOUT) ∧
          (s1.blockTxs.lookup b.GetBlockHash = none →
            ∀ block, env.ReadBlockFromDisk (env.LookupBlockIndex b.GetBlockHash) = some block →
              ∀ tx ∈ block.vtx, tx.IsCoinBase = false → tx.vin ≠ [] →
                env.IsLocked tx.hash = true ∨
                  ageAt env s1 (pre ++ [b]) tx.hash ≥ WAIT_FOR_ISLOCK_TIMEOUT)) ∧
      ((∀ b ∈ inspected s1 tip, s1.blockTxs.lookup b.GetBlockHash ≠ none) →
        (signRequests r.2 ≠ [] ↔
          ∀ b ∈ inspected s1 tip, ∀ txids, s1.blockTxs.lookup b.GetBlockHash = some txids →
            ∀ txid ∈ txids,
              env.IsLocked txid = true ∨
                firstSeenAge env s1 txid ≥ WAIT_FOR_ISLOCK_TIMEOUT)) ∧
      (inspected s1 tip).length ≤ 6 ∧
      (∀ b ∈ inspected s1 tip,
        tip.nHeight - b.nHeight ≤ 5 ∧ b ∈ tip.chain ∧
        HasBlockLock s1 b.nHeight b.GetBlockHash = false) ∧
      (signRequests r.2 = [] →
        r.1.lastSignedHeight = s.lastSignedHeight ∧ tip.nHeight ≠ r.1.lastSignedHeight) := by
  refine ⟨by decide, ?_⟩
  have hrun := trySignChainTip_walk env s s1 tip hclean htip his hrej hm hsync hen hprev hne
    hlt hconf
  have hf := (coreView_eq_iff s1 s).1 (cleanup_coreView env s s1 hclean)
  have hw := (coreView_eq_iff _ _).1 (walkChain_coreView env tip tip s1)
  have href : walkChain env tip tip s1 = walkBlocks env (inspected s1 tip) s1 := by
    rw [walkChain_eq_walkBlocks, walked_eq_inspected s1 tip hwf]
  have hsafe := (walkBlocks_true_iff env (inspected s1 tip) s1).trans
    (walkSafe_iff_allSafe env (inspected s1 tip) s1)
  rw [← href] at hsafe
  have hiff : ∀ r, TrySignChainTip env s = some r →
      (signRequests r.2 ≠ [] ↔ AllSafe env (inspected s1 tip) s1) := by
    intro r hr
    rw [hrun] at hr
    rw [← hsafe]
    by_cases h7 : (walkChain env tip tip s1).2 = true
    · rw [if_pos h7] at hr
      rw [← Option.some.inj hr]
      simp [signRequests, h7]
    · rw [if_neg h7] at hr
      rw [← Option.some.inj hr]
      simp [signRequests, h7]
  refine ⟨_, hrun, hiff _ hrun, ?_, ?_, ?_, ?_, ?_⟩
  · rw [hiff _ hrun]
    exact Iff.rfl
  · intro hheld
    rw [hiff _ hrun]
    unfold AllSafe SafeAt
    constructor
    · intro h b hb txids ht txid hmem
      obtain ⟨pre, post, hsplit⟩ := List.append_of_mem hb
      have hsub : ∀ c ∈ pre ++ [b], s1.blockTxs.lookup c.GetBlockHash ≠ none := by
        intro c hc
        apply hheld
        rw [hsplit]
        rcases List.mem_append.1 hc with hc1 | hc1
        · exact List.mem_append_left _ hc1
        · rw [List.mem_singleton] at hc1
          subst hc1
          exact List.mem_append_right _ (List.mem_cons_self _ _)
      have := (h pre b post hsplit).1 txids ht txid hmem
      rw [ageAt_of_held env s1 txid _ hsub] at this
      exact this
    · intro h pre b post hsplit
      have hb : b ∈ inspected s1 tip := by
        rw [hsplit]
        exact List.mem_append_right _ (List.mem_cons_self _ _)
      have hsub : ∀ c ∈ pre ++ [b], s1.blockTxs.lookup c.GetBlockHash ≠ none := by
        intro c hc
        apply hheld
        rw [hsplit]
        rcases List.mem_append.1 hc with hc1 | hc1
        · exact List.mem_append_left _ hc1
        · rw [List.mem_singleton] at hc1
          subst hc1
          exact List.mem_append_right _ (List.mem_cons_self _ _)
      refine ⟨?_, fun hn => absurd hn (hheld b hb)⟩
      intro txids ht txid hmem
      rw [ageAt_of_held env s1 txid _ hsub]
      exact h b hb txids ht txid hmem
  · unfold inspected
    exact ((List.takeWhile_sublist _).length_le).trans (List.length_take_le _ _)
  · intro b hb
    rw [← walked_eq_inspected s1 tip hwf] at hb
    obtain ⟨h1, h2, h3⟩ := walked_depth s1 tip tip b hb
    exact ⟨h1, h3, h2⟩
  · by_cases h7 : (walkChain env tip tip s1).2 = true
    · rw [if_pos h7]
      intro hc
      simp [signRequests] at hc
    · rw [if_neg h7]
      intro _
      dsimp only
      rw [hw.2.2.2.2.2.2.2.2.1, hf.2.2.2.2.2.2.2.2.1]
      exact ⟨rfl, hne⟩

/-- Claim C23 on the masternode: `block1` is locked and the tip `block2` holds a
transaction that is not instant-locked.  With the transaction first seen at
time 0, the call at time 120 does not sign and leaves `lastSignedHeight` at -1,
the call at time 600 signs.  With no set for `block2` in `blockTxs` and the
block, of time 900, on disk, the call at time 1000 does not sign and the call
at time 1500 signs. -/
theorem C23_safety_walk_witness :
    inspected handlerPay block2 = [block2] ∧
    handlerPay.blockTxs.lookup block2.GetBlockHash = some [txPay.hash] ∧
    (TrySignChainTip envAt120 handlerPay).map (fun r => (signRequests r.2, r.1.lastSignedHeight))
      = some ([], -1) ∧
    (TrySignChainTip envAt600 handlerPay).map (fun r => (signRequests r.2, r.1.lastSignedHeight))
      = some ([(1, 1002, 12)], 2) ∧
    handlerLocked1.blockTxs.lookup block2.GetBlockHash = none ∧
    diskBlock envDisk1000 block2.GetBlockHash = some blockThree ∧
    (TrySignChainTip envDisk1000 handlerLocked1).map
        (fun r => (signRequests r.2, r.1.lastSignedHeight)) = some ([], -1) ∧
    (TrySignChainTip envDisk1500 handlerLocked1).map
        (fun r => (signRequests r.2, r.1.lastSignedHeight)) = some ([(1, 1002, 12)], 2) ∧
    ∃ r, TrySignChainTip envAt600 handlerPay = some r ∧
      (signRequests r.2 ≠ [] ↔ AllSafe envAt600 (inspected handlerPay block2) handlerPay) :=
  have h := C23_safety_walk envAt600 handlerPay handlerPay block2 (by decide) (by decide)
    (by decide) (by decide) (by decide) (by decide) (by decide) (by decide) (by decide)
    (by decide) (by decide) (by decide)
  ⟨by decide, by decide, by decide, by decide, by decide, by decide, by decide, by decide,
    h.2.elim (fun r hr => ⟨r, hr.1, hr.2.1⟩)⟩

/-- With the first-seen time at the least value of `int64_t` and the adjusted
time 1 the `int64_t` difference is negative, and the transaction is not safe
for mining. -/
theorem isTxSafeForMining_wrap_example :
    handlerEarliest.txFirstSeenTime.lookup txPay.hash = some (-9223372036854775808) ∧
    wrapInt64 (envAt1.GetAdjustedTime - -9223372036854775808) = -9223372036854775807 ∧
    IsTxSafeForMining envAt1 handlerEarliest txPay.hash = false := by
  decide

end llmq
